import Mathlib

/-!
Code objects: `CodeReference`, `CodeLookupResult`, `InstructionStream`, `DeoptimizationData`,
`DependentCode`.

A shallow embedding of `src/codegen/code-reference.cc` and `src/objects/code.h`.

Conventions of the embedding.

* An `Address` (`uintptr_t`) and a `byte*` are natural numbers; address arithmetic wraps modulo
  `2 ^ (8 * kSystemPointerSize)`.
* An `int` is an integer.  Signed overflow is undefined behaviour, so an `int` computation is
  a partial function: it yields `none` as soon as an intermediate value leaves the 32-bit range.
* A failed `DCHECK` and a reached `UNREACHABLE()` are contract violations; a function that can hit
  one returns `Except Failure _`.
* Preprocessor switches and architecture constants are fields of `BuildConfig`.
-/

namespace v8

/-! ## Build configuration and machine arithmetic -/

/-- Preprocessor switches and architecture constants the two source files depend on. -/
structure BuildConfig where
  /-- Size of a pointer in bytes (`kSystemPointerSize`). -/
  kSystemPointerSize : Nat
  /-- Size of a tagged field in bytes (`kTaggedSize`). -/
  kTaggedSize : Nat
  /-- Binary logarithm of the code alignment (`kCodeAlignmentBits`). -/
  kCodeAlignmentBits : Nat
  /-- `#if V8_ENABLE_WEBASSEMBLY`. -/
  V8_ENABLE_WEBASSEMBLY : Bool
  /-- `#ifdef DEBUG`. -/
  DEBUG : Bool
  /-- `V8_EXTERNAL_CODE_SPACE_BOOL`. -/
  V8_EXTERNAL_CODE_SPACE_BOOL : Bool
  /-- `V8_EMBEDDED_CONSTANT_POOL_BOOL`. -/
  V8_EMBEDDED_CONSTANT_POOL_BOOL : Bool
deriving DecidableEq, Repr

/-- The x64 configuration with pointer compression and an external code space. -/
def BuildConfig.x64 : BuildConfig where
  kSystemPointerSize := 8
  kTaggedSize := 4
  kCodeAlignmentBits := 6
  V8_ENABLE_WEBASSEMBLY := true
  DEBUG := false
  V8_EXTERNAL_CODE_SPACE_BOOL := true
  V8_EMBEDDED_CONSTANT_POOL_BOOL := false

/-- The ia32 configuration, debug build. -/
def BuildConfig.ia32Debug : BuildConfig where
  kSystemPointerSize := 4
  kTaggedSize := 4
  kCodeAlignmentBits := 5
  V8_ENABLE_WEBASSEMBLY := true
  DEBUG := true
  V8_EXTERNAL_CODE_SPACE_BOOL := false
  V8_EMBEDDED_CONSTANT_POOL_BOOL := false

/-- Number of distinct `Address` values: `2 ^ (8 * kSystemPointerSize)`. -/
def BuildConfig.kAddressModulus (cfg : BuildConfig) : Nat := 2 ^ (8 * cfg.kSystemPointerSize)

/-- `kNullAddress`. -/
def kNullAddress : Nat := 0

/-- `Address + int` and `byte* + int`: the offset is converted to `uintptr_t` and the sum wraps
modulo the word size. -/
def AddressAdd (cfg : BuildConfig) (a : Nat) (offset : Int) : Nat :=
  (((a : Int) + offset) % (cfg.kAddressModulus : Int)).toNat

/-- `kMaxInt`. -/
def kMaxInt : Int := 2147483647

/-- `kMinInt`. -/
def kMinInt : Int := -2147483648

/-- The value of an `int` expression whose mathematical value is `x`: defined when `x` is
representable in 32 bits, undefined (signed overflow) otherwise. -/
def checkedInt (x : Int) : Option Int :=
  if kMinInt ≤ x ∧ x ≤ kMaxInt then some x else none

/-- `static_cast<int>` of an unsigned size: reduction modulo `2 ^ 32` into the signed range. -/
def static_cast_int (x : Nat) : Int :=
  ((x : Int) + 2147483648) % 4294967296 - 2147483648

/-- The two ways a query can abort: a failed `DCHECK` or a reached `UNREACHABLE()`. -/
inductive Failure where
  | DCHECK
  | UNREACHABLE
deriving DecidableEq, Repr

/-- `DCHECK(condition)`: a contract check (fatal in debug builds, undefined behaviour in release
builds); the continuation runs only when the condition holds. -/
def DCHECK {α : Type} (condition : Bool) (k : Except Failure α) : Except Failure α :=
  if condition then k else Except.error Failure.DCHECK

/-! ## Heap object references -/

/-- An `InstructionStream` value: a tagged pointer to the heap object. -/
structure InstructionStream where
  ptr : Nat
deriving DecidableEq, Repr

/-- A `Code` value: a tagged pointer to the heap object. -/
structure Code where
  ptr : Nat
deriving DecidableEq, Repr

/-- The default-constructed object holds `kNullAddress`. -/
instance : Inhabited InstructionStream := ⟨⟨kNullAddress⟩⟩

/-- The default-constructed object holds `kNullAddress`. -/
instance : Inhabited Code := ⟨⟨kNullAddress⟩⟩

/-- `Object::is_null()`. -/
def InstructionStream.is_null (self : InstructionStream) : Bool := self.ptr == kNullAddress

/-- `Object::is_null()`. -/
def Code.is_null (self : Code) : Bool := self.ptr == kNullAddress

/-! ## `code-reference.cc` -/

/-- The accessors of an installed code object (`Code` or `InstructionStream`) that
`CodeOrInstructionStreamOps` forwards to.  They are declared in `code.h`; their bodies live in
`code-inl.h`, so they are parameters of the embedding. -/
structure CodeAccessors (T : Type) where
  constant_pool : T → Nat
  InstructionStart : T → Nat
  InstructionEnd : T → Nat
  InstructionSize : T → Int
  relocation_start : T → Nat
  relocation_end : T → Nat
  relocation_size : T → Int
  code_comments : T → Nat
  code_comments_size : T → Int

/-- A `base::Vector<const byte>`: start address and number of bytes. -/
structure Vector where
  start_ : Nat
  length_ : Nat
deriving DecidableEq, Repr

/-- `Vector::begin()`. -/
def Vector.begin (v : Vector) : Nat := v.start_

/-- `Vector::size()`. -/
def Vector.size (v : Vector) : Nat := v.length_

/-- `Vector::length()`: the size as an `int`. -/
def Vector.length (v : Vector) : Int := static_cast_int v.length_

/-- The part of `wasm::WasmCode` read by `WasmCodeOps`. -/
structure WasmCode where
  constant_pool : Nat
  instructions : Vector
  reloc_info : Vector
  code_comments : Nat
  code_comments_size : Int
deriving DecidableEq, Repr

/-- The part of `CodeDesc` read by `CodeDescOps`: the raw buffer and offsets into it. -/
structure CodeDesc where
  buffer : Nat
  buffer_size : Int
  instr_size : Int
  reloc_offset : Int
  reloc_size : Int
  constant_pool_offset : Int
  code_comments_offset : Int
  code_comments_size : Int
deriving DecidableEq, Repr

namespace CodeOrInstructionStreamOps

variable {T : Type}

def constant_pool (acc : CodeAccessors T) (code : T) : Nat := acc.constant_pool code
def instruction_start (acc : CodeAccessors T) (code : T) : Nat := acc.InstructionStart code
def instruction_end (acc : CodeAccessors T) (code : T) : Nat := acc.InstructionEnd code
def instruction_size (acc : CodeAccessors T) (code : T) : Int := acc.InstructionSize code
def relocation_start (acc : CodeAccessors T) (code : T) : Nat := acc.relocation_start code
def relocation_end (acc : CodeAccessors T) (code : T) : Nat := acc.relocation_end code
def relocation_size (acc : CodeAccessors T) (code : T) : Int := acc.relocation_size code
def code_comments (acc : CodeAccessors T) (code : T) : Nat := acc.code_comments code
def code_comments_size (acc : CodeAccessors T) (code : T) : Int := acc.code_comments_size code

end CodeOrInstructionStreamOps

namespace WasmCodeOps

def constant_pool (code : WasmCode) : Nat := code.constant_pool
def instruction_start (code : WasmCode) : Nat := code.instructions.begin
def instruction_end (cfg : BuildConfig) (code : WasmCode) : Nat :=
  AddressAdd cfg code.instructions.begin code.instructions.size
def instruction_size (code : WasmCode) : Int := code.instructions.length
def relocation_start (code : WasmCode) : Nat := code.reloc_info.begin
def relocation_end (cfg : BuildConfig) (code : WasmCode) : Nat :=
  AddressAdd cfg code.reloc_info.begin code.reloc_info.length
def relocation_size (code : WasmCode) : Int := code.reloc_info.length
def code_comments (code : WasmCode) : Nat := code.code_comments
def code_comments_size (code : WasmCode) : Int := code.code_comments_size

end WasmCodeOps

namespace CodeDescOps

def instruction_start (code_desc : CodeDesc) : Nat := code_desc.buffer
def constant_pool (cfg : BuildConfig) (code_desc : CodeDesc) : Nat :=
  AddressAdd cfg (instruction_start code_desc) code_desc.constant_pool_offset
def instruction_end (cfg : BuildConfig) (code_desc : CodeDesc) : Nat :=
  AddressAdd cfg (instruction_start code_desc) code_desc.instr_size
def instruction_size (code_desc : CodeDesc) : Int := code_desc.instr_size
def relocation_start (cfg : BuildConfig) (code_desc : CodeDesc) : Nat :=
  AddressAdd cfg code_desc.buffer code_desc.reloc_offset
def relocation_end (cfg : BuildConfig) (code_desc : CodeDesc) : Nat :=
  AddressAdd cfg code_desc.buffer code_desc.buffer_size
def relocation_size (code_desc : CodeDesc) : Int := code_desc.reloc_size
def code_comments (cfg : BuildConfig) (code_desc : CodeDesc) : Nat :=
  AddressAdd cfg (instruction_start code_desc) code_desc.code_comments_offset
def code_comments_size (code_desc : CodeDesc) : Int := code_desc.code_comments_size

end CodeDescOps

/-- Modelled from the spec: `CodeReference` is a closed tagged union over InstructionStream,
Code, externally managed module code and a pre-installation code descriptor, with exactly one
payload active, or none (`code-reference.h` is not among the sources).  The constructor is the
`kind_` tag, its argument the active member of the union. -/
inductive CodeReference where
  | NONE
  | INSTRUCTION_STREAM (instruction_stream_ : InstructionStream)
  | CODE (code_ : Code)
  | WASM_CODE (wasm_code_ : WasmCode)
  | CODE_DESC (code_desc_ : CodeDesc)
deriving DecidableEq, Repr

/-- Modelled from the spec: a reference is null when no payload is set. -/
def CodeReference.is_null : CodeReference → Bool
  | .NONE => true
  | _ => false

/-- The `DISPATCH(ret, method)` macro: the body of every `CodeReference::method()`, given the
`method` of each of the four adapters.  `HANDLE_WASM` expands to its argument when WebAssembly is
compiled in and to `UNREACHABLE()` otherwise. -/
def CodeReference.DISPATCH {ret : Type} (cfg : BuildConfig) (self : CodeReference)
    (InstructionStreamOps_method : InstructionStream → ret) (CodeOps_method : Code → ret)
    (WasmCodeOps_method : WasmCode → ret) (CodeDescOps_method : CodeDesc → ret) :
    Except Failure ret :=
  DCHECK (!self.is_null) <|
    match self with
    | .INSTRUCTION_STREAM instruction_stream_ =>
        Except.ok (InstructionStreamOps_method instruction_stream_)
    | .CODE code_ => Except.ok (CodeOps_method code_)
    | .WASM_CODE wasm_code_ =>
        if cfg.V8_ENABLE_WEBASSEMBLY then Except.ok (WasmCodeOps_method wasm_code_)
        else Except.error Failure.UNREACHABLE
    | .CODE_DESC code_desc_ => Except.ok (CodeDescOps_method code_desc_)
    | .NONE => Except.error Failure.UNREACHABLE

/-- The accessors of the two kinds of installed code objects. -/
structure InstalledCode where
  InstructionStreamOps : CodeAccessors InstructionStream
  CodeOps : CodeAccessors Code

namespace CodeReference

def constant_pool (cfg : BuildConfig) (env : InstalledCode) (self : CodeReference) :
    Except Failure Nat :=
  self.DISPATCH cfg (CodeOrInstructionStreamOps.constant_pool env.InstructionStreamOps)
    (CodeOrInstructionStreamOps.constant_pool env.CodeOps)
    WasmCodeOps.constant_pool (CodeDescOps.constant_pool cfg)

def instruction_start (cfg : BuildConfig) (env : InstalledCode) (self : CodeReference) :
    Except Failure Nat :=
  self.DISPATCH cfg (CodeOrInstructionStreamOps.instruction_start env.InstructionStreamOps)
    (CodeOrInstructionStreamOps.instruction_start env.CodeOps)
    WasmCodeOps.instruction_start CodeDescOps.instruction_start

def instruction_end (cfg : BuildConfig) (env : InstalledCode) (self : CodeReference) :
    Except Failure Nat :=
  self.DISPATCH cfg (CodeOrInstructionStreamOps.instruction_end env.InstructionStreamOps)
    (CodeOrInstructionStreamOps.instruction_end env.CodeOps)
    (WasmCodeOps.instruction_end cfg) (CodeDescOps.instruction_end cfg)

def instruction_size (cfg : BuildConfig) (env : InstalledCode) (self : CodeReference) :
    Except Failure Int :=
  self.DISPATCH cfg (CodeOrInstructionStreamOps.instruction_size env.InstructionStreamOps)
    (CodeOrInstructionStreamOps.instruction_size env.CodeOps)
    WasmCodeOps.instruction_size CodeDescOps.instruction_size

def relocation_start (cfg : BuildConfig) (env : InstalledCode) (self : CodeReference) :
    Except Failure Nat :=
  self.DISPATCH cfg (CodeOrInstructionStreamOps.relocation_start env.InstructionStreamOps)
    (CodeOrInstructionStreamOps.relocation_start env.CodeOps)
    WasmCodeOps.relocation_start (CodeDescOps.relocation_start cfg)

def relocation_end (cfg : BuildConfig) (env : InstalledCode) (self : CodeReference) :
    Except Failure Nat :=
  self.DISPATCH cfg (CodeOrInstructionStreamOps.relocation_end env.InstructionStreamOps)
    (CodeOrInstructionStreamOps.relocation_end env.CodeOps)
    (WasmCodeOps.relocation_end cfg) (CodeDescOps.relocation_end cfg)

def relocation_size (cfg : BuildConfig) (env : InstalledCode) (self : CodeReference) :
    Except Failure Int :=
  self.DISPATCH cfg (CodeOrInstructionStreamOps.relocation_size env.InstructionStreamOps)
    (CodeOrInstructionStreamOps.relocation_size env.CodeOps)
    WasmCodeOps.relocation_size CodeDescOps.relocation_size

def code_comments (cfg : BuildConfig) (env : InstalledCode) (self : CodeReference) :
    Except Failure Nat :=
  self.DISPATCH cfg (CodeOrInstructionStreamOps.code_comments env.InstructionStreamOps)
    (CodeOrInstructionStreamOps.code_comments env.CodeOps)
    WasmCodeOps.code_comments (CodeDescOps.code_comments cfg)

def code_comments_size (cfg : BuildConfig) (env : InstalledCode) (self : CodeReference) :
    Except Failure Int :=
  self.DISPATCH cfg (CodeOrInstructionStreamOps.code_comments_size env.InstructionStreamOps)
    (CodeOrInstructionStreamOps.code_comments_size env.CodeOps)
    WasmCodeOps.code_comments_size CodeDescOps.code_comments_size

end CodeReference

/-! ### Notions used to state the properties of `CodeReference` -/

/-- The query `query` asserts that the reference is not null: on `r` it fails its `DCHECK`
exactly when `r` is null, and returns a value when `r` holds a payload. -/
def CodeReference.AssertsNonNull {ret : Type} (query : CodeReference → Except Failure ret)
    (r : CodeReference) : Prop :=
  (query r = Except.error Failure.DCHECK ↔ r.is_null = true) ∧
  ((∃ e, query r = Except.error e) ↔ r.is_null = true) ∧
  (r.is_null = false → ∃ v, query r = Except.ok v)

/-- Every `int` field of the descriptor holds an `int`. -/
def CodeDesc.IsValid (d : CodeDesc) : Prop :=
  (kMinInt ≤ d.buffer_size ∧ d.buffer_size ≤ kMaxInt) ∧
  (kMinInt ≤ d.instr_size ∧ d.instr_size ≤ kMaxInt) ∧
  (kMinInt ≤ d.reloc_offset ∧ d.reloc_offset ≤ kMaxInt) ∧
  (kMinInt ≤ d.reloc_size ∧ d.reloc_size ≤ kMaxInt) ∧
  (kMinInt ≤ d.constant_pool_offset ∧ d.constant_pool_offset ≤ kMaxInt) ∧
  (kMinInt ≤ d.code_comments_offset ∧ d.code_comments_offset ≤ kMaxInt) ∧
  (kMinInt ≤ d.code_comments_size ∧ d.code_comments_size ≤ kMaxInt)

instance (d : CodeDesc) : Decidable d.IsValid := by
  unfold CodeDesc.IsValid; infer_instance

/-- An underlying byte layout of one piece of code, as the parity law of the specification
speaks of it: where the instructions, the relocation info and the code comments lie and how many
bytes each takes. -/
structure ByteLayout where
  instruction_start : Nat
  instruction_size : Nat
  relocation_start : Nat
  relocation_size : Nat
  code_comments : Nat
  code_comments_size : Nat
deriving DecidableEq, Repr

/-- An installed code object (`Code` or `InstructionStream`) describes the layout `L`: its
accessors report the bounds and sizes of `L`. -/
def ByteLayout.DescribedByInstalled {T : Type} (cfg : BuildConfig) (L : ByteLayout)
    (acc : CodeAccessors T) (code : T) : Prop :=
  acc.InstructionStart code = L.instruction_start ∧
  acc.InstructionEnd code = AddressAdd cfg L.instruction_start L.instruction_size ∧
  acc.InstructionSize code = L.instruction_size ∧
  acc.relocation_start code = L.relocation_start ∧
  acc.relocation_end code = AddressAdd cfg L.relocation_start L.relocation_size ∧
  acc.relocation_size code = L.relocation_size ∧
  acc.code_comments code = L.code_comments ∧
  acc.code_comments_size code = L.code_comments_size

/-- A wasm code object describes the layout `L`: its instruction and relocation spans and its
code comments are those of `L`. -/
def ByteLayout.DescribedByWasmCode (L : ByteLayout) (code : WasmCode) : Prop :=
  code.instructions = ⟨L.instruction_start, L.instruction_size⟩ ∧
  code.reloc_info = ⟨L.relocation_start, L.relocation_size⟩ ∧
  code.code_comments = L.code_comments ∧
  code.code_comments_size = L.code_comments_size

/-- A code descriptor describes the layout `L`: the instructions start at the buffer and take
`instr_size` bytes, the relocation info starts at `reloc_offset` and takes `reloc_size` bytes, the
code comments start at `code_comments_offset` and take `code_comments_size` bytes. -/
def ByteLayout.DescribedByCodeDesc (cfg : BuildConfig) (L : ByteLayout) (d : CodeDesc) : Prop :=
  d.IsValid ∧
  d.buffer = L.instruction_start ∧
  d.instr_size = L.instruction_size ∧
  AddressAdd cfg d.buffer d.reloc_offset = L.relocation_start ∧
  d.reloc_size = L.relocation_size ∧
  AddressAdd cfg d.buffer d.code_comments_offset = L.code_comments ∧
  d.code_comments_size = L.code_comments_size

/-- The parity law for one layout and four origins describing it: the four adapters report
identical instruction bounds, relocation bounds and code-comments bounds. -/
def ByteLayout.Parity (cfg : BuildConfig) (env : InstalledCode) (s : InstructionStream) (c : Code)
    (w : WasmCode) (d : CodeDesc) : Prop :=
  (CodeOrInstructionStreamOps.instruction_start env.InstructionStreamOps s =
      CodeOrInstructionStreamOps.instruction_start env.CodeOps c ∧
    CodeOrInstructionStreamOps.instruction_start env.CodeOps c = WasmCodeOps.instruction_start w ∧
    WasmCodeOps.instruction_start w = CodeDescOps.instruction_start d) ∧
  (CodeOrInstructionStreamOps.instruction_end env.InstructionStreamOps s =
      CodeOrInstructionStreamOps.instruction_end env.CodeOps c ∧
    CodeOrInstructionStreamOps.instruction_end env.CodeOps c = WasmCodeOps.instruction_end cfg w ∧
    WasmCodeOps.instruction_end cfg w = CodeDescOps.instruction_end cfg d) ∧
  (CodeOrInstructionStreamOps.relocation_start env.InstructionStreamOps s =
      CodeOrInstructionStreamOps.relocation_start env.CodeOps c ∧
    CodeOrInstructionStreamOps.relocation_start env.CodeOps c = WasmCodeOps.relocation_start w ∧
    WasmCodeOps.relocation_start w = CodeDescOps.relocation_start cfg d) ∧
  (CodeOrInstructionStreamOps.relocation_end env.InstructionStreamOps s =
      CodeOrInstructionStreamOps.relocation_end env.CodeOps c ∧
    CodeOrInstructionStreamOps.relocation_end env.CodeOps c = WasmCodeOps.relocation_end cfg w ∧
    WasmCodeOps.relocation_end cfg w = CodeDescOps.relocation_end cfg d) ∧
  (CodeOrInstructionStreamOps.code_comments env.InstructionStreamOps s =
      CodeOrInstructionStreamOps.code_comments env.CodeOps c ∧
    CodeOrInstructionStreamOps.code_comments env.CodeOps c = WasmCodeOps.code_comments w ∧
    WasmCodeOps.code_comments w = CodeDescOps.code_comments cfg d) ∧
  (CodeOrInstructionStreamOps.code_comments_size env.InstructionStreamOps s =
      CodeOrInstructionStreamOps.code_comments_size env.CodeOps c ∧
    CodeOrInstructionStreamOps.code_comments_size env.CodeOps c = WasmCodeOps.code_comments_size w ∧
    WasmCodeOps.code_comments_size w = CodeDescOps.code_comments_size d)

/-- Accessors of installed code objects that all report the layout `L`. -/
def ByteLayout.accessors (cfg : BuildConfig) (L : ByteLayout) (T : Type) : CodeAccessors T where
  constant_pool := fun _ => kNullAddress
  InstructionStart := fun _ => L.instruction_start
  InstructionEnd := fun _ => AddressAdd cfg L.instruction_start L.instruction_size
  InstructionSize := fun _ => L.instruction_size
  relocation_start := fun _ => L.relocation_start
  relocation_end := fun _ => AddressAdd cfg L.relocation_start L.relocation_size
  relocation_size := fun _ => L.relocation_size
  code_comments := fun _ => L.code_comments
  code_comments_size := fun _ => L.code_comments_size

/-- The layout of the concrete scenario of the specification, for a buffer at address 4096:
64 bytes of instructions, 8 bytes of relocation info at offset 64, 4 bytes of code comments at
offset 76. -/
def ByteLayout.scenario : ByteLayout := ⟨4096, 64, 4160, 8, 4172, 4⟩

/-- The code descriptor of the concrete scenario of the specification, for a buffer at `b`. -/
def CodeDesc.scenario (b : Nat) : CodeDesc where
  buffer := b
  buffer_size := 80
  instr_size := 64
  reloc_offset := 64
  reloc_size := 8
  constant_pool_offset := 72
  code_comments_offset := 76
  code_comments_size := 4

/-- A wasm code object with the layout of the concrete scenario, at address 4096. -/
def WasmCode.scenario : WasmCode where
  constant_pool := 4168
  instructions := ⟨4096, 64⟩
  reloc_info := ⟨4160, 8⟩
  code_comments := 4172
  code_comments_size := 4

/-- Installed code objects with the layout of the concrete scenario. -/
def InstalledCode.scenario (cfg : BuildConfig) : InstalledCode :=
  ⟨ByteLayout.scenario.accessors cfg InstructionStream, ByteLayout.scenario.accessors cfg Code⟩

/-- A descriptor of the same layout whose relocation info ends at the end of its buffer: the
buffer is 72 bytes long. -/
def CodeDesc.scenarioTail (b : Nat) : CodeDesc := { CodeDesc.scenario b with buffer_size := 72 }

/-! ## `CodeLookupResult` (`code.h`) -/

/-- The result of a code lookup by inner address: at most one of the two members is set. -/
structure CodeLookupResult where
  instruction_stream_ : InstructionStream
  code_ : Code
deriving DecidableEq, Repr

namespace CodeLookupResult

/-- `CodeLookupResult() = default`: not found, both members default-constructed. -/
def ctor : CodeLookupResult := ⟨default, default⟩

/-- `explicit CodeLookupResult(InstructionStream code)`: an InstructionStream object was found. -/
def ctor_InstructionStream (code : InstructionStream) : CodeLookupResult := ⟨code, default⟩

/-- `explicit CodeLookupResult(Code code)`: an embedded builtin was found. -/
def ctor_Code (code : Code) : CodeLookupResult := ⟨default, code⟩

def IsInstructionStream (self : CodeLookupResult) : Bool := !self.instruction_stream_.is_null

def IsCode (self : CodeLookupResult) : Bool := !self.code_.is_null

def IsFound (self : CodeLookupResult) : Bool := self.IsInstructionStream || self.IsCode

def instruction_stream (self : CodeLookupResult) : Except Failure InstructionStream :=
  DCHECK self.IsInstructionStream (Except.ok self.instruction_stream_)

def code (self : CodeLookupResult) : Except Failure Code :=
  DCHECK self.IsCode (Except.ok self.code_)

/-- `bool operator==(const CodeLookupResult& other) const`: both members are compared; two
object values are equal when they are the same tagged pointer. -/
def operator_eq (self other : CodeLookupResult) : Bool :=
  self.instruction_stream_ == other.instruction_stream_ && self.code_ == other.code_

/-- `bool operator!=(const CodeLookupResult& other) const`. -/
def operator_ne (self other : CodeLookupResult) : Bool := !self.operator_eq other

end CodeLookupResult

/-! ## `InstructionStream`: header layout and `SizeFor` (`code.h`) -/

/-- `kIntSize`. -/
def kIntSize : Int := 4

/-- `kInt32Size`. -/
def kInt32Size : Int := 4

/-- `HeapObject::kHeaderSize`: the map word. -/
def HeapObject.kHeaderSize (cfg : BuildConfig) : Int := cfg.kTaggedSize

/-- `kCodeAlignment = 1 << kCodeAlignmentBits`. -/
def kCodeAlignment (cfg : BuildConfig) : Int := 2 ^ cfg.kCodeAlignmentBits

/-- Modelled from the spec: round-up of `x` to the alignment `m` (the helper `RoundUp` of
`src/base/macros.h` is not among the sources).  The result is an `int` of the type of `x`. -/
def RoundUp (x m : Int) : Option Int := checkedInt ((x + (m - 1)) / m * m)

/-- `CODE_POINTER_PADDING(value)`: the distance from `value` to the next multiple of the code
alignment, `CODE_POINTER_ALIGN(value) - (value)`. -/
def CODE_POINTER_PADDING (cfg : BuildConfig) (value : Int) : Int :=
  (value + (kCodeAlignment cfg - 1)) / kCodeAlignment cfg * kCodeAlignment cfg - value

namespace InstructionStream

/-! The constants `DEFINE_FIELD_OFFSET_CONSTANTS(HeapObject::kHeaderSize, CODE_FIELDS)` defines:
every field starts where the previous one ends. -/

def kRelocationInfoOffset (cfg : BuildConfig) : Int := HeapObject.kHeaderSize cfg
def kDeoptimizationDataOrInterpreterDataOffset (cfg : BuildConfig) : Int :=
  kRelocationInfoOffset cfg + cfg.kTaggedSize
def kPositionTableOffset (cfg : BuildConfig) : Int :=
  kDeoptimizationDataOrInterpreterDataOffset cfg + cfg.kTaggedSize
def kCodeOffset (cfg : BuildConfig) : Int := kPositionTableOffset cfg + cfg.kTaggedSize
def kDataStart (cfg : BuildConfig) : Int := kCodeOffset cfg + cfg.kTaggedSize
def kMainCageBaseUpper32BitsOffset (cfg : BuildConfig) : Int := kDataStart cfg + 0
def kInstructionSizeOffset (cfg : BuildConfig) : Int :=
  kMainCageBaseUpper32BitsOffset cfg + (if cfg.V8_EXTERNAL_CODE_SPACE_BOOL then cfg.kTaggedSize else 0)
def kMetadataSizeOffset (cfg : BuildConfig) : Int := kInstructionSizeOffset cfg + kIntSize
def kFlagsOffset (cfg : BuildConfig) : Int := kMetadataSizeOffset cfg + kIntSize
def kBuiltinIndexOffset (cfg : BuildConfig) : Int := kFlagsOffset cfg + kInt32Size
def kInlinedBytecodeSizeOffset (cfg : BuildConfig) : Int := kBuiltinIndexOffset cfg + kIntSize
def kOsrOffsetOffset (cfg : BuildConfig) : Int := kInlinedBytecodeSizeOffset cfg + kIntSize
def kHandlerTableOffsetOffset (cfg : BuildConfig) : Int := kOsrOffsetOffset cfg + kInt32Size
def kConstantPoolOffsetOffset (cfg : BuildConfig) : Int := kHandlerTableOffsetOffset cfg + kIntSize
def kCodeCommentsOffsetOffset (cfg : BuildConfig) : Int :=
  kConstantPoolOffsetOffset cfg + (if cfg.V8_EMBEDDED_CONSTANT_POOL_BOOL then kIntSize else 0)
def kUnwindingInfoOffsetOffset (cfg : BuildConfig) : Int := kCodeCommentsOffsetOffset cfg + kIntSize
def kUnalignedHeaderSize (cfg : BuildConfig) : Int := kUnwindingInfoOffsetOffset cfg + kInt32Size
def kOptionalPaddingOffset (cfg : BuildConfig) : Int := kUnalignedHeaderSize cfg + 0
def kHeaderSize (cfg : BuildConfig) : Int :=
  kOptionalPaddingOffset cfg + CODE_POINTER_PADDING cfg (kOptionalPaddingOffset cfg)

/-- `FIELD_SIZE(kOptionalPaddingOffset)`, which the source asserts to be `kHeaderPaddingSize`. -/
def kHeaderPaddingSize (cfg : BuildConfig) : Int := kHeaderSize cfg - kOptionalPaddingOffset cfg

/-- `static int SizeFor(int body_size)`: the object size for a given body. -/
def SizeFor (cfg : BuildConfig) (body_size : Int) : Option Int :=
  (checkedInt (kHeaderSize cfg + body_size)).bind fun size => RoundUp size (kCodeAlignment cfg)

end InstructionStream

/-! ## `DeoptimizationData` (`code.h`) -/

/-- A `FixedArray`: its elements, as raw tagged words. -/
structure FixedArray where
  elements : List Int
deriving DecidableEq, Repr

/-- `FixedArray::length()`. -/
def FixedArray.length (self : FixedArray) : Int := self.elements.length

/-- Modelled from the spec: reading a slot of the array is defined for the valid indices
`0 ≤ index < length` only. -/
def FixedArray.get (self : FixedArray) (index : Int) : Except Failure Int :=
  DCHECK (decide (0 ≤ index ∧ index < self.length)) (Except.ok (self.elements.getD index.toNat 0))

/-- A `DeoptimizationData` is a fixed array with the layout described below. -/
abbrev DeoptimizationData := FixedArray

namespace DeoptimizationData

def kTranslationByteArrayIndex : Int := 0
def kInlinedFunctionCountIndex : Int := 1
def kLiteralArrayIndex : Int := 2
def kOsrBytecodeOffsetIndex : Int := 3
def kOsrPcOffsetIndex : Int := 4
def kOptimizationIdIndex : Int := 5
def kSharedFunctionInfoIndex : Int := 6
def kInliningPositionsIndex : Int := 7
def kDeoptExitStartIndex : Int := 8
def kEagerDeoptCountIndex : Int := 9
def kLazyDeoptCountIndex : Int := 10
def kFirstDeoptEntryIndex : Int := 11

def kBytecodeOffsetRawOffset : Int := 0
def kTranslationIndexOffset : Int := 1
def kPcOffset : Int := 2
/-- Only `#ifdef DEBUG`. -/
def kNodeIdOffset : Int := 3
def kDeoptEntrySize (cfg : BuildConfig) : Int := if cfg.DEBUG then 4 else 3

/-- `static int IndexForEntry(int i)`. -/
def IndexForEntry (cfg : BuildConfig) (i : Int) : Option Int :=
  (checkedInt (i * kDeoptEntrySize cfg)).bind fun offset =>
    checkedInt (kFirstDeoptEntryIndex + offset)

/-- `static int LengthFor(int entry_count)`. -/
def LengthFor (cfg : BuildConfig) (entry_count : Int) : Option Int := IndexForEntry cfg entry_count

/-- Modelled from the spec: `DeoptCount()` is the entry-region length divided by the entry
stride, `(length() - kFirstDeoptEntryIndex) / kDeoptEntrySize` in `int` arithmetic (the body is in
`code-inl.h`, not among the sources). -/
def DeoptCount (cfg : BuildConfig) (self : DeoptimizationData) : Int :=
  Int.tdiv (self.length - kFirstDeoptEntryIndex) (kDeoptEntrySize cfg)

/-- Modelled from the spec: the entry accessor `BytecodeOffsetRaw(i)` reads the slot
`IndexForEntry(i) + kBytecodeOffsetRawOffset`. -/
def BytecodeOffsetRaw (cfg : BuildConfig) (self : DeoptimizationData) (i : Int) :
    Except Failure Int :=
  match (IndexForEntry cfg i).bind fun index => checkedInt (index + kBytecodeOffsetRawOffset) with
  | some slot => self.get slot
  | none => Except.error Failure.DCHECK

/-- Modelled from the spec: `GetBytecodeOffset(i)` is the bytecode offset stored in entry `i`. -/
def GetBytecodeOffset (cfg : BuildConfig) (self : DeoptimizationData) (i : Int) :
    Except Failure Int :=
  BytecodeOffsetRaw cfg self i

/-- The header slots of the layout description, in source order. -/
def header_indices : List Int :=
  [kTranslationByteArrayIndex, kInlinedFunctionCountIndex, kLiteralArrayIndex,
   kOsrBytecodeOffsetIndex, kOsrPcOffsetIndex, kOptimizationIdIndex, kSharedFunctionInfoIndex,
   kInliningPositionsIndex, kDeoptExitStartIndex, kEagerDeoptCountIndex, kLazyDeoptCountIndex]

/-- The offsets of the fields of one entry, in source order; `kNodeIdOffset` is declared
`#ifdef DEBUG` only. -/
def entry_offsets (cfg : BuildConfig) : List Int :=
  [kBytecodeOffsetRawOffset, kTranslationIndexOffset, kPcOffset] ++
    (if cfg.DEBUG then [kNodeIdOffset] else [])

end DeoptimizationData

/-! ## `DependentCode` (`code.h`) -/

/-- `enum DependencyGroup`. -/
inductive DependentCode.DependencyGroup where
  | kTransitionGroup
  | kPrototypeCheckGroup
  | kPropertyCellChangedGroup
  | kFieldTypeGroup
  | kFieldConstGroup
  | kFieldRepresentationGroup
  | kInitialMapChangedGroup
  | kAllocationSiteTenuringChangedGroup
  | kAllocationSiteTransitionChangedGroup
deriving DecidableEq, Repr

/-- The enumerator values. -/
def DependentCode.DependencyGroup.value : DependentCode.DependencyGroup → Nat
  | .kTransitionGroup => 1 <<< 0
  | .kPrototypeCheckGroup => 1 <<< 1
  | .kPropertyCellChangedGroup => 1 <<< 2
  | .kFieldTypeGroup => 1 <<< 3
  | .kFieldConstGroup => 1 <<< 4
  | .kFieldRepresentationGroup => 1 <<< 5
  | .kInitialMapChangedGroup => 1 <<< 6
  | .kAllocationSiteTenuringChangedGroup => 1 <<< 7
  | .kAllocationSiteTransitionChangedGroup => 1 <<< 8

/-- All enumerators, in declaration order. -/
def DependentCode.DependencyGroup.all : List DependentCode.DependencyGroup :=
  [.kTransitionGroup, .kPrototypeCheckGroup, .kPropertyCellChangedGroup, .kFieldTypeGroup,
   .kFieldConstGroup, .kFieldRepresentationGroup, .kInitialMapChangedGroup,
   .kAllocationSiteTenuringChangedGroup, .kAllocationSiteTransitionChangedGroup]

/-- `using DependencyGroups = base::Flags<DependencyGroup, uint32_t>`: a bitset of groups. -/
abbrev DependentCode.DependencyGroups := Nat

/-- The union (bitwise or) of a list of groups. -/
def DependentCode.DependencyGroups.union (groups : List DependentCode.DependencyGroup) :
    DependentCode.DependencyGroups :=
  groups.foldl (fun acc g => acc ||| g.value) 0

/-- A tracked heap object (a map, a property cell, an allocation site), named by its address. -/
structure HeapObject where
  ptr : Nat
deriving DecidableEq, Repr

/-- Modelled from the spec: an entry of a dependent-code list is a pair of a weak code reference
and a dependency-group bitmask.  `code = none` is a reference the collector has cleared. -/
structure DependentCode.Entry where
  code : Option Code
  groups : DependentCode.DependencyGroups
deriving DecidableEq, Repr

/-- Modelled from the spec: the dependent-code list of a tracked object.  `backing` is the
backing storage (its length is the capacity, which never shrinks) and `length` the logical length
in entries; the list proper is the first `length` entries of the backing storage.  The bodies of
all operations on it are in `objects.cc`, not among the sources; `code.h` declares them. -/
structure DependentCode where
  backing : List DependentCode.Entry
  length : Nat
deriving DecidableEq, Repr

namespace DependentCode

def kSlotsPerEntry : Int := 2
def kCodeSlotOffset : Int := 0
def kGroupsSlotOffset : Int := 1

/-- `static constexpr int LengthFor(int number_of_entries)`. -/
def LengthFor (number_of_entries : Int) : Option Int := checkedInt (number_of_entries * kSlotsPerEntry)

/-- The list proper: the entries below the logical length. -/
def entries (self : DependentCode) : List Entry := self.backing.take self.length

/-- The capacity of the backing storage, in entries. -/
def capacity (self : DependentCode) : Nat := self.backing.length

/-- An entry that a scan for the groups `deopt_groups` leaves in the list: its code reference is
live and its group bitmask does not intersect `deopt_groups`. -/
def Entry.Survives (deopt_groups : DependencyGroups) (entry : Entry) : Prop :=
  entry.code.isSome = true ∧ entry.groups &&& deopt_groups = 0

instance (deopt_groups : DependencyGroups) (entry : Entry) :
    Decidable (entry.Survives deopt_groups) := by
  unfold Entry.Survives; infer_instance

/-- Modelled from the spec: the empty list (`empty_dependent_code`). -/
def empty_dependent_code : DependentCode := ⟨[], 0⟩

/-- Modelled from the spec (and the comment on the declaration): fills the entry at `index` with
the last non-cleared entry of the list and returns the new length after that entry has been
moved; when no non-cleared entry lies behind `index` the new length is `index`.  The backing
storage after the call is returned together with the new length. -/
def FillEntryFromBack (backing : List Entry) (index : Nat) : Nat → List Entry × Nat
  | 0 => (backing, index)
  | i + 1 =>
    if index < i then
      match backing[i]? with
      | some entry =>
        if entry.code.isSome then (backing.set index entry, i)
        else FillEntryFromBack backing index i
      | none => FillEntryFromBack backing index i
    else (backing, index)

/-- The loop of `IterateAndCompact`: visits the entries `i - 1, ..., 0` back to front, so that
cleared entries are filled from the back of the list.  `fn` is the callback with the state it
captures made explicit. -/
def IterateAndCompact.loop {σ : Type} (fn : σ → Code → DependencyGroups → Bool × σ) :
    Nat → List Entry × Nat × σ → List Entry × Nat × σ
  | 0, state => state
  | i + 1, (backing, len, s) =>
    match backing[i]? with
    | none => IterateAndCompact.loop fn i (backing, len, s)
    | some entry =>
      match entry.code with
      | none =>
        let filled := FillEntryFromBack backing i len
        IterateAndCompact.loop fn i (filled.1, filled.2, s)
      | some code =>
        let result := fn s code entry.groups
        if result.1 then
          let filled := FillEntryFromBack backing i len
          IterateAndCompact.loop fn i (filled.1, filled.2, result.2)
        else IterateAndCompact.loop fn i (backing, len, result.2)

/-- Modelled from the spec (and the comment on the declaration): the callback is called for all
non-cleared entries and returns true iff the current entry should be cleared; entries whose code
has been collected are cleared as well; a cleared slot is filled by moving the last live entry
into it and the logical length shrinks by one. -/
def IterateAndCompact {σ : Type} (self : DependentCode)
    (fn : σ → Code → DependencyGroups → Bool × σ) (s : σ) : DependentCode × σ :=
  let final := IterateAndCompact.loop fn self.length (self.backing, self.length, s)
  (⟨final.1, final.2.1⟩, final.2.2)

end DependentCode

/-- Modelled from the spec: the part of the heap the invalidation protocol reads and writes: the
`marked_for_deoptimization` flag of every code object, the dependent-code list of every tracked
object, and the number of times the external deoptimizer has been invoked. -/
structure Heap where
  marked_for_deoptimization : Code → Bool
  dependent_code : HeapObject → DependentCode
  deoptimizer_invocations : Nat

namespace Heap

/-- `Code::SetMarkedForDeoptimization(reason)`: sets the flag of `code`. -/
def SetMarkedForDeoptimization (marked : Code → Bool) (code : Code) : Code → Bool :=
  fun other => if other = code then true else marked other

end Heap

namespace DependentCode

/-- `GetDependentCode(object)`. -/
def GetDependentCode (heap : Heap) (object : HeapObject) : DependentCode :=
  heap.dependent_code object

/-- `SetDependentCode(object, dep)`. -/
def SetDependentCode (heap : Heap) (object : HeapObject) (dep : DependentCode) : Heap :=
  { heap with dependent_code := fun other => if other = object then dep else heap.dependent_code other }

/-- Modelled from the spec: appends a (weak code reference, groups) entry at the logical end of
the list; there is no deduplication, the list simply grows. -/
def InsertWeakCode (entries : DependentCode) (groups : DependencyGroups) (code : Code) :
    DependentCode :=
  ⟨entries.backing.take entries.length ++ [⟨some code, groups⟩] ++
      entries.backing.drop (entries.length + 1), entries.length + 1⟩

/-- Modelled from the spec: `InstallDependency(code, object, groups)` registers a dependency of
`code` on `object`, of the kinds given by `groups`. -/
def InstallDependency (heap : Heap) (code : Code) (object : HeapObject) (groups : DependencyGroups) :
    Heap :=
  let old_deps := GetDependentCode heap object
  let new_deps := InsertWeakCode old_deps groups code
  SetDependentCode heap object new_deps

/-- The callback of `MarkCodeForDeoptimization`; its state is the flags of the code objects and
`marked_something`. -/
def MarkCodeForDeoptimization.fn (deopt_groups : DependencyGroups) :
    (Code → Bool) × Bool → Code → DependencyGroups → Bool × ((Code → Bool) × Bool) :=
  fun state code groups =>
    if groups &&& deopt_groups = 0 then (false, state)
    else if !state.1 code then (true, (Heap.SetMarkedForDeoptimization state.1 code, true))
    else (true, state)

/-- Modelled from the spec: scans the entries of the list; every entry whose group bitmask
intersects `deopt_groups` and whose code reference is still live has its code marked for
deoptimization and is cleared; returns whether anything was newly marked. -/
def MarkCodeForDeoptimization (heap : Heap) (object : HeapObject) (deopt_groups : DependencyGroups) :
    Bool × Heap :=
  let result := (GetDependentCode heap object).IterateAndCompact
    (MarkCodeForDeoptimization.fn deopt_groups) (heap.marked_for_deoptimization, false)
  (result.2.2,
    SetDependentCode { heap with marked_for_deoptimization := result.2.1 } object result.1)

/-- Modelled from the spec: `DeoptimizeDependencyGroups(object, groups)` marks the dependent code
of the given groups and, when something was newly marked, invokes the external deoptimizer. -/
def DeoptimizeDependencyGroups (heap : Heap) (object : HeapObject) (groups : DependencyGroups) :
    Heap :=
  let result := MarkCodeForDeoptimization heap object groups
  if result.1 then
    { result.2 with deoptimizer_invocations := result.2.deoptimizer_invocations + 1 }
  else result.2

/-- The scan `MarkCodeForDeoptimization` runs over the entries `i - 1, ..., 0` of a list in the
state `(backing, len, state)`. -/
def MarkCodeForDeoptimization.scan (deopt_groups : DependencyGroups) (i : Nat)
    (backing : List Entry) (len : Nat) (state : (Code → Bool) × Bool) :
    List Entry × Nat × ((Code → Bool) × Bool) :=
  IterateAndCompact.loop (MarkCodeForDeoptimization.fn deopt_groups) i (backing, len, state)

/-- The entries of a list that a scan for the groups `deopt_groups` leaves in it. -/
def surviving (deopt_groups : DependencyGroups) (entries : List Entry) : List Entry :=
  entries.filter fun entry => decide (entry.Survives deopt_groups)

/-- The non-cleared entries of a list. -/
def live (entries : List Entry) : List Entry := entries.filter fun entry => entry.code.isSome

/-- The cleared entries of a list. -/
def cleared (entries : List Entry) : List Entry := entries.filter fun entry => entry.code.isNone

/-- The entries of a list that a scan for the groups `deopt_groups` removes from it. -/
def removed (deopt_groups : DependencyGroups) (entries : List Entry) : List Entry :=
  entries.filter fun entry => !decide (entry.Survives deopt_groups)

end DependentCode

/-- What a call hands back to its caller: nothing for a function declared `void`, a boolean for
a function declared `bool`. -/
inductive ReturnValue where
  | void
  | bool (value : Bool)
deriving DecidableEq, Repr

/-- `static void DeoptimizeDependencyGroups(Isolate*, ObjectT, DependencyGroups)` is declared
`void`. -/
def DependentCode.DeoptimizeDependencyGroups.return_value (_heap : Heap) (_object : HeapObject)
    (_groups : DependentCode.DependencyGroups) : ReturnValue :=
  ReturnValue.void

/-- `static bool MarkCodeForDeoptimization(ObjectT, DependencyGroups)` is declared `bool`. -/
def DependentCode.MarkCodeForDeoptimization.return_value (heap : Heap) (object : HeapObject)
    (groups : DependentCode.DependencyGroups) : ReturnValue :=
  ReturnValue.bool (DependentCode.MarkCodeForDeoptimization heap object groups).1

/-- The heap of the concrete scenario: no code is marked, every list is empty. -/
def Heap.scenario : Heap := ⟨fun _ => false, fun _ => DependentCode.empty_dependent_code, 0⟩

/-- `codeA` of the concrete scenario. -/
def Code.codeA : Code := ⟨100⟩

/-- `mapM` of the concrete scenario. -/
def HeapObject.mapM : HeapObject := ⟨7⟩

/-! ## Instruction bounds of installed code and pc queries (`code.h`)

`code.h` declares `contains`, the pc-sensitive `InstructionStart` and `InstructionEnd`,
`OffHeapInstructionStart`, `OffHeapInstructionEnd`, `OffHeapBuiltinContains` and
`GetOffsetFromInstructionStart` for both `Code` and `InstructionStream`; their bodies are in
`code-inl.h` and `code.cc`, not among the sources. -/

/-- Modelled from the spec: the instruction area of one copy of a builtin that lives outside the
heap. -/
structure InstructionArea where
  instruction_start : Nat
  instruction_size : Nat
deriving DecidableEq, Repr

/-- The address right after the last instruction of the area. -/
def InstructionArea.instruction_end (cfg : BuildConfig) (area : InstructionArea) : Nat :=
  AddressAdd cfg area.instruction_start area.instruction_size

/-- Whether `pc` lies in `[instruction_start, instruction_end)`. -/
def InstructionArea.contains (cfg : BuildConfig) (area : InstructionArea) (pc : Nat) : Bool :=
  decide (area.instruction_start ≤ pc ∧ pc < area.instruction_end cfg)

/-- Modelled from the spec: an isolate keeps the embedded (shared, read-only) copy of every
builtin and may additionally keep a de-embedded (heap-local) copy of the same builtin live
(short builtin calls); both copies can appear on an execution stack.  Builtins are named by their
identifier. -/
structure Isolate where
  embedded : Int → InstructionArea
  de_embedded : Option (Int → InstructionArea)

/-- Modelled from the spec: the fields of an installed code object (`Code` or
`InstructionStream`) that the pc queries read: the off-heap-trampoline flag, the builtin
identifier, and the on-heap instruction section. -/
structure InstalledCodeFields where
  is_off_heap_trampoline : Bool
  builtin_id : Int
  raw_instruction_start : Nat
  raw_instruction_size : Nat
deriving DecidableEq, Repr

namespace InstructionStream

/-- The on-heap instruction section ends `raw_instruction_size` bytes after its start (layout
comment of `code.h`). -/
def raw_instruction_end (cfg : BuildConfig) (self : InstalledCodeFields) : Nat :=
  AddressAdd cfg self.raw_instruction_start self.raw_instruction_size

/-- Modelled from the spec: the copy of the builtin a given `pc` belongs to: the de-embedded
copy when the isolate keeps one and `pc` lies in it, the canonical embedded copy otherwise. -/
def OffHeapInstructionArea (cfg : BuildConfig) (isolate : Isolate) (self : InstalledCodeFields)
    (pc : Nat) : InstructionArea :=
  match isolate.de_embedded with
  | some copy =>
    if (copy self.builtin_id).contains cfg pc then copy self.builtin_id
    else isolate.embedded self.builtin_id
  | none => isolate.embedded self.builtin_id

/-- Modelled from the spec: `OffHeapInstructionStart(isolate, pc)`. -/
def OffHeapInstructionStart (cfg : BuildConfig) (isolate : Isolate) (self : InstalledCodeFields)
    (pc : Nat) : Nat :=
  (OffHeapInstructionArea cfg isolate self pc).instruction_start

/-- Modelled from the spec: `OffHeapInstructionEnd(isolate, pc)`. -/
def OffHeapInstructionEnd (cfg : BuildConfig) (isolate : Isolate) (self : InstalledCodeFields)
    (pc : Nat) : Nat :=
  (OffHeapInstructionArea cfg isolate self pc).instruction_end cfg

/-- Modelled from the spec: `OffHeapBuiltinContains(isolate, pc)`: `pc` lies in one of the
copies of the builtin the isolate keeps. -/
def OffHeapBuiltinContains (cfg : BuildConfig) (isolate : Isolate) (self : InstalledCodeFields)
    (pc : Nat) : Bool :=
  (isolate.embedded self.builtin_id).contains cfg pc ||
    match isolate.de_embedded with
    | some copy => (copy self.builtin_id).contains cfg pc
    | none => false

/-- Modelled from the spec (and the comment on the declaration): `InstructionStart(isolate, pc)`
is the start of the copy `pc` belongs to for an off-heap trampoline, and
`raw_instruction_start()` for a normal object. -/
def InstructionStart (cfg : BuildConfig) (isolate : Isolate) (self : InstalledCodeFields)
    (pc : Nat) : Nat :=
  if self.is_off_heap_trampoline then OffHeapInstructionStart cfg isolate self pc
  else self.raw_instruction_start

/-- Modelled from the spec (and the comment on the declaration): `InstructionEnd(isolate, pc)`. -/
def InstructionEnd (cfg : BuildConfig) (isolate : Isolate) (self : InstalledCodeFields)
    (pc : Nat) : Nat :=
  if self.is_off_heap_trampoline then OffHeapInstructionEnd cfg isolate self pc
  else raw_instruction_end cfg self

/-- The instruction size that goes with `InstructionStart(isolate, pc)`. -/
def InstructionSize (cfg : BuildConfig) (isolate : Isolate) (self : InstalledCodeFields)
    (pc : Nat) : Nat :=
  if self.is_off_heap_trampoline then (OffHeapInstructionArea cfg isolate self pc).instruction_size
  else self.raw_instruction_size

/-- Modelled from the spec: `contains(isolate, pc)` is true iff `pc` lies in the instructions of
this object, resolving the off-heap redirection when the off-heap-trampoline flag is set. -/
def contains (cfg : BuildConfig) (isolate : Isolate) (self : InstalledCodeFields) (pc : Nat) :
    Bool :=
  if self.is_off_heap_trampoline then OffHeapBuiltinContains cfg isolate self pc
  else decide (self.raw_instruction_start ≤ pc ∧ pc < raw_instruction_end cfg self)

/-- Modelled from the spec (and the comment on the declaration): `GetOffsetFromInstructionStart`
computes the offset of `pc` from the resolved instruction start; `pc` must belong to this code. -/
def GetOffsetFromInstructionStart (cfg : BuildConfig) (isolate : Isolate)
    (self : InstalledCodeFields) (pc : Nat) : Except Failure Int :=
  DCHECK (contains cfg isolate self pc)
    (Except.ok ((pc : Int) - (InstructionStart cfg isolate self pc : Int)))

end InstructionStream

namespace Code

/-- `Code::contains`: the query of the same name of `InstructionStream`, on the fields of the
`Code` object. -/
def contains (cfg : BuildConfig) (isolate : Isolate) (self : InstalledCodeFields) (pc : Nat) :
    Bool :=
  InstructionStream.contains cfg isolate self pc

/-- `Code::InstructionStart(isolate, pc)`. -/
def InstructionStart (cfg : BuildConfig) (isolate : Isolate) (self : InstalledCodeFields)
    (pc : Nat) : Nat :=
  InstructionStream.InstructionStart cfg isolate self pc

/-- `Code::InstructionEnd(isolate, pc)`. -/
def InstructionEnd (cfg : BuildConfig) (isolate : Isolate) (self : InstalledCodeFields)
    (pc : Nat) : Nat :=
  InstructionStream.InstructionEnd cfg isolate self pc

/-- `Code::GetOffsetFromInstructionStart(isolate, pc)`. -/
def GetOffsetFromInstructionStart (cfg : BuildConfig) (isolate : Isolate)
    (self : InstalledCodeFields) (pc : Nat) : Except Failure Int :=
  InstructionStream.GetOffsetFromInstructionStart cfg isolate self pc

end Code

/-- An isolate with short builtin calls: builtin 3 has its embedded copy at 65536 and its
de-embedded copy at 1048576, 256 bytes each. -/
def Isolate.scenario : Isolate :=
  ⟨fun _ => ⟨65536, 256⟩, some fun _ => ⟨1048576, 256⟩⟩

/-- An off-heap trampoline for builtin 3 whose on-heap stub lies at 4160. -/
def InstalledCodeFields.trampoline : InstalledCodeFields := ⟨true, 3, 4160, 16⟩

/-- A normal code object with 64 bytes of instructions at 4160. -/
def InstalledCodeFields.normal : InstalledCodeFields := ⟨false, -1, 4160, 64⟩

/-! ## `BytecodeArray` (`code.h`) -/

/-- `MB`. -/
def MB : Int := 1048576

/-- `kObjectAlignment = 1 << kObjectAlignmentBits` with `kObjectAlignmentBits =
kTaggedSizeLog2`: the size of a tagged field. -/
def kObjectAlignment (cfg : BuildConfig) : Int := cfg.kTaggedSize

/-- `kObjectAlignmentMask`. -/
def kObjectAlignmentMask (cfg : BuildConfig) : Int := kObjectAlignment cfg - 1

/-- `OBJECT_POINTER_ALIGN(value)`: `(value + kObjectAlignmentMask) & ~kObjectAlignmentMask`, the
round-up of `value` to the object alignment. -/
def OBJECT_POINTER_ALIGN (cfg : BuildConfig) (value : Int) : Option Int :=
  (checkedInt (value + kObjectAlignmentMask cfg)).map fun sum =>
    sum / kObjectAlignment cfg * kObjectAlignment cfg

namespace BytecodeArray

/-- `static constexpr int SizeFor(int length)`; `kHeaderSize` comes from the Torque-generated
class and is a parameter. -/
def SizeFor (cfg : BuildConfig) (kHeaderSize : Int) (length : Int) : Option Int :=
  (checkedInt (kHeaderSize + length)).bind (OBJECT_POINTER_ALIGN cfg)

/-- Maximal memory consumption for a single BytecodeArray. -/
def kMaxSize : Int := 512 * MB

/-- Maximal length of a single BytecodeArray. -/
def kMaxLength (kHeaderSize : Int) : Int := kMaxSize - kHeaderSize

end BytecodeArray

/-! ## Flags layout of `InstructionStream` (`code.h`) -/

/-- Modelled from the spec: a field of a bit-packed flag word, `base::BitField<T, shift, size>`
over a 32-bit word (`src/base/bit-field.h` is not among the sources). -/
structure BitField where
  kShift : Nat
  kSize : Nat
deriving DecidableEq, Repr

namespace BitField

/-- The bits of the field. -/
def kMask (field : BitField) : Nat := (2 ^ field.kSize - 1) <<< field.kShift

/-- The number of values of the field. -/
def kNumValues (field : BitField) : Nat := 2 ^ field.kSize

/-- The last bit of the field. -/
def kLastUsedBit (field : BitField) : Nat := field.kShift + field.kSize - 1

/-- `encode(value)`: the value shifted to the place of the field, in a 32-bit word. -/
def encode (field : BitField) (value : Nat) : Nat := (value <<< field.kShift) % 2 ^ 32

/-- `decode(word)`: the value of the field in the word. -/
def decode (field : BitField) (word : Nat) : Nat := (word &&& field.kMask) >>> field.kShift

/-- The field that `DEFINE_BIT_FIELDS` places right after `field`. -/
def Next (field : BitField) (size : Nat) : BitField := ⟨field.kShift + field.kSize, size⟩

/-- Modelled from the spec: `update(previous, value)` replaces the bits of the field in a 32-bit
word, `(previous & ~kMask) | encode(value)`. -/
def update (field : BitField) (previous value : Nat) : Nat :=
  (previous &&& ((2 ^ 32 - 1) ^^^ field.kMask)) ||| field.encode value

end BitField

namespace InstructionStream

/-! `DEFINE_BIT_FIELDS(CODE_FLAGS_BIT_FIELDS)`: four fields, one after the other. -/

def KindField : BitField := ⟨0, 4⟩
def IsTurbofannedField : BitField := KindField.Next 1
def StackSlotsField : BitField := IsTurbofannedField.Next 24
def IsOffHeapTrampoline : BitField := StackSlotsField.Next 1

/-- `CODE_FLAGS_BIT_FIELDS_Ranges::kBitsCount`. -/
def CODE_FLAGS_BIT_FIELDS_Ranges.kBitsCount : Nat :=
  IsOffHeapTrampoline.kShift + IsOffHeapTrampoline.kSize

/-- Modelled from the spec: `initialize_flags(kind, is_turbofanned, stack_slots,
is_off_heap_trampoline)` packs kind, turbofanned, stack slots and the trampoline flag into one
32-bit word; code kinds are named by their enumerator value. -/
def initialize_flags (kind : Nat) (is_turbofanned : Bool) (stack_slots : Nat)
    (is_off_heap_trampoline : Bool) : Nat :=
  KindField.encode kind ||| IsTurbofannedField.encode is_turbofanned.toNat |||
    StackSlotsField.encode stack_slots ||| IsOffHeapTrampoline.encode is_off_heap_trampoline.toNat

/-- Modelled from the spec: `kind()` decodes the kind field of the flags word. -/
def kind (flags : Nat) : Nat := KindField.decode flags

/-- Modelled from the spec: `is_turbofanned()`. -/
def is_turbofanned (flags : Nat) : Bool := IsTurbofannedField.decode flags != 0

/-- Modelled from the spec: `stack_slots()`. -/
def stack_slots (flags : Nat) : Nat := StackSlotsField.decode flags

/-- Modelled from the spec: `is_off_heap_trampoline()`. -/
def is_off_heap_trampoline (flags : Nat) : Bool := IsOffHeapTrampoline.decode flags != 0

/-! `DEFINE_BIT_FIELDS(CODE_KIND_SPECIFIC_FLAGS_BIT_FIELDS)`: four fields of one bit. -/

def MarkedForDeoptimizationField : BitField := ⟨0, 1⟩
def EmbeddedObjectsClearedField : BitField := MarkedForDeoptimizationField.Next 1
def CanHaveWeakObjectsField : BitField := EmbeddedObjectsClearedField.Next 1
def IsPromiseRejectionField : BitField := CanHaveWeakObjectsField.Next 1

/-- `CODE_KIND_SPECIFIC_FLAGS_BIT_FIELDS_Ranges::kBitsCount`. -/
def CODE_KIND_SPECIFIC_FLAGS_BIT_FIELDS_Ranges.kBitsCount : Nat :=
  IsPromiseRejectionField.kShift + IsPromiseRejectionField.kSize

/-- `kMarkedForDeoptimizationBit = MarkedForDeoptimizationField::kShift`. -/
def kMarkedForDeoptimizationBit : Nat := MarkedForDeoptimizationField.kShift

/-- The fields of `CODE_KIND_SPECIFIC_FLAGS_BIT_FIELDS`, in source order. -/
def CODE_KIND_SPECIFIC_FLAGS_BIT_FIELDS : List BitField :=
  [MarkedForDeoptimizationField, EmbeddedObjectsClearedField, CanHaveWeakObjectsField,
   IsPromiseRejectionField]

/-- Modelled from the spec: a kind-specific flag is read by decoding its field of the
`kind_specific_flags` word. -/
def kind_specific_flag (field : BitField) (kind_specific_flags : Nat) : Bool :=
  field.decode kind_specific_flags != 0

/-- Modelled from the spec: a kind-specific flag is written by updating its field of the
`kind_specific_flags` word; the result is the new word. -/
def set_kind_specific_flag (field : BitField) (kind_specific_flags : Nat) (value : Bool) : Nat :=
  field.update kind_specific_flags value.toNat

end InstructionStream

namespace Code

/-! `DEFINE_BIT_FIELDS(FLAGS_BIT_FIELDS)` of `Code`: three fields, one after the other. -/

def KindField : BitField := ⟨0, 4⟩
def IsTurbofannedField : BitField := KindField.Next 1
def IsOffHeapTrampoline : BitField := IsTurbofannedField.Next 1

/-- `FLAGS_BIT_FIELDS_Ranges::kBitsCount`. -/
def FLAGS_BIT_FIELDS_Ranges.kBitsCount : Nat :=
  IsOffHeapTrampoline.kShift + IsOffHeapTrampoline.kSize

/-- Modelled from the spec: `initialize_flags(kind, builtin_id, is_turbofanned,
is_off_heap_trampoline)` packs kind, turbofanned and the trampoline flag into the 16-bit flags
word; the builtin id is stored in a field of its own and is no part of the word. -/
def initialize_flags (kind : Nat) (_builtin_id : Int) (is_turbofanned : Bool)
    (is_off_heap_trampoline : Bool) : Nat :=
  (KindField.encode kind ||| IsTurbofannedField.encode is_turbofanned.toNat |||
    IsOffHeapTrampoline.encode is_off_heap_trampoline.toNat) % 2 ^ 16

/-- Modelled from the spec: `kind()` decodes the kind field of the flags word. -/
def kind (flags : Nat) : Nat := KindField.decode flags

/-- Modelled from the spec: `is_turbofanned()`. -/
def is_turbofanned (flags : Nat) : Bool := IsTurbofannedField.decode flags != 0

/-- Modelled from the spec: `is_off_heap_trampoline()`. -/
def is_off_heap_trampoline (flags : Nat) : Bool := IsOffHeapTrampoline.decode flags != 0

end Code

/-! ## The properties `CodeReference` dispatches (`code-reference.cc`) -/

/-- The methods defined with `DISPATCH`, one constructor for each use of the macro. -/
inductive CodeReference.Property where
  | constant_pool
  | instruction_start
  | instruction_end
  | instruction_size
  | relocation_start
  | relocation_end
  | relocation_size
  | code_comments
  | code_comments_size
deriving DecidableEq, Repr

/-- The uses of `DISPATCH`, in source order. -/
def CodeReference.Property.all : List CodeReference.Property :=
  [.constant_pool, .instruction_start, .instruction_end, .instruction_size, .relocation_start,
   .relocation_end, .relocation_size, .code_comments, .code_comments_size]

/-- The value of a property: an address (`Address`, `const byte*`) or an `int`. -/
inductive CodeReference.Value where
  | address (a : Nat)
  | int (n : Int)
deriving DecidableEq, Repr

/-- The method of `CodeReference` that a use of `DISPATCH` defines. -/
def CodeReference.Property.query (cfg : BuildConfig) (env : InstalledCode) :
    CodeReference.Property → CodeReference → Except Failure CodeReference.Value
  | .constant_pool, r => (r.constant_pool cfg env).map CodeReference.Value.address
  | .instruction_start, r => (r.instruction_start cfg env).map CodeReference.Value.address
  | .instruction_end, r => (r.instruction_end cfg env).map CodeReference.Value.address
  | .instruction_size, r => (r.instruction_size cfg env).map CodeReference.Value.int
  | .relocation_start, r => (r.relocation_start cfg env).map CodeReference.Value.address
  | .relocation_end, r => (r.relocation_end cfg env).map CodeReference.Value.address
  | .relocation_size, r => (r.relocation_size cfg env).map CodeReference.Value.int
  | .code_comments, r => (r.code_comments cfg env).map CodeReference.Value.address
  | .code_comments_size, r => (r.code_comments_size cfg env).map CodeReference.Value.int

end v8

/-! # Properties -/

namespace v8

/-! ## Address and `int` arithmetic -/

theorem kAddressModulus_pos (cfg : BuildConfig) : 0 < cfg.kAddressModulus := by
  unfold BuildConfig.kAddressModulus
  positivity

theorem AddressAdd_cast (cfg : BuildConfig) (a : Nat) (offset : Int) :
    ((AddressAdd cfg a offset : Nat) : Int) = ((a : Int) + offset) % (cfg.kAddressModulus : Int) := by
  unfold AddressAdd
  have hpos : (0 : Int) < (cfg.kAddressModulus : Int) := by exact_mod_cast kAddressModulus_pos cfg
  exact Int.toNat_of_nonneg (Int.emod_nonneg _ (ne_of_gt hpos))

theorem AddressAdd_of_lt (cfg : BuildConfig) (a n : Nat) (h : a + n < cfg.kAddressModulus) :
    AddressAdd cfg a (n : Int) = a + n := by
  have hc := AddressAdd_cast cfg a (n : Int)
  have hlt : ((a : Int) + (n : Int)) < (cfg.kAddressModulus : Int) := by exact_mod_cast h
  have hnn : (0 : Int) ≤ (a : Int) + (n : Int) := by positivity
  rw [Int.emod_eq_of_lt hnn hlt] at hc
  exact_mod_cast hc

theorem AddressAdd_AddressAdd (cfg : BuildConfig) (a : Nat) (x y : Int) :
    AddressAdd cfg (AddressAdd cfg a x) y = AddressAdd cfg a (x + y) := by
  have h1 := AddressAdd_cast cfg (AddressAdd cfg a x) y
  have h2 := AddressAdd_cast cfg a (x + y)
  have h3 := AddressAdd_cast cfg a x
  rw [h3, Int.emod_add_cancel_right y |>.mpr (Int.emod_emod_of_dvd _ (dvd_refl _))] at h1
  have : ((AddressAdd cfg (AddressAdd cfg a x) y : Nat) : Int) = (AddressAdd cfg a (x + y) : Nat) := by
    rw [h1, h2, add_assoc]
  exact_mod_cast this

theorem static_cast_int_of_le (n : Nat) (h : (n : Int) ≤ kMaxInt) : static_cast_int n = n := by
  unfold static_cast_int
  unfold kMaxInt at h
  omega

/-! ## `CodeReference` -/

theorem CodeReference.DISPATCH_AssertsNonNull {ret : Type} (cfg : BuildConfig)
    (hwasm : cfg.V8_ENABLE_WEBASSEMBLY = true) (f1 : InstructionStream → ret) (f2 : Code → ret)
    (f3 : WasmCode → ret) (f4 : CodeDesc → ret) (r : CodeReference) :
    CodeReference.AssertsNonNull (fun x => x.DISPATCH cfg f1 f2 f3 f4) r := by
  cases r <;>
    simp [CodeReference.AssertsNonNull, CodeReference.DISPATCH, DCHECK, CodeReference.is_null, hwasm]

/-- C1: a `CodeReference` of kind `CODE_DESC` reports the buffer start as `instruction_start`,
and `instruction_end`, `constant_pool`, `relocation_start`, `relocation_end`, `code_comments` as
the buffer start plus `instr_size`, `constant_pool_offset`, `reloc_offset`, `buffer_size`,
`code_comments_offset` (address arithmetic, modulo the word size; the exact sum whenever the
offset is non-negative and the sum lies in the address space), and `code_comments_size` as the
descriptor's field.  In particular, for the descriptor of the concrete scenario at a buffer `b`
whose 80 bytes lie in the address space, the results are `b`, `b + 64`, `b + 72`, `b + 64`,
`b + 80`, `b + 76` and `4`. -/
theorem CodeReference.code_desc_properties (cfg : BuildConfig) (env : InstalledCode)
    (d : CodeDesc) :
    (CodeReference.instruction_start cfg env (.CODE_DESC d) = Except.ok d.buffer ∧
      CodeReference.instruction_end cfg env (.CODE_DESC d) =
        Except.ok (((d.buffer + d.instr_size) % (cfg.kAddressModulus : Int)).toNat) ∧
      CodeReference.constant_pool cfg env (.CODE_DESC d) =
        Except.ok (((d.buffer + d.constant_pool_offset) % (cfg.kAddressModulus : Int)).toNat) ∧
      CodeReference.relocation_start cfg env (.CODE_DESC d) =
        Except.ok (((d.buffer + d.reloc_offset) % (cfg.kAddressModulus : Int)).toNat) ∧
      CodeReference.relocation_end cfg env (.CODE_DESC d) =
        Except.ok (((d.buffer + d.buffer_size) % (cfg.kAddressModulus : Int)).toNat) ∧
      CodeReference.code_comments cfg env (.CODE_DESC d) =
        Except.ok (((d.buffer + d.code_comments_offset) % (cfg.kAddressModulus : Int)).toNat) ∧
      CodeReference.code_comments_size cfg env (.CODE_DESC d) = Except.ok d.code_comments_size) ∧
    ((∀ k : Nat, d.instr_size = k → d.buffer + k < cfg.kAddressModulus →
        CodeReference.instruction_end cfg env (.CODE_DESC d) = Except.ok (d.buffer + k)) ∧
      (∀ k : Nat, d.constant_pool_offset = k → d.buffer + k < cfg.kAddressModulus →
        CodeReference.constant_pool cfg env (.CODE_DESC d) = Except.ok (d.buffer + k)) ∧
      (∀ k : Nat, d.reloc_offset = k → d.buffer + k < cfg.kAddressModulus →
        CodeReference.relocation_start cfg env (.CODE_DESC d) = Except.ok (d.buffer + k)) ∧
      (∀ k : Nat, d.buffer_size = k → d.buffer + k < cfg.kAddressModulus →
        CodeReference.relocation_end cfg env (.CODE_DESC d) = Except.ok (d.buffer + k)) ∧
      (∀ k : Nat, d.code_comments_offset = k → d.buffer + k < cfg.kAddressModulus →
        CodeReference.code_comments cfg env (.CODE_DESC d) = Except.ok (d.buffer + k))) ∧
    (∀ b : Nat, d = CodeDesc.scenario b → b + 80 < cfg.kAddressModulus →
      CodeReference.instruction_start cfg env (.CODE_DESC d) = Except.ok (b + 0) ∧
      CodeReference.instruction_end cfg env (.CODE_DESC d) = Except.ok (b + 64) ∧
      CodeReference.constant_pool cfg env (.CODE_DESC d) = Except.ok (b + 72) ∧
      CodeReference.relocation_start cfg env (.CODE_DESC d) = Except.ok (b + 64) ∧
      CodeReference.relocation_end cfg env (.CODE_DESC d) = Except.ok (b + 80) ∧
      CodeReference.code_comments cfg env (.CODE_DESC d) = Except.ok (b + 76) ∧
      CodeReference.code_comments_size cfg env (.CODE_DESC d) = Except.ok 4) := by
  have hexact : ∀ (x : Int) (k : Nat), x = k → d.buffer + k < cfg.kAddressModulus →
      (Except.ok (AddressAdd cfg d.buffer x) : Except Failure Nat) = Except.ok (d.buffer + k) := by
    intro x k hx hk
    rw [hx, AddressAdd_of_lt cfg d.buffer k hk]
  have hgen : (∀ k : Nat, d.instr_size = k → d.buffer + k < cfg.kAddressModulus →
        CodeReference.instruction_end cfg env (.CODE_DESC d) = Except.ok (d.buffer + k)) ∧
      (∀ k : Nat, d.constant_pool_offset = k → d.buffer + k < cfg.kAddressModulus →
        CodeReference.constant_pool cfg env (.CODE_DESC d) = Except.ok (d.buffer + k)) ∧
      (∀ k : Nat, d.reloc_offset = k → d.buffer + k < cfg.kAddressModulus →
        CodeReference.relocation_start cfg env (.CODE_DESC d) = Except.ok (d.buffer + k)) ∧
      (∀ k : Nat, d.buffer_size = k → d.buffer + k < cfg.kAddressModulus →
        CodeReference.relocation_end cfg env (.CODE_DESC d) = Except.ok (d.buffer + k)) ∧
      (∀ k : Nat, d.code_comments_offset = k → d.buffer + k < cfg.kAddressModulus →
        CodeReference.code_comments cfg env (.CODE_DESC d) = Except.ok (d.buffer + k)) :=
    ⟨fun k hx hk => hexact _ k hx hk, fun k hx hk => hexact _ k hx hk,
      fun k hx hk => hexact _ k hx hk, fun k hx hk => hexact _ k hx hk,
      fun k hx hk => hexact _ k hx hk⟩
  refine ⟨⟨rfl, rfl, rfl, rfl, rfl, rfl, rfl⟩, hgen, ?_⟩
  intro b hd hb
  subst hd
  obtain ⟨g1, g2, g3, g4, g5⟩ := hgen
  exact ⟨rfl, g1 64 rfl (by simpa [CodeDesc.scenario] using (by omega : b + 64 < _)),
    g2 72 rfl (by simpa [CodeDesc.scenario] using (by omega : b + 72 < _)),
    g3 64 rfl (by simpa [CodeDesc.scenario] using (by omega : b + 64 < _)),
    g4 80 rfl (by simpa [CodeDesc.scenario] using hb),
    g5 76 rfl (by simpa [CodeDesc.scenario] using (by omega : b + 76 < _)), rfl⟩

/-- The concrete scenario of C1 on x64 with the buffer at address 4096. -/
theorem CodeReference.code_desc_properties_witness :
    CodeReference.instruction_start BuildConfig.x64 (InstalledCode.scenario BuildConfig.x64)
        (.CODE_DESC (CodeDesc.scenario 4096)) = Except.ok (4096 + 0) ∧
      CodeReference.instruction_end BuildConfig.x64 (InstalledCode.scenario BuildConfig.x64)
        (.CODE_DESC (CodeDesc.scenario 4096)) = Except.ok (4096 + 64) ∧
      CodeReference.constant_pool BuildConfig.x64 (InstalledCode.scenario BuildConfig.x64)
        (.CODE_DESC (CodeDesc.scenario 4096)) = Except.ok (4096 + 72) ∧
      CodeReference.relocation_start BuildConfig.x64 (InstalledCode.scenario BuildConfig.x64)
        (.CODE_DESC (CodeDesc.scenario 4096)) = Except.ok (4096 + 64) ∧
      CodeReference.relocation_end BuildConfig.x64 (InstalledCode.scenario BuildConfig.x64)
        (.CODE_DESC (CodeDesc.scenario 4096)) = Except.ok (4096 + 80) ∧
      CodeReference.code_comments BuildConfig.x64 (InstalledCode.scenario BuildConfig.x64)
        (.CODE_DESC (CodeDesc.scenario 4096)) = Except.ok (4096 + 76) ∧
      CodeReference.code_comments_size BuildConfig.x64 (InstalledCode.scenario BuildConfig.x64)
        (.CODE_DESC (CodeDesc.scenario 4096)) = Except.ok 4 :=
  (CodeReference.code_desc_properties BuildConfig.x64 (InstalledCode.scenario BuildConfig.x64)
    (CodeDesc.scenario 4096)).2.2 4096 rfl (by decide)

/-- C2: with WebAssembly support compiled in, each of the nine dispatched properties fails its
assertion if and only if the reference holds no payload, and returns a value on a reference
holding any of the four payload kinds. -/
theorem CodeReference.query_fails_iff_null (cfg : BuildConfig) (env : InstalledCode)
    (r : CodeReference) (hwasm : cfg.V8_ENABLE_WEBASSEMBLY = true) :
    CodeReference.AssertsNonNull (CodeReference.constant_pool cfg env) r ∧
    CodeReference.AssertsNonNull (CodeReference.instruction_start cfg env) r ∧
    CodeReference.AssertsNonNull (CodeReference.instruction_end cfg env) r ∧
    CodeReference.AssertsNonNull (CodeReference.instruction_size cfg env) r ∧
    CodeReference.AssertsNonNull (CodeReference.relocation_start cfg env) r ∧
    CodeReference.AssertsNonNull (CodeReference.relocation_end cfg env) r ∧
    CodeReference.AssertsNonNull (CodeReference.relocation_size cfg env) r ∧
    CodeReference.AssertsNonNull (CodeReference.code_comments cfg env) r ∧
    CodeReference.AssertsNonNull (CodeReference.code_comments_size cfg env) r :=
  ⟨CodeReference.DISPATCH_AssertsNonNull cfg hwasm _ _ _ _ r,
   CodeReference.DISPATCH_AssertsNonNull cfg hwasm _ _ _ _ r,
   CodeReference.DISPATCH_AssertsNonNull cfg hwasm _ _ _ _ r,
   CodeReference.DISPATCH_AssertsNonNull cfg hwasm _ _ _ _ r,
   CodeReference.DISPATCH_AssertsNonNull cfg hwasm _ _ _ _ r,
   CodeReference.DISPATCH_AssertsNonNull cfg hwasm _ _ _ _ r,
   CodeReference.DISPATCH_AssertsNonNull cfg hwasm _ _ _ _ r,
   CodeReference.DISPATCH_AssertsNonNull cfg hwasm _ _ _ _ r,
   CodeReference.DISPATCH_AssertsNonNull cfg hwasm _ _ _ _ r⟩

/-- C2 on x64 for the null reference and for the reference to the descriptor of the concrete
scenario. -/
theorem CodeReference.query_fails_iff_null_witness :
    BuildConfig.x64.V8_ENABLE_WEBASSEMBLY = true ∧
    CodeReference.AssertsNonNull
      (CodeReference.instruction_size BuildConfig.x64 (InstalledCode.scenario BuildConfig.x64))
      CodeReference.NONE ∧
    CodeReference.AssertsNonNull
      (CodeReference.relocation_end BuildConfig.x64 (InstalledCode.scenario BuildConfig.x64))
      (CodeReference.CODE_DESC (CodeDesc.scenario 4096)) :=
  ⟨rfl,
    (CodeReference.query_fails_iff_null BuildConfig.x64 (InstalledCode.scenario BuildConfig.x64)
      CodeReference.NONE rfl).2.2.2.1,
    (CodeReference.query_fails_iff_null BuildConfig.x64 (InstalledCode.scenario BuildConfig.x64)
      (CodeReference.CODE_DESC (CodeDesc.scenario 4096)) rfl).2.2.2.2.2.1⟩

theorem ByteLayout.scenario_describedByInstalled (cfg : BuildConfig) (T : Type) (code : T) :
    ByteLayout.scenario.DescribedByInstalled cfg (ByteLayout.scenario.accessors cfg T) code :=
  ⟨rfl, rfl, rfl, rfl, rfl, rfl, rfl, rfl⟩

theorem ByteLayout.scenario_describedByWasmCode :
    ByteLayout.scenario.DescribedByWasmCode WasmCode.scenario :=
  ⟨rfl, rfl, rfl, rfl⟩

theorem ByteLayout.scenario_describedByCodeDesc :
    ByteLayout.scenario.DescribedByCodeDesc BuildConfig.x64 (CodeDesc.scenario 4096) := by
  refine ⟨by decide, rfl, rfl, ?_, rfl, ?_, rfl⟩ <;>
    (norm_num [AddressAdd, BuildConfig.kAddressModulus, BuildConfig.x64, CodeDesc.scenario,
      ByteLayout.scenario]; rfl)

theorem ByteLayout.scenario_describedByCodeDesc_tail :
    ByteLayout.scenario.DescribedByCodeDesc BuildConfig.x64 (CodeDesc.scenarioTail 4096) := by
  refine ⟨by decide, rfl, rfl, ?_, rfl, ?_, rfl⟩ <;>
    (norm_num [AddressAdd, BuildConfig.kAddressModulus, BuildConfig.x64, CodeDesc.scenario,
      CodeDesc.scenarioTail, ByteLayout.scenario]; rfl)

/-- C3 as stated fails: the descriptor of the concrete scenario of the specification (buffer of 80
bytes, 8 bytes of relocation info at offset 64) and a wasm code object with the same instruction,
relocation and code-comments layout report different `relocation_end` addresses, `4096 + 80`
against `4096 + 72`. -/
theorem CodeReference.parity_as_stated_fails :
    ¬ ∀ (cfg : BuildConfig) (env : InstalledCode) (L : ByteLayout) (s : InstructionStream)
        (c : Code) (w : WasmCode) (d : CodeDesc),
        L.DescribedByInstalled cfg env.InstructionStreamOps s →
        L.DescribedByInstalled cfg env.CodeOps c →
        L.DescribedByWasmCode w →
        L.DescribedByCodeDesc cfg d →
        ByteLayout.Parity cfg env s c w d := by
  intro h
  have hp := h BuildConfig.x64 (InstalledCode.scenario BuildConfig.x64) ByteLayout.scenario ⟨1⟩ ⟨2⟩
    WasmCode.scenario (CodeDesc.scenario 4096)
    (ByteLayout.scenario_describedByInstalled _ _ _)
    (ByteLayout.scenario_describedByInstalled _ _ _)
    ByteLayout.scenario_describedByWasmCode ByteLayout.scenario_describedByCodeDesc
  have hrel := hp.2.2.2.1.2.2
  norm_num [WasmCodeOps.relocation_end, CodeDescOps.relocation_end, AddressAdd,
    BuildConfig.kAddressModulus, BuildConfig.x64, CodeDesc.scenario, WasmCode.scenario,
    Vector.begin, Vector.length, static_cast_int] at hrel
  exact absurd hrel (by decide)

/-- C3, amended: for an InstructionStream, a Code, a wasm code object and a code descriptor that
describe one and the same byte layout, where the relocation info of the descriptor ends at the end
of its buffer (`reloc_offset + reloc_size = buffer_size`), the four adapters report identical
`instruction_start` and `instruction_end`, identical `relocation_start` and `relocation_end`, and
identical `code_comments` and `code_comments_size`. -/
theorem CodeReference.parity (cfg : BuildConfig) (env : InstalledCode) (L : ByteLayout)
    (s : InstructionStream) (c : Code) (w : WasmCode) (d : CodeDesc)
    (hs : L.DescribedByInstalled cfg env.InstructionStreamOps s)
    (hc : L.DescribedByInstalled cfg env.CodeOps c)
    (hw : L.DescribedByWasmCode w)
    (hd : L.DescribedByCodeDesc cfg d)
    (htail : d.reloc_offset + d.reloc_size = d.buffer_size) :
    ByteLayout.Parity cfg env s c w d := by
  obtain ⟨hs1, hs2, -, hs4, hs5, -, hs7, hs8⟩ := hs
  obtain ⟨hc1, hc2, -, hc4, hc5, -, hc7, hc8⟩ := hc
  obtain ⟨hw1, hw2, hw3, hw4⟩ := hw
  obtain ⟨hv, hd1, hd2, hd3, hd4, hd5, hd6⟩ := hd
  have hrs : ((L.relocation_size : Nat) : Int) ≤ kMaxInt := by
    rw [← hd4]; exact hv.2.2.2.1.2
  have hlen : static_cast_int L.relocation_size = L.relocation_size :=
    static_cast_int_of_le _ hrs
  have hend : AddressAdd cfg d.buffer d.buffer_size =
      AddressAdd cfg L.relocation_start L.relocation_size := by
    rw [← hd3, AddressAdd_AddressAdd, ← hd4, htail]
  simp only [ByteLayout.Parity, CodeOrInstructionStreamOps.instruction_start,
    CodeOrInstructionStreamOps.instruction_end, CodeOrInstructionStreamOps.relocation_start,
    CodeOrInstructionStreamOps.relocation_end, CodeOrInstructionStreamOps.code_comments,
    CodeOrInstructionStreamOps.code_comments_size, WasmCodeOps.instruction_start,
    WasmCodeOps.instruction_end, WasmCodeOps.relocation_start, WasmCodeOps.relocation_end,
    WasmCodeOps.code_comments, WasmCodeOps.code_comments_size, CodeDescOps.instruction_start,
    CodeDescOps.instruction_end, CodeDescOps.relocation_start, CodeDescOps.relocation_end,
    CodeDescOps.code_comments, CodeDescOps.code_comments_size, Vector.begin, Vector.size,
    Vector.length, hs1, hs2, hs4, hs5, hs7, hs8, hc1, hc2, hc4, hc5, hc7, hc8, hw1, hw2, hw3, hw4,
    hd1, hd2, hd3, hd5, hd6, hlen]
  simp [← hd1, hd3, hd5, hend]

/-- The amended parity law at the layout of the concrete scenario, with the relocation info at
the end of a buffer of 72 bytes. -/
theorem CodeReference.parity_witness :
    (CodeDesc.scenarioTail 4096).reloc_offset + (CodeDesc.scenarioTail 4096).reloc_size =
        (CodeDesc.scenarioTail 4096).buffer_size ∧
      ByteLayout.Parity BuildConfig.x64 (InstalledCode.scenario BuildConfig.x64) ⟨1⟩ ⟨2⟩
        WasmCode.scenario (CodeDesc.scenarioTail 4096) :=
  ⟨by decide, CodeReference.parity BuildConfig.x64 (InstalledCode.scenario BuildConfig.x64)
    ByteLayout.scenario ⟨1⟩ ⟨2⟩ WasmCode.scenario (CodeDesc.scenarioTail 4096)
    (ByteLayout.scenario_describedByInstalled _ _ _)
    (ByteLayout.scenario_describedByInstalled _ _ _)
    ByteLayout.scenario_describedByWasmCode ByteLayout.scenario_describedByCodeDesc_tail
    (by decide)⟩

/-! ## `CodeLookupResult` -/

/-- C4: a default-constructed `CodeLookupResult` is not found; a result constructed from a
non-null InstructionStream `s` is found, is an InstructionStream, is not a Code, and
`instruction_stream()` is `s`; a result constructed from a non-null Code `c` is found, is a Code,
is not an InstructionStream, and `code()` is `c`. -/
theorem CodeLookupResult.constructors :
    CodeLookupResult.ctor.IsFound = false ∧
    (∀ s : InstructionStream, s.is_null = false →
      (CodeLookupResult.ctor_InstructionStream s).IsFound = true ∧
      (CodeLookupResult.ctor_InstructionStream s).IsInstructionStream = true ∧
      (CodeLookupResult.ctor_InstructionStream s).IsCode = false ∧
      (CodeLookupResult.ctor_InstructionStream s).instruction_stream = Except.ok s) ∧
    (∀ c : Code, c.is_null = false →
      (CodeLookupResult.ctor_Code c).IsFound = true ∧
      (CodeLookupResult.ctor_Code c).IsCode = true ∧
      (CodeLookupResult.ctor_Code c).IsInstructionStream = false ∧
      (CodeLookupResult.ctor_Code c).code = Except.ok c) := by
  refine ⟨by decide, ?_, ?_⟩
  · intro s hs
    have hd : (default : Code).is_null = true := by decide
    simp [CodeLookupResult.ctor_InstructionStream, CodeLookupResult.IsFound,
      CodeLookupResult.IsInstructionStream, CodeLookupResult.IsCode,
      CodeLookupResult.instruction_stream, DCHECK, hs, hd]
  · intro c hc
    have hd : (default : InstructionStream).is_null = true := by decide
    simp [CodeLookupResult.ctor_Code, CodeLookupResult.IsFound,
      CodeLookupResult.IsInstructionStream, CodeLookupResult.IsCode,
      CodeLookupResult.code, DCHECK, hc, hd]

/-- C4 at the InstructionStream at address 4096 and the Code at address 8192. -/
theorem CodeLookupResult.constructors_witness :
    (CodeLookupResult.ctor_InstructionStream ⟨4096⟩).instruction_stream = Except.ok ⟨4096⟩ ∧
    (CodeLookupResult.ctor_Code ⟨8192⟩).code = Except.ok ⟨8192⟩ :=
  ⟨(CodeLookupResult.constructors.2.1 ⟨4096⟩ (by decide)).2.2.2,
   (CodeLookupResult.constructors.2.2 ⟨8192⟩ (by decide)).2.2.2⟩

/-- C5: every `CodeLookupResult` produced by one of the three constructors has at most one
payload set (`IsInstructionStream()` and `IsCode()` are never both true), and `IsFound()` holds
exactly when one of the two is true. -/
theorem CodeLookupResult.at_most_one_payload (s : InstructionStream) (c : Code)
    (r : CodeLookupResult)
    (hr : r = CodeLookupResult.ctor ∨ r = CodeLookupResult.ctor_InstructionStream s ∨
      r = CodeLookupResult.ctor_Code c) :
    ¬ (r.IsInstructionStream = true ∧ r.IsCode = true) ∧
    (r.IsFound = true ↔ (r.IsInstructionStream = true ∨ r.IsCode = true)) := by
  have hdc : (default : Code).is_null = true := by decide
  have hds : (default : InstructionStream).is_null = true := by decide
  rcases hr with rfl | rfl | rfl <;>
    simp [CodeLookupResult.ctor, CodeLookupResult.ctor_InstructionStream,
      CodeLookupResult.ctor_Code, CodeLookupResult.IsFound,
      CodeLookupResult.IsInstructionStream, CodeLookupResult.IsCode, hdc, hds]

/-- C5 at the result constructed from the InstructionStream at address 4096. -/
theorem CodeLookupResult.at_most_one_payload_witness :
    ¬ ((CodeLookupResult.ctor_InstructionStream ⟨4096⟩).IsInstructionStream = true ∧
        (CodeLookupResult.ctor_InstructionStream ⟨4096⟩).IsCode = true) ∧
    ((CodeLookupResult.ctor_InstructionStream ⟨4096⟩).IsFound = true ↔
      ((CodeLookupResult.ctor_InstructionStream ⟨4096⟩).IsInstructionStream = true ∨
        (CodeLookupResult.ctor_InstructionStream ⟨4096⟩).IsCode = true)) :=
  CodeLookupResult.at_most_one_payload ⟨4096⟩ ⟨8192⟩ _ (Or.inr (Or.inl rfl))

/-- C6: `instruction_stream()` fails its assertion whenever `IsInstructionStream()` is false and
`code()` fails its assertion whenever `IsCode()` is false, so both fail on a default-constructed
result; otherwise each returns the stored payload without failing. -/
theorem CodeLookupResult.payload_accessors (r : CodeLookupResult) :
    (r.IsInstructionStream = false → r.instruction_stream = Except.error Failure.DCHECK) ∧
    (r.IsCode = false → r.code = Except.error Failure.DCHECK) ∧
    (r.IsInstructionStream = true → r.instruction_stream = Except.ok r.instruction_stream_) ∧
    (r.IsCode = true → r.code = Except.ok r.code_) ∧
    CodeLookupResult.ctor.instruction_stream = Except.error Failure.DCHECK ∧
    CodeLookupResult.ctor.code = Except.error Failure.DCHECK := by
  refine ⟨?_, ?_, ?_, ?_, rfl, rfl⟩ <;> intro h <;>
    simp [CodeLookupResult.instruction_stream, CodeLookupResult.code, DCHECK, h]

/-! ## `InstructionStream::SizeFor` -/

theorem kCodeAlignment_pos (cfg : BuildConfig) : 0 < kCodeAlignment cfg := by
  unfold kCodeAlignment
  positivity

theorem roundUp_bounds (A x : Int) (hA : 0 < A) :
    x ≤ (x + (A - 1)) / A * A ∧ (x + (A - 1)) / A * A < x + A ∧ A ∣ (x + (A - 1)) / A * A := by
  have h1 := Int.emod_add_ediv (x + (A - 1)) A
  have h2 := Int.emod_nonneg (x + (A - 1)) (ne_of_gt hA)
  have h3 := Int.emod_lt_of_pos (x + (A - 1)) hA
  have h4 : (x + (A - 1)) / A * A = A * ((x + (A - 1)) / A) := mul_comm _ _
  refine ⟨by omega, by omega, Dvd.intro_left _ rfl⟩

theorem roundUp_add_mul (A q x : Int) (hA : 0 < A) :
    (q * A + x + (A - 1)) / A * A = q * A + (x + (A - 1)) / A * A := by
  have : q * A + x + (A - 1) = (x + (A - 1)) + q * A := by ring
  rw [this, Int.add_mul_ediv_right _ _ (ne_of_gt hA)]
  ring

theorem InstructionStream.kOptionalPaddingOffset_nonneg (cfg : BuildConfig) :
    0 ≤ InstructionStream.kOptionalPaddingOffset cfg := by
  simp only [InstructionStream.kOptionalPaddingOffset, InstructionStream.kUnalignedHeaderSize,
    InstructionStream.kUnwindingInfoOffsetOffset, InstructionStream.kCodeCommentsOffsetOffset,
    InstructionStream.kConstantPoolOffsetOffset, InstructionStream.kHandlerTableOffsetOffset,
    InstructionStream.kOsrOffsetOffset, InstructionStream.kInlinedBytecodeSizeOffset,
    InstructionStream.kBuiltinIndexOffset, InstructionStream.kFlagsOffset,
    InstructionStream.kMetadataSizeOffset, InstructionStream.kInstructionSizeOffset,
    InstructionStream.kMainCageBaseUpper32BitsOffset, InstructionStream.kDataStart,
    InstructionStream.kCodeOffset, InstructionStream.kPositionTableOffset,
    InstructionStream.kDeoptimizationDataOrInterpreterDataOffset,
    InstructionStream.kRelocationInfoOffset, HeapObject.kHeaderSize, kIntSize, kInt32Size]
  split_ifs <;> omega

theorem InstructionStream.kHeaderSize_eq (cfg : BuildConfig) :
    InstructionStream.kHeaderSize cfg =
      (InstructionStream.kOptionalPaddingOffset cfg + (kCodeAlignment cfg - 1)) /
        kCodeAlignment cfg * kCodeAlignment cfg := by
  unfold InstructionStream.kHeaderSize CODE_POINTER_PADDING
  ring

theorem InstructionStream.kHeaderSize_nonneg (cfg : BuildConfig) :
    0 ≤ InstructionStream.kHeaderSize cfg := by
  have h1 := (roundUp_bounds (kCodeAlignment cfg) (InstructionStream.kOptionalPaddingOffset cfg)
    (kCodeAlignment_pos cfg)).1
  have h2 := InstructionStream.kOptionalPaddingOffset_nonneg cfg
  rw [InstructionStream.kHeaderSize_eq]
  omega

/-- C7: the header is padded to the code alignment, and for every body size `n ≥ 0`
`SizeFor(n) = RoundUp(kHeaderSize + n, kCodeAlignment)` equals `kHeaderSize + RoundUp(n,
kCodeAlignment)` as an `int` computation (both sides are defined for the same `n`).  Whenever
`kHeaderSize + n + (kCodeAlignment - 1)` does not exceed `kMaxInt`, the computation is defined and
`SizeFor(n)` is the header size plus the least multiple of the code alignment that is at least
`n`. -/
theorem InstructionStream.SizeFor_eq_header_plus_RoundUp (cfg : BuildConfig) (n : Int)
    (hn : 0 ≤ n) :
    kCodeAlignment cfg ∣ InstructionStream.kHeaderSize cfg ∧
    InstructionStream.SizeFor cfg n =
      (RoundUp n (kCodeAlignment cfg)).bind
        (fun r => checkedInt (InstructionStream.kHeaderSize cfg + r)) ∧
    (InstructionStream.kHeaderSize cfg + n + (kCodeAlignment cfg - 1) ≤ kMaxInt →
      ∃ r : Int, RoundUp n (kCodeAlignment cfg) = some r ∧ n ≤ r ∧ r < n + kCodeAlignment cfg ∧
        kCodeAlignment cfg ∣ r ∧
        InstructionStream.SizeFor cfg n = some (InstructionStream.kHeaderSize cfg + r)) := by
  have hA := kCodeAlignment_pos cfg
  have hH0 := InstructionStream.kHeaderSize_nonneg cfg
  have hHeq := InstructionStream.kHeaderSize_eq cfg
  obtain ⟨hr1, hr2, hr3⟩ := roundUp_bounds (kCodeAlignment cfg) n hA
  have hdvd : kCodeAlignment cfg ∣ InstructionStream.kHeaderSize cfg := by
    rw [hHeq]; exact Dvd.intro_left _ rfl
  have hkey : (InstructionStream.kHeaderSize cfg + n + (kCodeAlignment cfg - 1)) /
      kCodeAlignment cfg * kCodeAlignment cfg =
      InstructionStream.kHeaderSize cfg + (n + (kCodeAlignment cfg - 1)) / kCodeAlignment cfg *
        kCodeAlignment cfg := by
    obtain ⟨q, hq⟩ := hdvd
    rw [hq, mul_comm (kCodeAlignment cfg) q]
    exact roundUp_add_mul _ _ _ hA
  simp only [InstructionStream.SizeFor, RoundUp, checkedInt, kMinInt, kMaxInt]
  generalize hR : (n + (kCodeAlignment cfg - 1)) / kCodeAlignment cfg * kCodeAlignment cfg = R
    at hr1 hr2 hr3 hkey ⊢
  generalize InstructionStream.kHeaderSize cfg = H at *
  generalize kCodeAlignment cfg = A at *
  refine ⟨hdvd, ?_, ?_⟩
  · by_cases h1 : H + R ≤ 2147483647
    · have c1 : (-2147483648 ≤ H + n ∧ H + n ≤ 2147483647) := by omega
      have c2 : (-2147483648 ≤ R ∧ R ≤ 2147483647) := by omega
      have c3 : (-2147483648 ≤ H + R ∧ H + R ≤ 2147483647) := by omega
      simp [c1, c2, c3, hkey]
    · have c3 : ¬ (-2147483648 ≤ H + R ∧ H + R ≤ 2147483647) := by omega
      by_cases c1 : (-2147483648 ≤ H + n ∧ H + n ≤ 2147483647) <;>
        by_cases c2 : (-2147483648 ≤ R ∧ R ≤ 2147483647) <;>
        simp [c1, c2, c3, hkey]
  · intro hb
    have c1 : (-2147483648 ≤ H + n ∧ H + n ≤ 2147483647) := by omega
    have c2 : (-2147483648 ≤ R ∧ R ≤ 2147483647) := by omega
    have c3 : (-2147483648 ≤ H + R ∧ H + R ≤ 2147483647) := by omega
    exact ⟨R, by simp [c2], hr1, hr2, hr3, by simp [c1, c3, hkey]⟩

/-- C7 for a body of 100 bytes on x64: the header takes 64 bytes and the object 192 bytes. -/
theorem InstructionStream.SizeFor_eq_header_plus_RoundUp_witness :
    (0 : Int) ≤ 100 ∧
    InstructionStream.SizeFor BuildConfig.x64 100 =
      (RoundUp 100 (kCodeAlignment BuildConfig.x64)).bind
        (fun r => checkedInt (InstructionStream.kHeaderSize BuildConfig.x64 + r)) ∧
    InstructionStream.SizeFor BuildConfig.x64 100 = some 192 :=
  ⟨by decide, (InstructionStream.SizeFor_eq_header_plus_RoundUp BuildConfig.x64 100 (by decide)).2.1,
    by decide⟩

/-! ## `DeoptimizationData` -/

theorem DeoptimizationData.IndexForEntry_eq_some (cfg : BuildConfig) (i index : Int) :
    DeoptimizationData.IndexForEntry cfg i = some index ↔
      (kMinInt ≤ i * DeoptimizationData.kDeoptEntrySize cfg ∧
        i * DeoptimizationData.kDeoptEntrySize cfg ≤ kMaxInt) ∧
      (kMinInt ≤ DeoptimizationData.kFirstDeoptEntryIndex +
          i * DeoptimizationData.kDeoptEntrySize cfg ∧
        DeoptimizationData.kFirstDeoptEntryIndex + i * DeoptimizationData.kDeoptEntrySize cfg ≤
          kMaxInt) ∧
      index = DeoptimizationData.kFirstDeoptEntryIndex +
        i * DeoptimizationData.kDeoptEntrySize cfg := by
  unfold DeoptimizationData.IndexForEntry checkedInt
  by_cases h1 : kMinInt ≤ i * DeoptimizationData.kDeoptEntrySize cfg ∧
      i * DeoptimizationData.kDeoptEntrySize cfg ≤ kMaxInt
  · by_cases h2 : kMinInt ≤ DeoptimizationData.kFirstDeoptEntryIndex +
        i * DeoptimizationData.kDeoptEntrySize cfg ∧
        DeoptimizationData.kFirstDeoptEntryIndex + i * DeoptimizationData.kDeoptEntrySize cfg ≤
          kMaxInt
    · simp [h1, h2, eq_comm]
    · simp [h1, h2]
  · simp [h1]

theorem DeoptimizationData.kDeoptEntrySize_cases (cfg : BuildConfig) :
    DeoptimizationData.kDeoptEntrySize cfg = 3 ∨ DeoptimizationData.kDeoptEntrySize cfg = 4 := by
  unfold DeoptimizationData.kDeoptEntrySize
  split_ifs <;> simp

/-- C8: for every entry count `n ≥ 0`, `LengthFor(n)` is `kFirstDeoptEntryIndex + n *
kDeoptEntrySize` (defined as long as this is an `int`), and a `DeoptimizationData` array of length
`LengthFor(n)` has `DeoptCount() = (length - kFirstDeoptEntryIndex) / kDeoptEntrySize = n`; for
every `i` with `0 ≤ i < DeoptCount()` the slot `IndexForEntry(i) + kBytecodeOffsetRawOffset` read by
`GetBytecodeOffset(i)` is a valid index of the array, at least `kFirstDeoptEntryIndex` and below
the length, so that `GetBytecodeOffset(i)` returns a value. -/
theorem DeoptimizationData.DeoptCount_of_LengthFor (cfg : BuildConfig) (n : Int) (hn : 0 ≤ n) :
    (DeoptimizationData.kFirstDeoptEntryIndex + n * DeoptimizationData.kDeoptEntrySize cfg ≤
        kMaxInt →
      DeoptimizationData.LengthFor cfg n =
        some (DeoptimizationData.kFirstDeoptEntryIndex +
          n * DeoptimizationData.kDeoptEntrySize cfg)) ∧
    (∀ self : DeoptimizationData, DeoptimizationData.LengthFor cfg n = some self.length →
      DeoptimizationData.DeoptCount cfg self =
        Int.tdiv (self.length - DeoptimizationData.kFirstDeoptEntryIndex)
          (DeoptimizationData.kDeoptEntrySize cfg) ∧
      DeoptimizationData.DeoptCount cfg self = n ∧
      ∀ i : Int, 0 ≤ i → i < DeoptimizationData.DeoptCount cfg self →
        ∃ index : Int, DeoptimizationData.IndexForEntry cfg i = some index ∧
          DeoptimizationData.kFirstDeoptEntryIndex ≤
            index + DeoptimizationData.kBytecodeOffsetRawOffset ∧
          index + DeoptimizationData.kBytecodeOffsetRawOffset < self.length ∧
          DeoptimizationData.GetBytecodeOffset cfg self i =
            Except.ok (self.elements.getD
              (index + DeoptimizationData.kBytecodeOffsetRawOffset).toNat 0)) := by
  have hs := DeoptimizationData.kDeoptEntrySize_cases cfg
  refine ⟨?_, ?_⟩
  · intro hb
    unfold DeoptimizationData.LengthFor
    rw [DeoptimizationData.IndexForEntry_eq_some]
    unfold DeoptimizationData.kFirstDeoptEntryIndex kMaxInt at hb
    unfold DeoptimizationData.kFirstDeoptEntryIndex kMaxInt kMinInt
    rcases hs with hs | hs <;> rw [hs] at hb ⊢ <;> omega
  · intro self hlen
    unfold DeoptimizationData.LengthFor at hlen
    rw [DeoptimizationData.IndexForEntry_eq_some] at hlen
    obtain ⟨hl1, hl2, hl3⟩ := hlen
    have hcount : DeoptimizationData.DeoptCount cfg self = n := by
      unfold DeoptimizationData.DeoptCount
      rw [hl3, add_sub_cancel_left]
      exact Int.mul_tdiv_cancel _ (by rcases hs with hs | hs <;> rw [hs] <;> decide)
    refine ⟨rfl, hcount, ?_⟩
    intro i hi0 hin
    rw [hcount] at hin
    have hrange : (kMinInt ≤ i * DeoptimizationData.kDeoptEntrySize cfg ∧
        i * DeoptimizationData.kDeoptEntrySize cfg ≤ kMaxInt) ∧
        (kMinInt ≤ DeoptimizationData.kFirstDeoptEntryIndex +
            i * DeoptimizationData.kDeoptEntrySize cfg ∧
          DeoptimizationData.kFirstDeoptEntryIndex +
            i * DeoptimizationData.kDeoptEntrySize cfg ≤ kMaxInt) ∧
        DeoptimizationData.kFirstDeoptEntryIndex + i * DeoptimizationData.kDeoptEntrySize cfg <
          self.length := by
      rw [hl3]
      unfold DeoptimizationData.kFirstDeoptEntryIndex kMaxInt kMinInt at *
      rcases hs with hs | hs <;> rw [hs] at hl1 hl2 ⊢ <;> omega
    obtain ⟨hr1, hr2, hr3⟩ := hrange
    have hidx : DeoptimizationData.IndexForEntry cfg i =
        some (DeoptimizationData.kFirstDeoptEntryIndex +
          i * DeoptimizationData.kDeoptEntrySize cfg) :=
      (DeoptimizationData.IndexForEntry_eq_some cfg i _).mpr ⟨hr1, hr2, rfl⟩
    have hnn : 0 ≤ i * DeoptimizationData.kDeoptEntrySize cfg := by
      rcases hs with hs | hs <;> rw [hs] <;> omega
    refine ⟨_, hidx, ?_, ?_, ?_⟩
    · unfold DeoptimizationData.kBytecodeOffsetRawOffset; omega
    · unfold DeoptimizationData.kBytecodeOffsetRawOffset; omega
    · have hslot : checkedInt (DeoptimizationData.kFirstDeoptEntryIndex +
          i * DeoptimizationData.kDeoptEntrySize cfg +
          DeoptimizationData.kBytecodeOffsetRawOffset) =
          some (DeoptimizationData.kFirstDeoptEntryIndex +
            i * DeoptimizationData.kDeoptEntrySize cfg +
            DeoptimizationData.kBytecodeOffsetRawOffset) := by
        unfold checkedInt DeoptimizationData.kBytecodeOffsetRawOffset
        rw [add_zero, if_pos hr2]
      have hvalid : 0 ≤ DeoptimizationData.kFirstDeoptEntryIndex +
          i * DeoptimizationData.kDeoptEntrySize cfg +
          DeoptimizationData.kBytecodeOffsetRawOffset ∧
          DeoptimizationData.kFirstDeoptEntryIndex +
          i * DeoptimizationData.kDeoptEntrySize cfg +
          DeoptimizationData.kBytecodeOffsetRawOffset < self.length := by
        unfold DeoptimizationData.kBytecodeOffsetRawOffset
        unfold DeoptimizationData.kFirstDeoptEntryIndex at hr3 ⊢
        omega
      simp only [DeoptimizationData.GetBytecodeOffset, DeoptimizationData.BytecodeOffsetRaw, hidx,
        FixedArray.get, DCHECK]
      rw [Option.some_bind, hslot]
      simp [hvalid]

/-- C8 for five entries: an array of 26 slots in a release build, of 31 slots in a debug
build. -/
theorem DeoptimizationData.DeoptCount_of_LengthFor_witness :
    (0 : Int) ≤ 5 ∧
    DeoptimizationData.LengthFor BuildConfig.x64 5 = some 26 ∧
    DeoptimizationData.DeoptCount BuildConfig.x64 ⟨List.replicate 26 0⟩ = 5 ∧
    DeoptimizationData.LengthFor BuildConfig.ia32Debug 5 = some 31 ∧
    DeoptimizationData.DeoptCount BuildConfig.ia32Debug ⟨List.replicate 31 0⟩ = 5 :=
  ⟨by decide, by decide,
    ((DeoptimizationData.DeoptCount_of_LengthFor BuildConfig.x64 5 (by decide)).2
      ⟨List.replicate 26 0⟩ (by decide)).2.1,
    by decide,
    ((DeoptimizationData.DeoptCount_of_LengthFor BuildConfig.ia32Debug 5 (by decide)).2
      ⟨List.replicate 31 0⟩ (by decide)).2.1⟩

/-! ## `DependentCode` -/

/-- C9: the nine `DependencyGroup` values are the single-bit masks `1 << 0` through `1 << 8`;
the bitwise AND of any two distinct groups is 0, and the union of all nine is `0x1FF`, which fits
into a 31-bit Smi (it is below `2 ^ 30`, the bound of the non-negative Smi values). -/
theorem DependentCode.DependencyGroup.disjoint_single_bits :
    DependentCode.DependencyGroup.all.map DependentCode.DependencyGroup.value =
      [1 <<< 0, 1 <<< 1, 1 <<< 2, 1 <<< 3, 1 <<< 4, 1 <<< 5, 1 <<< 6, 1 <<< 7, 1 <<< 8] ∧
    (∀ g : DependentCode.DependencyGroup, g ∈ DependentCode.DependencyGroup.all) ∧
    DependentCode.DependencyGroup.all.Nodup ∧
    (∀ g h : DependentCode.DependencyGroup, g ≠ h → g.value &&& h.value = 0) ∧
    DependentCode.DependencyGroups.union DependentCode.DependencyGroup.all = 0x1FF ∧
    DependentCode.DependencyGroups.union DependentCode.DependencyGroup.all < 2 ^ 30 := by
  refine ⟨by decide, ?_, by decide, ?_, by decide, by decide⟩
  · intro g
    cases g <;> decide
  · intro g h hne
    cases g <;> cases h <;> first
      | exact absurd rfl hne
      | decide

theorem DependentCode.FillEntryFromBack_spec (P : DependentCode.Entry → Prop)
    (hP : ∀ e, P e → e.code.isSome = true) (backing : List DependentCode.Entry) (i len : Nat)
    (hi : i < len)
    (hinv : ∀ j, i < j → j < len → ∃ e, backing[j]? = some e ∧ P e) :
    (DependentCode.FillEntryFromBack backing i len).1.length = backing.length ∧
    i ≤ (DependentCode.FillEntryFromBack backing i len).2 ∧
    (DependentCode.FillEntryFromBack backing i len).2 < len ∧
    (i < backing.length → ∀ j, i ≤ j → j < (DependentCode.FillEntryFromBack backing i len).2 →
      ∃ e, (DependentCode.FillEntryFromBack backing i len).1[j]? = some e ∧ P e) ∧
    (∀ j, j < i → (DependentCode.FillEntryFromBack backing i len).1[j]? = backing[j]?) := by
  obtain ⟨l, rfl⟩ : ∃ l, len = l + 1 := ⟨len - 1, by omega⟩
  by_cases hil : i < l
  · obtain ⟨e, he, hPe⟩ := hinv l hil (by omega)
    have hres : DependentCode.FillEntryFromBack backing i (l + 1) = (backing.set i e, l) := by
      simp [DependentCode.FillEntryFromBack, hil, he, hP e hPe]
    rw [hres]
    refine ⟨List.length_set _ _ _, le_of_lt hil, by simp, ?_, ?_⟩
    · intro hib j hij hjl
      by_cases hji : j = i
      · subst hji
        exact ⟨e, by simp [List.getElem?_set, hib], hPe⟩
      · obtain ⟨e', he', hPe'⟩ := hinv j (by omega) (by simpa using (by omega : j < l + 1))
        refine ⟨e', ?_, hPe'⟩
        simp only at hjl ⊢
        rw [List.getElem?_set_ne (fun h => hji h.symm)]
        exact he'
    · intro j hj
      simp only
      rw [List.getElem?_set_ne (by omega)]
  · have hres : DependentCode.FillEntryFromBack backing i (l + 1) = (backing, i) := by
      simp [DependentCode.FillEntryFromBack, hil]
    rw [hres]
    refine ⟨rfl, le_refl _, by simpa using hi, ?_, fun _ _ => rfl⟩
    intro _ j hij hji
    simp only at hji
    omega

theorem DependentCode.MarkCodeForDeoptimization.fn_marks (G : DependentCode.DependencyGroups)
    (st : (Code → Bool) × Bool) (code : Code) (groups : DependentCode.DependencyGroups) :
    (∀ c, st.1 c = true →
      (DependentCode.MarkCodeForDeoptimization.fn G st code groups).2.1 c = true) ∧
    ((DependentCode.MarkCodeForDeoptimization.fn G st code groups).1 = false →
      groups &&& G = 0) ∧
    ((DependentCode.MarkCodeForDeoptimization.fn G st code groups).1 = true →
      (DependentCode.MarkCodeForDeoptimization.fn G st code groups).2.1 code = true) := by
  unfold DependentCode.MarkCodeForDeoptimization.fn
  by_cases hg : groups &&& G = 0
  · simp [hg]
  · by_cases hm : st.1 code = true
    · simp [hg, hm]
    · simp only [hg, if_false, hm, Bool.not_eq_true, Bool.not_false, if_true]
      refine ⟨?_, by simp, ?_⟩
      · intro c hc
        simp [Heap.SetMarkedForDeoptimization, hc]
      · intro _
        simp [Heap.SetMarkedForDeoptimization]

theorem DependentCode.IterateAndCompact.loop_spec (G : DependentCode.DependencyGroups) :
    ∀ (i : Nat) (backing : List DependentCode.Entry) (len : Nat) (st : (Code → Bool) × Bool),
      i ≤ len → len ≤ backing.length →
      (∀ j, i ≤ j → j < len → ∃ e, backing[j]? = some e ∧ e.Survives G) →
      (DependentCode.IterateAndCompact.loop (DependentCode.MarkCodeForDeoptimization.fn G) i
          (backing, len, st)).2.1 ≤ len ∧
      (DependentCode.IterateAndCompact.loop (DependentCode.MarkCodeForDeoptimization.fn G) i
          (backing, len, st)).1.length = backing.length ∧
      (∀ j, j < (DependentCode.IterateAndCompact.loop
            (DependentCode.MarkCodeForDeoptimization.fn G) i (backing, len, st)).2.1 →
        ∃ e, (DependentCode.IterateAndCompact.loop
            (DependentCode.MarkCodeForDeoptimization.fn G) i (backing, len, st)).1[j]? = some e ∧
          e.Survives G) ∧
      (∀ c, st.1 c = true →
        (DependentCode.IterateAndCompact.loop (DependentCode.MarkCodeForDeoptimization.fn G) i
          (backing, len, st)).2.2.1 c = true) := by
  intro i
  induction i with
  | zero =>
    intro backing len st _ _ hinv
    exact ⟨le_refl _, rfl, fun j hj => hinv j (Nat.zero_le _) hj, fun _ h => h⟩
  | succ i ih =>
    intro backing len st hi hlen hinv
    have hib : i < backing.length := by omega
    -- the step taken when the entry at `i` is cleared, with the callback state `st1`
    have hclear : ∀ st1 : (Code → Bool) × Bool, (∀ c, st.1 c = true → st1.1 c = true) →
        (DependentCode.IterateAndCompact.loop (DependentCode.MarkCodeForDeoptimization.fn G) i
          ((DependentCode.FillEntryFromBack backing i len).1,
            (DependentCode.FillEntryFromBack backing i len).2, st1)).2.1 ≤ len ∧
        (DependentCode.IterateAndCompact.loop (DependentCode.MarkCodeForDeoptimization.fn G) i
          ((DependentCode.FillEntryFromBack backing i len).1,
            (DependentCode.FillEntryFromBack backing i len).2, st1)).1.length = backing.length ∧
        (∀ j, j < (DependentCode.IterateAndCompact.loop
              (DependentCode.MarkCodeForDeoptimization.fn G) i
              ((DependentCode.FillEntryFromBack backing i len).1,
                (DependentCode.FillEntryFromBack backing i len).2, st1)).2.1 →
          ∃ e, (DependentCode.IterateAndCompact.loop
              (DependentCode.MarkCodeForDeoptimization.fn G) i
              ((DependentCode.FillEntryFromBack backing i len).1,
                (DependentCode.FillEntryFromBack backing i len).2, st1)).1[j]? = some e ∧
            e.Survives G) ∧
        (∀ c, st.1 c = true →
          (DependentCode.IterateAndCompact.loop (DependentCode.MarkCodeForDeoptimization.fn G) i
            ((DependentCode.FillEntryFromBack backing i len).1,
              (DependentCode.FillEntryFromBack backing i len).2, st1)).2.2.1 c = true) := by
      intro st1 hmono
      obtain ⟨f1, f2, f3, f4, -⟩ := DependentCode.FillEntryFromBack_spec
        (fun e => e.Survives G) (fun e he => he.1) backing i len (by omega)
        (fun j hj hjl => hinv j (by omega) hjl)
      obtain ⟨r1, r2, r3, r4⟩ := ih (DependentCode.FillEntryFromBack backing i len).1
        (DependentCode.FillEntryFromBack backing i len).2 st1 f2 (by omega) (f4 hib)
      exact ⟨by omega, by omega, r3, fun c hc => r4 c (hmono c hc)⟩
    obtain ⟨e, he⟩ : ∃ e, backing[i]? = some e := ⟨backing[i], List.getElem?_eq_getElem hib⟩
    rw [DependentCode.IterateAndCompact.loop]
    simp only [he]
    cases hcode : e.code with
    | none =>
      simp only []
      exact hclear st (fun _ h => h)
    | some code =>
      simp only []
      obtain ⟨m1, m2, -⟩ := DependentCode.MarkCodeForDeoptimization.fn_marks G st code e.groups
      by_cases hres : (DependentCode.MarkCodeForDeoptimization.fn G st code e.groups).1 = true
      · rw [if_pos hres]
        exact hclear _ m1
      · rw [if_neg hres]
        have hsurv : e.Survives G := ⟨by simp [hcode], m2 (by simpa using hres)⟩
        obtain ⟨r1, r2, r3, r4⟩ := ih backing len
          (DependentCode.MarkCodeForDeoptimization.fn G st code e.groups).2 (by omega) hlen
          (fun j hj hjl => by
            by_cases hji : j = i
            · subst hji; exact ⟨e, he, hsurv⟩
            · exact hinv j (by omega) hjl)
        exact ⟨r1, r2, r3, fun c hc => r4 c (m1 c hc)⟩

theorem DependentCode.DeoptimizeDependencyGroups_fields (heap : Heap) (O : HeapObject)
    (G : DependentCode.DependencyGroups) :
    (DependentCode.DeoptimizeDependencyGroups heap O G).marked_for_deoptimization =
      ((heap.dependent_code O).IterateAndCompact (DependentCode.MarkCodeForDeoptimization.fn G)
        (heap.marked_for_deoptimization, false)).2.1 ∧
    (DependentCode.DeoptimizeDependencyGroups heap O G).dependent_code O =
      ((heap.dependent_code O).IterateAndCompact (DependentCode.MarkCodeForDeoptimization.fn G)
        (heap.marked_for_deoptimization, false)).1 := by
  by_cases h : (DependentCode.MarkCodeForDeoptimization heap O G).1 = true <;>
    simp [DependentCode.DeoptimizeDependencyGroups, h] <;>
    simp [DependentCode.MarkCodeForDeoptimization, DependentCode.SetDependentCode,
      DependentCode.GetDependentCode]

theorem DependentCode.InsertWeakCode_spec (dc : DependentCode)
    (G : DependentCode.DependencyGroups) (c : Code) (hwf : dc.length ≤ dc.capacity) :
    (DependentCode.InsertWeakCode dc G c).length = dc.length + 1 ∧
    (DependentCode.InsertWeakCode dc G c).backing[dc.length]? = some ⟨some c, G⟩ ∧
    dc.length + 1 ≤ (DependentCode.InsertWeakCode dc G c).backing.length ∧
    dc.capacity ≤ (DependentCode.InsertWeakCode dc G c).capacity := by
  unfold DependentCode.capacity at *
  have htake : (dc.backing.take dc.length).length = dc.length := by
    rw [List.length_take]; omega
  refine ⟨rfl, ?_, ?_, ?_⟩
  · simp only [DependentCode.InsertWeakCode, List.append_assoc]
    rw [List.getElem?_append_right (by omega), htake]
    simp
  · simp only [DependentCode.InsertWeakCode, List.length_append, htake, List.length_cons,
      List.length_nil]
    omega
  · simp only [DependentCode.InsertWeakCode, List.length_append, htake, List.length_cons,
      List.length_nil, List.length_drop]
    omega

/-- C10: for every tracked object `O` (with a well-formed list), live code object `c` and
non-empty group set `G`, `InstallDependency(c, O, G)` puts the entry `(c, G)` into the list of `O`,
and after the following `DeoptimizeDependencyGroups(O, G)` the code `c` is marked for
deoptimization and the entry for `c` has been cleared from the list: every entry left in the list
is live with groups disjoint from `G`, the entry `(c, G)` is not among them, and the logical
length is at most what it was before the installation.  Starting from an empty list, in
particular with `G = kTransitionGroup`, the logical list length afterwards is 0.  The list stays
well formed and its capacity does not shrink. -/
theorem DependentCode.install_then_deoptimize (heap : Heap) (O : HeapObject) (c : Code)
    (G : DependentCode.DependencyGroups)
    (hwf : (heap.dependent_code O).length ≤ (heap.dependent_code O).capacity)
    (hG : G ≠ 0) :
    (⟨some c, G⟩ : DependentCode.Entry) ∈
      ((DependentCode.InstallDependency heap c O G).dependent_code O).entries ∧
    (DependentCode.DeoptimizeDependencyGroups (DependentCode.InstallDependency heap c O G) O
      G).marked_for_deoptimization c = true ∧
    (∀ e ∈ ((DependentCode.DeoptimizeDependencyGroups
        (DependentCode.InstallDependency heap c O G) O G).dependent_code O).entries,
      e.Survives G) ∧
    (⟨some c, G⟩ : DependentCode.Entry) ∉
      ((DependentCode.DeoptimizeDependencyGroups
        (DependentCode.InstallDependency heap c O G) O G).dependent_code O).entries ∧
    ((DependentCode.DeoptimizeDependencyGroups
        (DependentCode.InstallDependency heap c O G) O G).dependent_code O).length ≤
      (heap.dependent_code O).length ∧
    ((heap.dependent_code O).length = 0 →
      ((DependentCode.DeoptimizeDependencyGroups
        (DependentCode.InstallDependency heap c O G) O G).dependent_code O).length = 0) ∧
    (heap.dependent_code O = DependentCode.empty_dependent_code →
      G = DependentCode.DependencyGroup.kTransitionGroup.value →
      ((DependentCode.DeoptimizeDependencyGroups
        (DependentCode.InstallDependency heap c O G) O G).dependent_code O).length = 0) ∧
    ((DependentCode.DeoptimizeDependencyGroups
        (DependentCode.InstallDependency heap c O G) O G).dependent_code O).length ≤
      ((DependentCode.DeoptimizeDependencyGroups
        (DependentCode.InstallDependency heap c O G) O G).dependent_code O).capacity ∧
    (heap.dependent_code O).capacity ≤
      ((DependentCode.DeoptimizeDependencyGroups
        (DependentCode.InstallDependency heap c O G) O G).dependent_code O).capacity := by
  obtain ⟨hf1, hf2⟩ := DependentCode.DeoptimizeDependencyGroups_fields
    (DependentCode.InstallDependency heap c O G) O G
  have hdc : (DependentCode.InstallDependency heap c O G).dependent_code O =
      DependentCode.InsertWeakCode (heap.dependent_code O) G c := by
    simp [DependentCode.InstallDependency, DependentCode.SetDependentCode,
      DependentCode.GetDependentCode]
  have hmk : (DependentCode.InstallDependency heap c O G).marked_for_deoptimization =
      heap.marked_for_deoptimization := rfl
  obtain ⟨i1, i2, i3, i4⟩ := DependentCode.InsertWeakCode_spec (heap.dependent_code O) G c hwf
  rw [hf1, hf2, hdc, hmk]
  generalize heap.marked_for_deoptimization = marked
  generalize hlen0 : (heap.dependent_code O).length = len at *
  generalize hcap0 : (heap.dependent_code O).capacity = cap at *
  generalize hb1 : (DependentCode.InsertWeakCode (heap.dependent_code O) G c) = dc1 at *
  -- the first step of the scan visits the entry just installed and clears it
  have hGG : ¬ (G &&& G = 0) := by rw [Nat.and_self]; exact hG
  obtain ⟨st1, hst1, hstep⟩ : ∃ st1 : (Code → Bool) × Bool, st1.1 c = true ∧
      DependentCode.IterateAndCompact.loop (DependentCode.MarkCodeForDeoptimization.fn G)
        (len + 1) (dc1.backing, len + 1, (marked, false)) =
      DependentCode.IterateAndCompact.loop (DependentCode.MarkCodeForDeoptimization.fn G)
        len (dc1.backing, len, st1) := by
    refine ⟨(DependentCode.MarkCodeForDeoptimization.fn G (marked, false) c G).2, ?_, ?_⟩
    · by_cases hm : marked c = true
      · simp [DependentCode.MarkCodeForDeoptimization.fn, hG, hm]
      · simp [DependentCode.MarkCodeForDeoptimization.fn, hG, hm,
          Heap.SetMarkedForDeoptimization]
    · have hclr : (DependentCode.MarkCodeForDeoptimization.fn G (marked, false) c G).1 = true := by
        by_cases hm : marked c = true
        · simp [DependentCode.MarkCodeForDeoptimization.fn, hG, hm]
        · simp [DependentCode.MarkCodeForDeoptimization.fn, hG, hm]
      rw [DependentCode.IterateAndCompact.loop]
      simp only [i2, hclr, if_true]
      have hfill : DependentCode.FillEntryFromBack dc1.backing len (len + 1) =
          (dc1.backing, len) := by
        simp [DependentCode.FillEntryFromBack]
      rw [hfill]
  obtain ⟨r1, r2, r3, r4⟩ := DependentCode.IterateAndCompact.loop_spec G len dc1.backing len st1
    (le_refl _) (by omega) (fun j hj hjl => absurd hjl (by omega))
  have hsurv : ∀ e ∈ (dc1.IterateAndCompact (DependentCode.MarkCodeForDeoptimization.fn G)
      (marked, false)).1.entries, e.Survives G := by
    intro e he
    simp only [DependentCode.entries, DependentCode.IterateAndCompact, i1, hstep] at he
    obtain ⟨j, hj⟩ := List.mem_iff_getElem?.mp he
    rw [List.getElem?_take] at hj
    split_ifs at hj with hjl
    obtain ⟨e', he', hs'⟩ := r3 j hjl
    rw [he'] at hj
    cases hj
    exact hs'
  have hlen : (dc1.IterateAndCompact (DependentCode.MarkCodeForDeoptimization.fn G)
      (marked, false)).1.length ≤ len := by
    simp only [DependentCode.IterateAndCompact, i1, hstep]
    exact r1
  have hcap : (dc1.IterateAndCompact (DependentCode.MarkCodeForDeoptimization.fn G)
      (marked, false)).1.capacity = dc1.backing.length := by
    simp only [DependentCode.capacity, DependentCode.IterateAndCompact, i1, hstep]
    exact r2
  unfold DependentCode.capacity at i4
  refine ⟨?_, ?_, hsurv, ?_, hlen, ?_, ?_, by omega, by omega⟩
  · rw [DependentCode.entries, i1]
    refine List.mem_iff_getElem?.mpr ⟨len, ?_⟩
    rw [List.getElem?_take, if_pos (by omega)]
    exact i2
  · simp only [DependentCode.IterateAndCompact, i1, hstep]
    exact r4 c hst1
  · intro hmem
    exact hGG (hsurv _ hmem).2
  · intro h0
    omega
  · intro hempty _
    have : len = 0 := by rw [← hlen0, hempty]; rfl
    omega

/-- C10 on the concrete scenario: starting from the empty list, `codeA` at address 100 is
installed on `mapM` at address 7 for `kTransitionGroup` and the group is deoptimized. -/
theorem DependentCode.install_then_deoptimize_witness :
    (DependentCode.DeoptimizeDependencyGroups
      (DependentCode.InstallDependency
        ⟨fun _ => false, fun _ => DependentCode.empty_dependent_code, 0⟩ ⟨100⟩ ⟨7⟩
        DependentCode.DependencyGroup.kTransitionGroup.value) ⟨7⟩
      DependentCode.DependencyGroup.kTransitionGroup.value).marked_for_deoptimization ⟨100⟩ = true ∧
    ((DependentCode.DeoptimizeDependencyGroups
      (DependentCode.InstallDependency
        ⟨fun _ => false, fun _ => DependentCode.empty_dependent_code, 0⟩ ⟨100⟩ ⟨7⟩
        DependentCode.DependencyGroup.kTransitionGroup.value) ⟨7⟩
      DependentCode.DependencyGroup.kTransitionGroup.value).dependent_code ⟨7⟩).length = 0 :=
  ⟨(DependentCode.install_then_deoptimize
      ⟨fun _ => false, fun _ => DependentCode.empty_dependent_code, 0⟩ ⟨7⟩ ⟨100⟩
      DependentCode.DependencyGroup.kTransitionGroup.value (by decide) (by decide)).2.1,
   (DependentCode.install_then_deoptimize
      ⟨fun _ => false, fun _ => DependentCode.empty_dependent_code, 0⟩ ⟨7⟩ ⟨100⟩
      DependentCode.DependencyGroup.kTransitionGroup.value (by decide) (by decide)).2.2.2.2.2.2.1
      rfl rfl⟩

/-! ### The scan of a dependent-code list, exactly -/

theorem List.filter_set_perm {α : Type} (p : α → Bool) (e : α) (hpe : p e = true) :
    ∀ (l : List α) (i : Nat) (old : α), l[i]? = some old → p old = false →
      ((l.set i e).filter p).Perm (e :: l.filter p) := by
  intro l
  induction l with
  | nil => intro i old h; simp at h
  | cons a t ih =>
    intro i old h hold
    cases i with
    | zero =>
      simp only [List.getElem?_cons_zero, Option.some.injEq] at h
      subst h
      simp [List.filter_cons, hpe, hold]
    | succ j =>
      simp only [List.getElem?_cons_succ] at h
      have := ih j old h hold
      by_cases hpa : p a = true
      · simp only [List.set_cons_succ, List.filter_cons, hpa, if_true]
        exact (List.Perm.cons a this).trans (List.Perm.swap e a _)
      · simp only [List.set_cons_succ, List.filter_cons, hpa]
        exact this

theorem List.take_set_self {α : Type} (l : List α) (i : Nat) (a : α) :
    (l.set i a).take i = l.take i := by
  rw [List.set_take, List.set_eq_of_length_le]
  simp [List.length_take]

theorem DependentCode.FillEntryFromBack_self (backing : List DependentCode.Entry) (i : Nat) :
    DependentCode.FillEntryFromBack backing i (i + 1) = (backing, i) := by
  simp [DependentCode.FillEntryFromBack]

theorem DependentCode.FillEntryFromBack_last_live (backing : List DependentCode.Entry)
    (i l : Nat) (e : DependentCode.Entry) (hil : i < l) (he : backing[l]? = some e)
    (hlive : e.code.isSome = true) :
    DependentCode.FillEntryFromBack backing i (l + 1) = (backing.set i e, l) := by
  simp [DependentCode.FillEntryFromBack, hil, he, hlive]

theorem DependentCode.take_succ_of_getElem? (backing : List DependentCode.Entry) (l : Nat)
    (e : DependentCode.Entry) (he : backing[l]? = some e) :
    backing.take (l + 1) = backing.take l ++ [e] := by
  rw [List.take_succ, he]; rfl

/-- Clearing the entry at `i` during a scan: all entries behind `i` survive, the entry at `i`
does not; the surviving entries are the same before and after, up to order. -/
theorem DependentCode.FillEntryFromBack_surviving (G : DependentCode.DependencyGroups)
    (backing : List DependentCode.Entry) (i len : Nat) (e : DependentCode.Entry)
    (hi : i < len) (hinv : ∀ j, i < j → j < len → ∃ e, backing[j]? = some e ∧ e.Survives G)
    (he : backing[i]? = some e) (hne : ¬ e.Survives G) :
    (DependentCode.surviving G
        ((DependentCode.FillEntryFromBack backing i len).1.take
          (DependentCode.FillEntryFromBack backing i len).2)).Perm
      (DependentCode.surviving G (backing.take len)) ∧
    (DependentCode.FillEntryFromBack backing i len).1.take i = backing.take i := by
  obtain ⟨l, rfl⟩ : ∃ l, len = l + 1 := ⟨len - 1, by omega⟩
  by_cases hil : i < l
  · obtain ⟨e', he', hs'⟩ := hinv l hil (by omega)
    rw [DependentCode.FillEntryFromBack_last_live backing i l e' hil he' hs'.1]
    refine ⟨?_, List.take_set_self _ _ _⟩
    simp only [DependentCode.surviving]
    rw [List.set_take, DependentCode.take_succ_of_getElem? backing l e' he', List.filter_append]
    have hti : (backing.take l)[i]? = some e := by
      rw [List.getElem?_take, if_pos hil]; exact he
    refine (List.filter_set_perm _ e' (by simpa using hs') _ i e hti (by simpa using hne)).trans ?_
    have : List.filter (fun entry => decide (entry.Survives G)) [e'] = [e'] := by
      simp [List.filter_cons, hs']
    rw [this]
    exact (List.perm_append_singleton e' _).symm
  · have hli : l = i := by omega
    subst hli
    rw [DependentCode.FillEntryFromBack_self]
    refine ⟨?_, rfl⟩
    simp only [DependentCode.surviving]
    rw [DependentCode.take_succ_of_getElem? backing l e he, List.filter_append]
    have : List.filter (fun entry => decide (entry.Survives G)) [e] = [] := by
      simp [List.filter_cons, hne]
    rw [this, List.append_nil]

theorem DependentCode.MarkCodeForDeoptimization.fn_exact (G : DependentCode.DependencyGroups)
    (st : (Code → Bool) × Bool) (code : Code) (groups : DependentCode.DependencyGroups) :
    (groups &&& G = 0 → DependentCode.MarkCodeForDeoptimization.fn G st code groups = (false, st)) ∧
    (groups &&& G ≠ 0 →
      (DependentCode.MarkCodeForDeoptimization.fn G st code groups).1 = true ∧
      (∀ c, (DependentCode.MarkCodeForDeoptimization.fn G st code groups).2.1 c = true ↔
        (st.1 c = true ∨ c = code)) ∧
      ((DependentCode.MarkCodeForDeoptimization.fn G st code groups).2.2 = true ↔
        (st.2 = true ∨ st.1 code = false))) := by
  unfold DependentCode.MarkCodeForDeoptimization.fn
  refine ⟨fun h => by simp [h], fun h => ?_⟩
  by_cases hm : st.1 code = true
  · simp only [h, if_false, hm, Bool.not_true, Bool.false_eq_true, true_and]
    refine ⟨fun c => ⟨Or.inl, fun hc => hc.elim id (fun hcc => hcc ▸ hm)⟩, ?_⟩
    simp
  · have hm' : st.1 code = false := by simpa using hm
    simp only [h, if_false, hm', Bool.not_false, if_true, true_and]
    refine ⟨fun c => ?_, by simp⟩
    unfold Heap.SetMarkedForDeoptimization
    by_cases hc : c = code
    · simp [hc]
    · simp [hc]

theorem DependentCode.exists_mem_take_succ (backing : List DependentCode.Entry) (i : Nat)
    (e : DependentCode.Entry) (he : backing[i]? = some e) (Q : DependentCode.Entry → Prop) :
    (∃ x ∈ backing.take (i + 1), Q x) ↔ ((∃ x ∈ backing.take i, Q x) ∨ Q e) := by
  rw [DependentCode.take_succ_of_getElem? backing i e he]
  constructor
  · rintro ⟨x, hx, hq⟩
    rcases List.mem_append.mp hx with h | h
    · exact Or.inl ⟨x, h, hq⟩
    · rw [List.mem_singleton] at h
      exact Or.inr (h ▸ hq)
  · rintro (⟨x, hx, hq⟩ | hq)
    · exact ⟨x, List.mem_append_left _ hx, hq⟩
    · exact ⟨e, List.mem_append_right _ (List.mem_singleton.mpr rfl), hq⟩

theorem DependentCode.MarkCodeForDeoptimization.scan_spec (G : DependentCode.DependencyGroups)
    (i : Nat) (backing : List DependentCode.Entry) (len : Nat) (st : (Code → Bool) × Bool)
    (hi : i ≤ len) (hlen : len ≤ backing.length)
    (hinv : ∀ j, i ≤ j → j < len → ∃ e, backing[j]? = some e ∧ e.Survives G) :
    (DependentCode.MarkCodeForDeoptimization.scan G i backing len st).2.1 ≤ len ∧
    (DependentCode.MarkCodeForDeoptimization.scan G i backing len st).1.length = backing.length ∧
    (∀ j, j < (DependentCode.MarkCodeForDeoptimization.scan G i backing len st).2.1 →
      ∃ e, (DependentCode.MarkCodeForDeoptimization.scan G i backing len st).1[j]? = some e ∧
        e.Survives G) :=
  let h := DependentCode.IterateAndCompact.loop_spec G i backing len st hi hlen hinv
  ⟨h.1, h.2.1, h.2.2.1⟩

theorem DependentCode.MarkCodeForDeoptimization.scan_exact (G : DependentCode.DependencyGroups) :
    ∀ (i : Nat) (backing : List DependentCode.Entry) (len : Nat) (st : (Code → Bool) × Bool),
      i ≤ len → len ≤ backing.length →
      (∀ j, i ≤ j → j < len → ∃ e, backing[j]? = some e ∧ e.Survives G) →
      (DependentCode.surviving G
          ((DependentCode.MarkCodeForDeoptimization.scan G i backing len st).1.take
            (DependentCode.MarkCodeForDeoptimization.scan G i backing len st).2.1)).Perm
        (DependentCode.surviving G (backing.take len)) ∧
      (∀ c, (DependentCode.MarkCodeForDeoptimization.scan G i backing len st).2.2.1 c = true ↔
        (st.1 c = true ∨ ∃ x ∈ backing.take i, x.code = some c ∧ x.groups &&& G ≠ 0)) ∧
      ((DependentCode.MarkCodeForDeoptimization.scan G i backing len st).2.2.2 = true ↔
        (st.2 = true ∨
          ∃ x ∈ backing.take i, ∃ c, x.code = some c ∧ x.groups &&& G ≠ 0 ∧ st.1 c = false)) := by
  intro i
  induction i with
  | zero =>
    intro backing len st _ _ _
    simp [DependentCode.MarkCodeForDeoptimization.scan, DependentCode.IterateAndCompact.loop]
  | succ i ih =>
    intro backing len st hi hlen hinv
    have hib : i < backing.length := by omega
    obtain ⟨e, he⟩ : ∃ e, backing[i]? = some e := ⟨backing[i], List.getElem?_eq_getElem hib⟩
    have hmem := DependentCode.exists_mem_take_succ backing i e he
    -- the entry at `i` is cleared from the list, the callback leaves the state `st1`
    have hclear : ∀ st1 : (Code → Bool) × Bool, ¬ e.Survives G →
        (DependentCode.surviving G
          ((DependentCode.MarkCodeForDeoptimization.scan G i
              (DependentCode.FillEntryFromBack backing i len).1
              (DependentCode.FillEntryFromBack backing i len).2 st1).1.take
            (DependentCode.MarkCodeForDeoptimization.scan G i
              (DependentCode.FillEntryFromBack backing i len).1
              (DependentCode.FillEntryFromBack backing i len).2 st1).2.1)).Perm
          (DependentCode.surviving G (backing.take len)) ∧
        (∀ c, (DependentCode.MarkCodeForDeoptimization.scan G i
              (DependentCode.FillEntryFromBack backing i len).1
              (DependentCode.FillEntryFromBack backing i len).2 st1).2.2.1 c = true ↔
          (st1.1 c = true ∨ ∃ x ∈ backing.take i, x.code = some c ∧ x.groups &&& G ≠ 0)) ∧
        ((DependentCode.MarkCodeForDeoptimization.scan G i
              (DependentCode.FillEntryFromBack backing i len).1
              (DependentCode.FillEntryFromBack backing i len).2 st1).2.2.2 = true ↔
          (st1.2 = true ∨
            ∃ x ∈ backing.take i, ∃ c, x.code = some c ∧ x.groups &&& G ≠ 0 ∧
              st1.1 c = false)) := by
      intro st1 hne
      obtain ⟨f1, f2, f3, f4, -⟩ := DependentCode.FillEntryFromBack_spec
        (fun e => e.Survives G) (fun e he => he.1) backing i len (by omega)
        (fun j hj hjl => hinv j (by omega) hjl)
      obtain ⟨p1, p2⟩ := DependentCode.FillEntryFromBack_surviving G backing i len e (by omega)
        (fun j hj hjl => hinv j (by omega) hjl) he hne
      obtain ⟨r1, r2, r3⟩ := ih (DependentCode.FillEntryFromBack backing i len).1
        (DependentCode.FillEntryFromBack backing i len).2 st1 f2 (by omega) (f4 hib)
      rw [p2] at r2 r3
      exact ⟨r1.trans p1, r2, r3⟩
    unfold DependentCode.MarkCodeForDeoptimization.scan at hclear ⊢
    rw [DependentCode.IterateAndCompact.loop]
    simp only [he]
    cases hcode : e.code with
    | none =>
      simp only []
      have hne : ¬ e.Survives G := fun h => by have h1 := h.1; simp [hcode] at h1
      obtain ⟨q1, q2, q3⟩ := hclear st hne
      refine ⟨q1, fun c => ?_, ?_⟩
      · rw [q2 c, hmem]
        simp [hcode]
      · rw [q3, hmem]
        simp [hcode]
    | some code =>
      simp only []
      obtain ⟨m0, m1⟩ := DependentCode.MarkCodeForDeoptimization.fn_exact G st code e.groups
      by_cases hg : e.groups &&& G = 0
      · rw [m0 hg]
        simp only [Bool.false_eq_true, if_false]
        have hsurv : e.Survives G := ⟨by simp [hcode], hg⟩
        obtain ⟨r1, r2, r3⟩ := ih backing len st (by omega) hlen
          (fun j hj hjl => by
            by_cases hji : j = i
            · subst hji; exact ⟨e, he, hsurv⟩
            · exact hinv j (by omega) hjl)
        unfold DependentCode.MarkCodeForDeoptimization.scan at r1 r2 r3
        refine ⟨r1, fun c => ?_, ?_⟩
        · rw [r2 c, hmem]
          simp [hg]
        · rw [r3, hmem]
          simp [hg]
      · obtain ⟨n1, n2, n3⟩ := m1 hg
        rw [if_pos n1]
        have hne : ¬ e.Survives G := fun h => hg h.2
        obtain ⟨q1, q2, q3⟩ := hclear
          (DependentCode.MarkCodeForDeoptimization.fn G st code e.groups).2 hne
        refine ⟨q1, fun c => ?_, ?_⟩
        · rw [q2 c, n2 c, hmem]
          simp only [hcode, Option.some.injEq, ne_eq, hg, not_false_eq_true, and_true]
          constructor
          · rintro ((h | h) | h)
            · exact Or.inl h
            · exact Or.inr (Or.inr h.symm)
            · exact Or.inr (Or.inl h)
          · rintro (h | h | h)
            · exact Or.inl (Or.inl h)
            · exact Or.inr h
            · exact Or.inl (Or.inr h.symm)
        · rw [q3, n3, hmem]
          constructor
          · rintro ((h | h) | ⟨x, hx, c, h1, h2, h3⟩)
            · exact Or.inl h
            · exact Or.inr (Or.inr ⟨code, hcode, hg, h⟩)
            · refine Or.inr (Or.inl ⟨x, hx, c, h1, h2, ?_⟩)
              by_contra hc
              have : (DependentCode.MarkCodeForDeoptimization.fn G st code e.groups).2.1 c =
                  true := (n2 c).mpr (Or.inl (by simpa using hc))
              rw [h3] at this
              exact Bool.false_ne_true this
          · rintro (h | ⟨x, hx, c, h1, h2, h3⟩ | ⟨c, h1, h2, h3⟩)
            · exact Or.inl (Or.inl h)
            · by_cases hc : (DependentCode.MarkCodeForDeoptimization.fn G st code e.groups).2.1 c =
                  true
              · rcases (n2 c).mp hc with h | h
                · rw [h3] at h; exact absurd h Bool.false_ne_true
                · subst h; exact Or.inl (Or.inr h3)
              · exact Or.inr ⟨x, hx, c, h1, h2, by simpa using hc⟩
            · rw [hcode] at h1
              cases h1
              exact Or.inl (Or.inr h3)

theorem DependentCode.entries_eq_of_getElem? (backing : List DependentCode.Entry) (len : Nat)
    (G : DependentCode.DependencyGroups)
    (h : ∀ j, j < len → ∃ e, backing[j]? = some e ∧ e.Survives G) :
    ∀ e ∈ backing.take len, e.Survives G := by
  intro e he
  obtain ⟨j, hj⟩ := List.mem_iff_getElem?.mp he
  rw [List.getElem?_take] at hj
  split_ifs at hj with hjl
  obtain ⟨e', he', hs'⟩ := h j hjl
  rw [he'] at hj
  cases hj
  exact hs'

theorem DependentCode.surviving_eq_self (G : DependentCode.DependencyGroups)
    (l : List DependentCode.Entry) (h : ∀ e ∈ l, e.Survives G) :
    DependentCode.surviving G l = l := by
  unfold DependentCode.surviving
  rw [List.filter_eq_self]
  intro e he
  simpa using h e he

/-- What `MarkCodeForDeoptimization(object, groups)` does to the heap, exactly. -/
theorem DependentCode.MarkCodeForDeoptimization_spec (heap : Heap) (O : HeapObject)
    (G : DependentCode.DependencyGroups)
    (hwf : (heap.dependent_code O).length ≤ (heap.dependent_code O).capacity) :
    ((DependentCode.MarkCodeForDeoptimization heap O G).2.dependent_code O).entries.Perm
      (DependentCode.surviving G (heap.dependent_code O).entries) ∧
    (∀ e ∈ ((DependentCode.MarkCodeForDeoptimization heap O G).2.dependent_code O).entries,
      e.Survives G) ∧
    ((DependentCode.MarkCodeForDeoptimization heap O G).2.dependent_code O).capacity =
      (heap.dependent_code O).capacity ∧
    ((DependentCode.MarkCodeForDeoptimization heap O G).2.dependent_code O).length ≤
      (heap.dependent_code O).length ∧
    (∀ O', O' ≠ O →
      (DependentCode.MarkCodeForDeoptimization heap O G).2.dependent_code O' =
        heap.dependent_code O') ∧
    (∀ c, (DependentCode.MarkCodeForDeoptimization heap O G).2.marked_for_deoptimization c = true ↔
      (heap.marked_for_deoptimization c = true ∨
        ∃ x ∈ (heap.dependent_code O).entries, x.code = some c ∧ x.groups &&& G ≠ 0)) ∧
    ((DependentCode.MarkCodeForDeoptimization heap O G).1 = true ↔
      ∃ x ∈ (heap.dependent_code O).entries, ∃ c, x.code = some c ∧ x.groups &&& G ≠ 0 ∧
        heap.marked_for_deoptimization c = false) ∧
    (DependentCode.MarkCodeForDeoptimization heap O G).2.deoptimizer_invocations =
      heap.deoptimizer_invocations := by
  unfold DependentCode.capacity at *
  obtain ⟨s1, s2, s3⟩ := DependentCode.MarkCodeForDeoptimization.scan_spec G
    (heap.dependent_code O).length (heap.dependent_code O).backing (heap.dependent_code O).length
    (heap.marked_for_deoptimization, false) (le_refl _) hwf
    (fun j hj hjl => absurd hjl (by omega))
  obtain ⟨x1, x2, x3⟩ := DependentCode.MarkCodeForDeoptimization.scan_exact G
    (heap.dependent_code O).length (heap.dependent_code O).backing (heap.dependent_code O).length
    (heap.marked_for_deoptimization, false) (le_refl _) hwf
    (fun j hj hjl => absurd hjl (by omega))
  have hsurv := DependentCode.entries_eq_of_getElem? _ _ G s3
  rw [DependentCode.surviving_eq_self G _ hsurv] at x1
  have hdc : (DependentCode.MarkCodeForDeoptimization heap O G).2.dependent_code O =
      ⟨(DependentCode.MarkCodeForDeoptimization.scan G (heap.dependent_code O).length
          (heap.dependent_code O).backing (heap.dependent_code O).length
          (heap.marked_for_deoptimization, false)).1,
        (DependentCode.MarkCodeForDeoptimization.scan G (heap.dependent_code O).length
          (heap.dependent_code O).backing (heap.dependent_code O).length
          (heap.marked_for_deoptimization, false)).2.1⟩ := by
    simp [DependentCode.MarkCodeForDeoptimization, DependentCode.SetDependentCode,
      DependentCode.GetDependentCode, DependentCode.IterateAndCompact,
      DependentCode.MarkCodeForDeoptimization.scan]
  rw [hdc]
  refine ⟨x1, hsurv, s2, s1, ?_, ?_, ?_, rfl⟩
  · intro O' hne
    simp [DependentCode.MarkCodeForDeoptimization, DependentCode.SetDependentCode, hne]
  · intro c
    exact x2 c
  · rw [show (DependentCode.MarkCodeForDeoptimization heap O G).1 =
      (DependentCode.MarkCodeForDeoptimization.scan G (heap.dependent_code O).length
          (heap.dependent_code O).backing (heap.dependent_code O).length
          (heap.marked_for_deoptimization, false)).2.2.2 from rfl, x3]
    simp [DependentCode.entries]

theorem DependentCode.DeoptimizeDependencyGroups_eq (heap : Heap) (O : HeapObject)
    (G : DependentCode.DependencyGroups) :
    (DependentCode.DeoptimizeDependencyGroups heap O G).marked_for_deoptimization =
      (DependentCode.MarkCodeForDeoptimization heap O G).2.marked_for_deoptimization ∧
    (DependentCode.DeoptimizeDependencyGroups heap O G).dependent_code =
      (DependentCode.MarkCodeForDeoptimization heap O G).2.dependent_code ∧
    (DependentCode.DeoptimizeDependencyGroups heap O G).deoptimizer_invocations =
      heap.deoptimizer_invocations +
        (if (DependentCode.MarkCodeForDeoptimization heap O G).1 = true then 1 else 0) := by
  by_cases h : (DependentCode.MarkCodeForDeoptimization heap O G).1 = true
  · simp [DependentCode.DeoptimizeDependencyGroups, h]
    rfl
  · simp [DependentCode.DeoptimizeDependencyGroups, h]
    rfl

/-- C11 as stated fails: `codeA` is installed on `mapM` for `kTransitionGroup` and for
`kPrototypeCheckGroup`; the entry `(codeA, kTransitionGroup)` is disjoint from
`kPrototypeCheckGroup`, yet `DeoptimizeDependencyGroups(mapM, kPrototypeCheckGroup)` marks `codeA`,
through its other entry. -/
theorem DependentCode.disjoint_groups_frame_as_stated_fails :
    ¬ ∀ (heap : Heap) (O : HeapObject) (c : Code) (G G' : DependentCode.DependencyGroups),
        (heap.dependent_code O).length ≤ (heap.dependent_code O).capacity →
        (⟨some c, G⟩ : DependentCode.Entry) ∈ (heap.dependent_code O).entries →
        G' &&& G = 0 →
        (⟨some c, G⟩ : DependentCode.Entry) ∈
          ((DependentCode.DeoptimizeDependencyGroups heap O G').dependent_code O).entries ∧
        (DependentCode.DeoptimizeDependencyGroups heap O G').marked_for_deoptimization c =
          heap.marked_for_deoptimization c := by
  intro h
  have hc := (h (DependentCode.InstallDependency
      (DependentCode.InstallDependency Heap.scenario Code.codeA HeapObject.mapM
        DependentCode.DependencyGroup.kTransitionGroup.value)
      Code.codeA HeapObject.mapM DependentCode.DependencyGroup.kPrototypeCheckGroup.value)
    HeapObject.mapM Code.codeA DependentCode.DependencyGroup.kTransitionGroup.value
    DependentCode.DependencyGroup.kPrototypeCheckGroup.value (by decide) (by decide)
    (by decide)).2
  revert hc
  decide

/-- C11, amended: if an entry `(c, G)` is in the (well-formed) list of `O` and `G'` is disjoint
from `G`, then `DeoptimizeDependencyGroups(O, G')` leaves that entry in the list of `O`, as often
as it was there, with its code reference and group mask unchanged; and it does not change
`c.marked_for_deoptimization()` provided no entry of the list for the same code `c` has a group
mask that intersects `G'` (the flag of `c` is set afterwards exactly when it was set before or
such an entry exists). -/
theorem DependentCode.disjoint_groups_frame (heap : Heap) (O : HeapObject) (c : Code)
    (G G' : DependentCode.DependencyGroups)
    (hwf : (heap.dependent_code O).length ≤ (heap.dependent_code O).capacity)
    (hmem : (⟨some c, G⟩ : DependentCode.Entry) ∈ (heap.dependent_code O).entries)
    (hdisj : G' &&& G = 0) :
    (⟨some c, G⟩ : DependentCode.Entry) ∈
      ((DependentCode.DeoptimizeDependencyGroups heap O G').dependent_code O).entries ∧
    List.count (⟨some c, G⟩ : DependentCode.Entry)
        ((DependentCode.DeoptimizeDependencyGroups heap O G').dependent_code O).entries =
      List.count (⟨some c, G⟩ : DependentCode.Entry) (heap.dependent_code O).entries ∧
    ((∀ x ∈ (heap.dependent_code O).entries, x.code = some c → x.groups &&& G' = 0) →
      (DependentCode.DeoptimizeDependencyGroups heap O G').marked_for_deoptimization c =
        heap.marked_for_deoptimization c) ∧
    ((DependentCode.DeoptimizeDependencyGroups heap O G').marked_for_deoptimization c = true ↔
      (heap.marked_for_deoptimization c = true ∨
        ∃ x ∈ (heap.dependent_code O).entries, x.code = some c ∧ x.groups &&& G' ≠ 0)) := by
  obtain ⟨d1, d2, -⟩ := DependentCode.DeoptimizeDependencyGroups_eq heap O G'
  obtain ⟨m1, -, -, -, -, m6, -, -⟩ := DependentCode.MarkCodeForDeoptimization_spec heap O G' hwf
  rw [d1, d2]
  have hs : (⟨some c, G⟩ : DependentCode.Entry).Survives G' :=
    ⟨rfl, by rw [Nat.and_comm]; exact hdisj⟩
  have hmark := m6 c
  refine ⟨?_, ?_, ?_, hmark⟩
  · rw [m1.mem_iff]
    exact List.mem_filter.mpr ⟨hmem, by simpa using hs⟩
  · rw [m1.count_eq]
    exact List.count_filter (by simpa using hs)
  · intro hnone
    have hno : ¬ ∃ x ∈ (heap.dependent_code O).entries, x.code = some c ∧ x.groups &&& G' ≠ 0 := by
      rintro ⟨x, hx, hxc, hxg⟩
      exact hxg (hnone x hx hxc)
    cases hb : heap.marked_for_deoptimization c with
    | true => exact hmark.mpr (Or.inl hb)
    | false =>
      cases ha : (DependentCode.MarkCodeForDeoptimization heap O G').2.marked_for_deoptimization c
        with
      | false => rfl
      | true =>
        rcases hmark.mp ha with h | h
        · rw [hb] at h; exact absurd h Bool.false_ne_true
        · exact absurd h hno

/-- C11 on the concrete scenario: `codeA` is installed on `mapM` for `kTransitionGroup`, then
`kPrototypeCheckGroup` is deoptimized: the entry is intact and `codeA` unmarked. -/
theorem DependentCode.disjoint_groups_frame_witness :
    (⟨some Code.codeA, DependentCode.DependencyGroup.kTransitionGroup.value⟩ :
        DependentCode.Entry) ∈
      ((DependentCode.DeoptimizeDependencyGroups
        (DependentCode.InstallDependency Heap.scenario Code.codeA HeapObject.mapM
          DependentCode.DependencyGroup.kTransitionGroup.value)
        HeapObject.mapM
        DependentCode.DependencyGroup.kPrototypeCheckGroup.value).dependent_code
          HeapObject.mapM).entries ∧
    (DependentCode.DeoptimizeDependencyGroups
        (DependentCode.InstallDependency Heap.scenario Code.codeA HeapObject.mapM
          DependentCode.DependencyGroup.kTransitionGroup.value)
        HeapObject.mapM
        DependentCode.DependencyGroup.kPrototypeCheckGroup.value).marked_for_deoptimization
          Code.codeA =
      (DependentCode.InstallDependency Heap.scenario Code.codeA HeapObject.mapM
          DependentCode.DependencyGroup.kTransitionGroup.value).marked_for_deoptimization
          Code.codeA :=
  ⟨(DependentCode.disjoint_groups_frame
      (DependentCode.InstallDependency Heap.scenario Code.codeA HeapObject.mapM
        DependentCode.DependencyGroup.kTransitionGroup.value)
      HeapObject.mapM Code.codeA DependentCode.DependencyGroup.kTransitionGroup.value
      DependentCode.DependencyGroup.kPrototypeCheckGroup.value (by decide) (by decide)
      (by decide)).1,
   (DependentCode.disjoint_groups_frame
      (DependentCode.InstallDependency Heap.scenario Code.codeA HeapObject.mapM
        DependentCode.DependencyGroup.kTransitionGroup.value)
      HeapObject.mapM Code.codeA DependentCode.DependencyGroup.kTransitionGroup.value
      DependentCode.DependencyGroup.kPrototypeCheckGroup.value (by decide) (by decide)
      (by decide)).2.2.1 (by decide)⟩

theorem DependentCode.MarkCodeForDeoptimization.scan_id (G : DependentCode.DependencyGroups) :
    ∀ (i : Nat) (backing : List DependentCode.Entry) (len : Nat) (st : (Code → Bool) × Bool),
      i ≤ backing.length → (∀ e ∈ backing.take i, e.Survives G) →
      DependentCode.MarkCodeForDeoptimization.scan G i backing len st = (backing, len, st) := by
  intro i
  induction i with
  | zero =>
    intro backing len st _ _
    simp [DependentCode.MarkCodeForDeoptimization.scan, DependentCode.IterateAndCompact.loop]
  | succ i ih =>
    intro backing len st hi hall
    obtain ⟨e, he⟩ : ∃ e, backing[i]? = some e :=
      ⟨backing[i], List.getElem?_eq_getElem (by omega)⟩
    rw [DependentCode.take_succ_of_getElem? backing i e he] at hall
    have hse : e.Survives G := hall e (List.mem_append_right _ (List.mem_singleton.mpr rfl))
    obtain ⟨code, hcode⟩ := Option.isSome_iff_exists.mp hse.1
    have hrec := ih backing len st (by omega) (fun x hx => hall x (List.mem_append_left _ hx))
    unfold DependentCode.MarkCodeForDeoptimization.scan at hrec ⊢
    rw [DependentCode.IterateAndCompact.loop]
    simp only [he, hcode]
    rw [(DependentCode.MarkCodeForDeoptimization.fn_exact G st code e.groups).1 hse.2]
    simpa using hrec

theorem DependentCode.SetDependentCode_self (heap : Heap) (O : HeapObject) :
    DependentCode.SetDependentCode heap O (heap.dependent_code O) = heap := by
  unfold DependentCode.SetDependentCode
  have : (fun other => if other = O then heap.dependent_code O else heap.dependent_code other) =
      heap.dependent_code := by
    funext other
    split_ifs with h
    · rw [h]
    · rfl
  rw [this]

/-- C12: `DeoptimizeDependencyGroups` is idempotent: a second call with the same object and
groups, immediately after the first, leaves the heap (the dependent-code list of every object,
the `marked_for_deoptimization` flag of every code object, and the number of deoptimizer
invocations) exactly as the first call left it, and marks nothing new. -/
theorem DependentCode.DeoptimizeDependencyGroups_idempotent (heap : Heap) (O : HeapObject)
    (G : DependentCode.DependencyGroups)
    (hwf : (heap.dependent_code O).length ≤ (heap.dependent_code O).capacity) :
    DependentCode.DeoptimizeDependencyGroups (DependentCode.DeoptimizeDependencyGroups heap O G)
        O G = DependentCode.DeoptimizeDependencyGroups heap O G ∧
    (DependentCode.MarkCodeForDeoptimization (DependentCode.DeoptimizeDependencyGroups heap O G)
        O G).1 = false ∧
    (∀ c, (DependentCode.DeoptimizeDependencyGroups
        (DependentCode.DeoptimizeDependencyGroups heap O G) O G).marked_for_deoptimization c =
      (DependentCode.DeoptimizeDependencyGroups heap O G).marked_for_deoptimization c) ∧
    (∀ O', (DependentCode.DeoptimizeDependencyGroups
        (DependentCode.DeoptimizeDependencyGroups heap O G) O G).dependent_code O' =
      (DependentCode.DeoptimizeDependencyGroups heap O G).dependent_code O') ∧
    (DependentCode.DeoptimizeDependencyGroups
        (DependentCode.DeoptimizeDependencyGroups heap O G) O G).deoptimizer_invocations =
      (DependentCode.DeoptimizeDependencyGroups heap O G).deoptimizer_invocations := by
  obtain ⟨-, d2, -⟩ := DependentCode.DeoptimizeDependencyGroups_eq heap O G
  obtain ⟨-, m2, m3, m4, -⟩ := DependentCode.MarkCodeForDeoptimization_spec heap O G hwf
  generalize hh1 : DependentCode.DeoptimizeDependencyGroups heap O G = h1 at *
  rw [← d2] at m2 m3 m4
  have hwf1 : (h1.dependent_code O).length ≤ (h1.dependent_code O).backing.length := by
    unfold DependentCode.capacity at m3 hwf
    omega
  have hscan := DependentCode.MarkCodeForDeoptimization.scan_id G (h1.dependent_code O).length
    (h1.dependent_code O).backing (h1.dependent_code O).length
    (h1.marked_for_deoptimization, false) hwf1 m2
  have hmark : DependentCode.MarkCodeForDeoptimization h1 O G = (false, h1) := by
    unfold DependentCode.MarkCodeForDeoptimization DependentCode.IterateAndCompact
      DependentCode.GetDependentCode
    unfold DependentCode.MarkCodeForDeoptimization.scan at hscan
    simp only [hscan]
    exact congrArg (Prod.mk false) (DependentCode.SetDependentCode_self h1 O)
  have hdeopt : DependentCode.DeoptimizeDependencyGroups h1 O G = h1 := by
    unfold DependentCode.DeoptimizeDependencyGroups
    simp [hmark]
  rw [hdeopt, hmark]
  exact ⟨rfl, rfl, fun _ => rfl, fun _ => rfl, rfl⟩

/-- C12 on the concrete scenario: `kTransitionGroup` is deoptimized twice on `mapM` after
`codeA` has been installed for it. -/
theorem DependentCode.DeoptimizeDependencyGroups_idempotent_witness :
    DependentCode.DeoptimizeDependencyGroups
      (DependentCode.DeoptimizeDependencyGroups
        (DependentCode.InstallDependency Heap.scenario Code.codeA HeapObject.mapM
          DependentCode.DependencyGroup.kTransitionGroup.value)
        HeapObject.mapM DependentCode.DependencyGroup.kTransitionGroup.value)
      HeapObject.mapM DependentCode.DependencyGroup.kTransitionGroup.value =
    DependentCode.DeoptimizeDependencyGroups
      (DependentCode.InstallDependency Heap.scenario Code.codeA HeapObject.mapM
        DependentCode.DependencyGroup.kTransitionGroup.value)
      HeapObject.mapM DependentCode.DependencyGroup.kTransitionGroup.value :=
  (DependentCode.DeoptimizeDependencyGroups_idempotent
    (DependentCode.InstallDependency Heap.scenario Code.codeA HeapObject.mapM
      DependentCode.DependencyGroup.kTransitionGroup.value)
    HeapObject.mapM DependentCode.DependencyGroup.kTransitionGroup.value (by decide)).1

theorem DependentCode.live_add_cleared (l : List DependentCode.Entry) :
    (DependentCode.live l).length + (DependentCode.cleared l).length = l.length := by
  induction l with
  | nil => rfl
  | cons a t ih =>
    unfold DependentCode.live DependentCode.cleared at ih ⊢
    cases h : a.code <;> simp [List.filter_cons, h] <;> omega

theorem DependentCode.FillEntryFromBack_live (backing : List DependentCode.Entry) (index : Nat)
    (e : DependentCode.Entry) (he : backing[index]? = some e) (hcleared : e.code = none) :
    ∀ len, index < len → len ≤ backing.length →
      (DependentCode.FillEntryFromBack backing index len).1.length = backing.length ∧
      index ≤ (DependentCode.FillEntryFromBack backing index len).2 ∧
      (DependentCode.FillEntryFromBack backing index len).2 < len ∧
      (DependentCode.live ((DependentCode.FillEntryFromBack backing index len).1.take
          (DependentCode.FillEntryFromBack backing index len).2)).Perm
        (DependentCode.live (backing.take len)) := by
  intro len
  induction len with
  | zero => intro h; omega
  | succ l ih =>
    intro hi hlen
    by_cases hil : index < l
    · obtain ⟨e', he'⟩ : ∃ e', backing[l]? = some e' :=
        ⟨backing[l], List.getElem?_eq_getElem (by omega)⟩
      by_cases hlive : e'.code.isSome = true
      · rw [DependentCode.FillEntryFromBack_last_live backing index l e' hil he' hlive]
        refine ⟨List.length_set _ _ _, le_of_lt hil, by simp, ?_⟩
        simp only [DependentCode.live]
        rw [List.set_take, DependentCode.take_succ_of_getElem? backing l e' he',
          List.filter_append]
        have hti : (backing.take l)[index]? = some e := by
          rw [List.getElem?_take, if_pos hil]; exact he
        refine (List.filter_set_perm _ e' hlive _ index e hti (by simp [hcleared])).trans ?_
        have : List.filter (fun entry : DependentCode.Entry => entry.code.isSome) [e'] = [e'] := by
          simp [List.filter_cons, hlive]
        rw [this]
        exact (List.perm_append_singleton e' _).symm
      · have hstep : DependentCode.FillEntryFromBack backing index (l + 1) =
            DependentCode.FillEntryFromBack backing index l := by
          rw [DependentCode.FillEntryFromBack]
          simp [hil, he', hlive]
        obtain ⟨r1, r2, r3, r4⟩ := ih hil (by omega)
        rw [hstep]
        refine ⟨r1, r2, by omega, ?_⟩
        refine r4.trans ?_
        simp only [DependentCode.live]
        rw [DependentCode.take_succ_of_getElem? backing l e' he', List.filter_append]
        have : List.filter (fun entry : DependentCode.Entry => entry.code.isSome) [e'] = [] := by
          simp [List.filter_cons, hlive]
        rw [this, List.append_nil]
    · have hli : l = index := by omega
      subst hli
      rw [DependentCode.FillEntryFromBack_self]
      refine ⟨rfl, le_refl _, by simp, ?_⟩
      simp only [DependentCode.live]
      rw [DependentCode.take_succ_of_getElem? backing l e he, List.filter_append]
      have : List.filter (fun entry : DependentCode.Entry => entry.code.isSome) [e] = [] := by
        simp [List.filter_cons, hcleared]
      rw [this, List.append_nil]

theorem DependentCode.FillEntryFromBack_exact (backing : List DependentCode.Entry)
    (index i : Nat) (e : DependentCode.Entry) (hi : index < i) (he : backing[i]? = some e)
    (hlive : e.code.isSome = true) :
    ∀ len, i < len →
      (∀ j x, i < j → j < len → backing[j]? = some x → x.code = none) →
      DependentCode.FillEntryFromBack backing index len = (backing.set index e, i) := by
  intro len
  induction len with
  | zero => intro h; omega
  | succ l ih =>
    intro hil hcl
    by_cases hli : l = i
    · subst hli
      exact DependentCode.FillEntryFromBack_last_live backing index l e hi he hlive
    · have hstep : DependentCode.FillEntryFromBack backing index (l + 1) =
          DependentCode.FillEntryFromBack backing index l := by
        rw [DependentCode.FillEntryFromBack]
        cases hx : backing[l]? with
        | none => simp [show index < l by omega]
        | some x =>
          have := hcl l x (by omega) (by omega) hx
          simp [show index < l by omega, this]
      rw [hstep]
      exact ih (by omega) (fun j x hj hjl => hcl j x hj (by omega))

theorem DependentCode.FillEntryFromBack_none (backing : List DependentCode.Entry) (index : Nat) :
    ∀ len, index < len →
      (∀ j x, index < j → j < len → backing[j]? = some x → x.code = none) →
      DependentCode.FillEntryFromBack backing index len = (backing, index) := by
  intro len
  induction len with
  | zero => intro h; omega
  | succ l ih =>
    intro hil hcl
    by_cases hli : l = index
    · subst hli
      exact DependentCode.FillEntryFromBack_self backing l
    · have hstep : DependentCode.FillEntryFromBack backing index (l + 1) =
          DependentCode.FillEntryFromBack backing index l := by
        rw [DependentCode.FillEntryFromBack]
        cases hx : backing[l]? with
        | none => simp [show index < l by omega]
        | some x =>
          have := hcl l x (by omega) (by omega) hx
          simp [show index < l by omega, this]
      rw [hstep]
      exact ih (by omega) (fun j x hj hjl => hcl j x hj (by omega))

/-- C13: compaction of a dependent-code list.  `FillEntryFromBack(index, length)`, called on a
cleared entry at `index`, leaves the backing capacity unchanged and returns a new logical length
that is at least `index` and smaller than `length`; the non-cleared entries of the list are the
same before and after, up to order, and the number of cleared entries drops by exactly the amount
by which the logical length shrinks, so each slot given up was a cleared one.  The entry moved
into `index` is the last non-cleared entry of the list and the new length is its old position;
when the last entry of the list is not cleared, the logical length shrinks by exactly one; when
no non-cleared entry lies behind `index`, the new length is `index`.  A whole scan of `MarkCodeForDeoptimization` likewise keeps the capacity, preserves
the multiset of surviving `(code, groups)` entries, and shrinks the logical length by one for each
entry it removes. -/
theorem DependentCode.compaction (backing : List DependentCode.Entry) (index length : Nat)
    (e : DependentCode.Entry) (hindex : index < length) (hcap : length ≤ backing.length)
    (he : backing[index]? = some e) (hcleared : e.code = none) :
    (DependentCode.FillEntryFromBack backing index length).1.length = backing.length ∧
    index ≤ (DependentCode.FillEntryFromBack backing index length).2 ∧
    (DependentCode.FillEntryFromBack backing index length).2 < length ∧
    (DependentCode.live ((DependentCode.FillEntryFromBack backing index length).1.take
        (DependentCode.FillEntryFromBack backing index length).2)).Perm
      (DependentCode.live (backing.take length)) ∧
    (DependentCode.cleared (backing.take length)).length =
      (DependentCode.cleared ((DependentCode.FillEntryFromBack backing index length).1.take
        (DependentCode.FillEntryFromBack backing index length).2)).length +
      (length - (DependentCode.FillEntryFromBack backing index length).2) ∧
    (∀ last : DependentCode.Entry, index + 1 < length → backing[length - 1]? = some last →
      last.code.isSome = true →
      DependentCode.FillEntryFromBack backing index length =
        (backing.set index last, length - 1)) ∧
    (∀ (i : Nat) (last : DependentCode.Entry), index < i → i < length →
      backing[i]? = some last → last.code.isSome = true →
      (∀ j x, i < j → j < length → backing[j]? = some x → x.code = none) →
      DependentCode.FillEntryFromBack backing index length = (backing.set index last, i)) ∧
    ((∀ j x, index < j → j < length → backing[j]? = some x → x.code = none) →
      DependentCode.FillEntryFromBack backing index length = (backing, index)) ∧
    (∀ (heap : Heap) (O : HeapObject) (G : DependentCode.DependencyGroups),
      (heap.dependent_code O).length ≤ (heap.dependent_code O).capacity →
      ((DependentCode.MarkCodeForDeoptimization heap O G).2.dependent_code O).capacity =
        (heap.dependent_code O).capacity ∧
      ((DependentCode.MarkCodeForDeoptimization heap O G).2.dependent_code O).entries.Perm
        (DependentCode.surviving G (heap.dependent_code O).entries) ∧
      ((DependentCode.MarkCodeForDeoptimization heap O G).2.dependent_code O).length +
        (DependentCode.removed G (heap.dependent_code O).entries).length =
        (heap.dependent_code O).length) := by
  obtain ⟨r1, r2, r3, r4⟩ :=
    DependentCode.FillEntryFromBack_live backing index e he hcleared length hindex hcap
  refine ⟨r1, r2, r3, r4, ?_, ?_,
    fun i last hi hil hlast hlive hcl =>
      DependentCode.FillEntryFromBack_exact backing index i last hi hlast hlive length hil hcl,
    fun hcl => DependentCode.FillEntryFromBack_none backing index length hindex hcl, ?_⟩
  · have h1 := DependentCode.live_add_cleared (backing.take length)
    have h2 := DependentCode.live_add_cleared
      ((DependentCode.FillEntryFromBack backing index length).1.take
        (DependentCode.FillEntryFromBack backing index length).2)
    have h3 := r4.length_eq
    rw [List.length_take] at h1 h2
    omega
  · intro last hlt hlast hlive
    obtain ⟨l, rfl⟩ : ∃ l, length = l + 1 := ⟨length - 1, by omega⟩
    exact DependentCode.FillEntryFromBack_last_live backing index l last (by omega)
      (by simpa using hlast) hlive
  · intro heap O G hwf
    obtain ⟨m1, -, m3, m4, -⟩ := DependentCode.MarkCodeForDeoptimization_spec heap O G hwf
    refine ⟨m3, m1, ?_⟩
    have h1 := m1.length_eq
    have h2 := List.length_eq_length_filter_add (l := (heap.dependent_code O).entries)
      (fun entry => decide (entry.Survives G))
    unfold DependentCode.capacity at m3 hwf
    simp only [DependentCode.entries, DependentCode.surviving, DependentCode.removed,
      List.length_take] at h1 h2 ⊢
    omega

/-- C13 on a list of three entries with the first one cleared: the last entry is moved to the
front and the logical length becomes two. -/
theorem DependentCode.compaction_witness :
    DependentCode.FillEntryFromBack
        [⟨none, 1⟩, ⟨some Code.codeA, 2⟩, ⟨some Code.codeA, 4⟩] 0 3 =
      ([⟨some Code.codeA, 4⟩, ⟨some Code.codeA, 2⟩, ⟨some Code.codeA, 4⟩], 2) :=
  (DependentCode.compaction [⟨none, 1⟩, ⟨some Code.codeA, 2⟩, ⟨some Code.codeA, 4⟩] 0 3
    ⟨none, 1⟩ (by decide) (by decide) rfl rfl).2.2.2.2.2.1 ⟨some Code.codeA, 4⟩ (by decide) rfl rfl

/-- C14 as stated fails: `DeoptimizeDependencyGroups` is declared `void`.  On the concrete
scenario the call newly marks `codeA`, and what it returns is not the boolean `true`. -/
theorem DependentCode.DeoptimizeDependencyGroups_result_as_stated_fails :
    ¬ ∀ (heap : Heap) (O : HeapObject) (G : DependentCode.DependencyGroups),
        (heap.dependent_code O).length ≤ (heap.dependent_code O).capacity →
        (DependentCode.DeoptimizeDependencyGroups.return_value heap O G = ReturnValue.bool true ↔
          ∃ c, heap.marked_for_deoptimization c = false ∧
            (DependentCode.DeoptimizeDependencyGroups heap O G).marked_for_deoptimization c =
              true) := by
  intro h
  have hc := (h (DependentCode.InstallDependency Heap.scenario Code.codeA HeapObject.mapM
      DependentCode.DependencyGroup.kTransitionGroup.value)
    HeapObject.mapM DependentCode.DependencyGroup.kTransitionGroup.value (by decide)).mpr
    ⟨Code.codeA, by decide, by decide⟩
  exact absurd hc (by decide)

/-- C14, amended: `MarkCodeForDeoptimization(object, groups)` returns whether anything was newly
marked: its result is true if and only if the call marked at least one code object for
deoptimization that was not already marked.  `DeoptimizeDependencyGroups(object, groups)` returns
nothing; it marks the same code and invokes the external deoptimizer exactly when that result is
true. -/
theorem DependentCode.MarkCodeForDeoptimization_result (heap : Heap) (O : HeapObject)
    (G : DependentCode.DependencyGroups)
    (hwf : (heap.dependent_code O).length ≤ (heap.dependent_code O).capacity) :
    (DependentCode.MarkCodeForDeoptimization.return_value heap O G = ReturnValue.bool true ↔
      ∃ c, heap.marked_for_deoptimization c = false ∧
        (DependentCode.MarkCodeForDeoptimization heap O G).2.marked_for_deoptimization c = true) ∧
    (DependentCode.MarkCodeForDeoptimization.return_value heap O G = ReturnValue.bool false ↔
      ∀ c, (DependentCode.MarkCodeForDeoptimization heap O G).2.marked_for_deoptimization c =
        heap.marked_for_deoptimization c) ∧
    DependentCode.DeoptimizeDependencyGroups.return_value heap O G = ReturnValue.void ∧
    (DependentCode.DeoptimizeDependencyGroups heap O G).marked_for_deoptimization =
      (DependentCode.MarkCodeForDeoptimization heap O G).2.marked_for_deoptimization ∧
    ((DependentCode.DeoptimizeDependencyGroups heap O G).deoptimizer_invocations =
        heap.deoptimizer_invocations + 1 ↔
      ∃ c, heap.marked_for_deoptimization c = false ∧
        (DependentCode.DeoptimizeDependencyGroups heap O G).marked_for_deoptimization c = true) ∧
    ((DependentCode.DeoptimizeDependencyGroups heap O G).deoptimizer_invocations =
        heap.deoptimizer_invocations ↔
      ¬ ∃ c, heap.marked_for_deoptimization c = false ∧
        (DependentCode.DeoptimizeDependencyGroups heap O G).marked_for_deoptimization c =
          true) := by
  obtain ⟨d1, -, d3⟩ := DependentCode.DeoptimizeDependencyGroups_eq heap O G
  obtain ⟨-, -, -, -, -, m6, m7, -⟩ := DependentCode.MarkCodeForDeoptimization_spec heap O G hwf
  have hnew : (DependentCode.MarkCodeForDeoptimization heap O G).1 = true ↔
      ∃ c, heap.marked_for_deoptimization c = false ∧
        (DependentCode.MarkCodeForDeoptimization heap O G).2.marked_for_deoptimization c =
          true := by
    rw [m7]
    constructor
    · rintro ⟨x, hx, c, h1, h2, h3⟩
      exact ⟨c, h3, (m6 c).mpr (Or.inr ⟨x, hx, h1, h2⟩)⟩
    · rintro ⟨c, h3, h4⟩
      rcases (m6 c).mp h4 with h | ⟨x, hx, h1, h2⟩
      · rw [h3] at h; exact absurd h Bool.false_ne_true
      · exact ⟨x, hx, c, h1, h2, h3⟩
  have hmono : ∀ c, heap.marked_for_deoptimization c = true →
      (DependentCode.MarkCodeForDeoptimization heap O G).2.marked_for_deoptimization c = true :=
    fun c hc => (m6 c).mpr (Or.inl hc)
  have hfalse : (DependentCode.MarkCodeForDeoptimization heap O G).1 = false ↔
      ∀ c, (DependentCode.MarkCodeForDeoptimization heap O G).2.marked_for_deoptimization c =
        heap.marked_for_deoptimization c := by
    constructor
    · intro hf c
      cases hb : heap.marked_for_deoptimization c with
      | true => exact hmono c hb
      | false =>
        cases ha : (DependentCode.MarkCodeForDeoptimization heap O G).2.marked_for_deoptimization
          c with
        | false => rfl
        | true =>
          have := hnew.mpr ⟨c, hb, ha⟩
          rw [hf] at this
          exact absurd this Bool.false_ne_true
    · intro hall
      by_contra hne
      obtain ⟨c, h3, h4⟩ := hnew.mp (by simpa using hne)
      rw [hall c, h3] at h4
      exact Bool.false_ne_true h4
  rw [d1, d3]
  refine ⟨?_, ?_, rfl, rfl, ?_, ?_⟩
  · rw [← hnew]
    simp [DependentCode.MarkCodeForDeoptimization.return_value]
  · rw [← hfalse]
    simp [DependentCode.MarkCodeForDeoptimization.return_value]
  · rw [← hnew]
    by_cases hr : (DependentCode.MarkCodeForDeoptimization heap O G).1 = true <;> simp [hr]
  · rw [← hnew]
    by_cases hr : (DependentCode.MarkCodeForDeoptimization heap O G).1 = true <;> simp [hr]

/-- C14, amended, on the concrete scenario: deoptimizing `kTransitionGroup` newly marks
`codeA`. -/
theorem DependentCode.MarkCodeForDeoptimization_result_witness :
    DependentCode.MarkCodeForDeoptimization.return_value
        (DependentCode.InstallDependency Heap.scenario Code.codeA HeapObject.mapM
          DependentCode.DependencyGroup.kTransitionGroup.value)
        HeapObject.mapM DependentCode.DependencyGroup.kTransitionGroup.value =
      ReturnValue.bool true :=
  (DependentCode.MarkCodeForDeoptimization_result
    (DependentCode.InstallDependency Heap.scenario Code.codeA HeapObject.mapM
      DependentCode.DependencyGroup.kTransitionGroup.value)
    HeapObject.mapM DependentCode.DependencyGroup.kTransitionGroup.value (by decide)).1.mpr
    ⟨Code.codeA, by decide, by decide⟩

/-! ## Instruction bounds and pc queries -/

theorem AddressAdd_le (cfg : BuildConfig) (a n : Nat) : AddressAdd cfg a (n : Int) ≤ a + n := by
  have h := AddressAdd_cast cfg a (n : Int)
  have hpos : (0 : Int) < (cfg.kAddressModulus : Int) := by exact_mod_cast kAddressModulus_pos cfg
  have hle : ((a : Int) + (n : Int)) % (cfg.kAddressModulus : Int) ≤ (a : Int) + (n : Int) := by
    have h1 := Int.emod_add_ediv ((a : Int) + (n : Int)) (cfg.kAddressModulus : Int)
    have h2 : (0 : Int) ≤ ((a : Int) + (n : Int)) / (cfg.kAddressModulus : Int) :=
      Int.ediv_nonneg (by positivity) hpos.le
    have h3 := mul_nonneg hpos.le h2
    linarith
  have : ((AddressAdd cfg a (n : Int) : Nat) : Int) ≤ ((a + n : Nat) : Int) := by
    rw [h]; push_cast; exact hle
  exact_mod_cast this

theorem InstructionStream.contains_iff_bounds (cfg : BuildConfig) (isolate : Isolate)
    (self : InstalledCodeFields) (pc : Nat) :
    InstructionStream.contains cfg isolate self pc = true ↔
      (InstructionStream.InstructionStart cfg isolate self pc ≤ pc ∧
        pc < InstructionStream.InstructionEnd cfg isolate self pc) := by
  unfold InstructionStream.contains InstructionStream.InstructionStart
    InstructionStream.InstructionEnd
  cases hflag : self.is_off_heap_trampoline
  · simp
  · simp only [if_true]
    unfold InstructionStream.OffHeapBuiltinContains InstructionStream.OffHeapInstructionStart
      InstructionStream.OffHeapInstructionEnd InstructionStream.OffHeapInstructionArea
    cases hde : isolate.de_embedded with
    | none => simp [InstructionArea.contains]
    | some copy =>
      by_cases hin : (copy self.builtin_id).contains cfg pc = true
      · simp only [hin, Bool.or_true, if_true, true_iff]
        simpa [InstructionArea.contains] using hin
      · simp only [hin, Bool.or_false, if_false]
        simp [InstructionArea.contains]

theorem InstructionStream.InstructionEnd_le (cfg : BuildConfig) (isolate : Isolate)
    (self : InstalledCodeFields) (pc : Nat) :
    InstructionStream.InstructionEnd cfg isolate self pc ≤
      InstructionStream.InstructionStart cfg isolate self pc +
        InstructionStream.InstructionSize cfg isolate self pc := by
  unfold InstructionStream.InstructionEnd InstructionStream.InstructionStart
    InstructionStream.InstructionSize
  cases hflag : self.is_off_heap_trampoline
  · simp only [Bool.false_eq_true, if_false]
    exact AddressAdd_le cfg _ _
  · simp only [if_true]
    exact AddressAdd_le cfg _ _

/-- C15: for every installed code object `c` (`Code` or `InstructionStream`) and every address
`pc`, `c.contains(pc)` is true if and only if `instruction_start(c) <= pc < instruction_end(c)`,
where start and end are the ones resolved for `pc` through the off-heap redirection when `c` is an
off-heap trampoline, and the bounds of the on-heap instruction section otherwise. -/
theorem InstructionStream.contains_iff (cfg : BuildConfig) (isolate : Isolate)
    (c : InstalledCodeFields) (pc : Nat) :
    (InstructionStream.contains cfg isolate c pc = true ↔
      (InstructionStream.InstructionStart cfg isolate c pc ≤ pc ∧
        pc < InstructionStream.InstructionEnd cfg isolate c pc)) ∧
    (Code.contains cfg isolate c pc = true ↔
      (Code.InstructionStart cfg isolate c pc ≤ pc ∧ pc < Code.InstructionEnd cfg isolate c pc)) ∧
    (c.is_off_heap_trampoline = false →
      InstructionStream.InstructionStart cfg isolate c pc = c.raw_instruction_start ∧
      InstructionStream.InstructionEnd cfg isolate c pc =
        InstructionStream.raw_instruction_end cfg c) ∧
    (c.is_off_heap_trampoline = true →
      InstructionStream.InstructionStart cfg isolate c pc =
        InstructionStream.OffHeapInstructionStart cfg isolate c pc ∧
      InstructionStream.InstructionEnd cfg isolate c pc =
        InstructionStream.OffHeapInstructionEnd cfg isolate c pc) := by
  refine ⟨InstructionStream.contains_iff_bounds cfg isolate c pc,
    InstructionStream.contains_iff_bounds cfg isolate c pc, ?_, ?_⟩ <;> intro h <;>
    simp [InstructionStream.InstructionStart, InstructionStream.InstructionEnd, h]

/-- C16: for every code object `c` and address `pc` contained in `c`,
`GetOffsetFromInstructionStart(pc)` equals `pc` minus the pc-resolved instruction start of `c` and
lies in `[0, instruction size)`; for a `pc` that does not belong to `c` the call fails its
assertion instead of returning an offset. -/
theorem InstructionStream.GetOffsetFromInstructionStart_spec (cfg : BuildConfig)
    (isolate : Isolate) (c : InstalledCodeFields) (pc : Nat) :
    (InstructionStream.contains cfg isolate c pc = true →
      InstructionStream.GetOffsetFromInstructionStart cfg isolate c pc =
        Except.ok ((pc : Int) - (InstructionStream.InstructionStart cfg isolate c pc : Int)) ∧
      (0 : Int) ≤ (pc : Int) - (InstructionStream.InstructionStart cfg isolate c pc : Int) ∧
      (pc : Int) - (InstructionStream.InstructionStart cfg isolate c pc : Int) <
        (InstructionStream.InstructionSize cfg isolate c pc : Int)) ∧
    (InstructionStream.contains cfg isolate c pc = false →
      InstructionStream.GetOffsetFromInstructionStart cfg isolate c pc =
        Except.error Failure.DCHECK) ∧
    (Code.contains cfg isolate c pc = true →
      Code.GetOffsetFromInstructionStart cfg isolate c pc =
        Except.ok ((pc : Int) - (Code.InstructionStart cfg isolate c pc : Int)) ∧
      (0 : Int) ≤ (pc : Int) - (Code.InstructionStart cfg isolate c pc : Int) ∧
      (pc : Int) - (Code.InstructionStart cfg isolate c pc : Int) <
        (InstructionStream.InstructionSize cfg isolate c pc : Int)) ∧
    (Code.contains cfg isolate c pc = false →
      Code.GetOffsetFromInstructionStart cfg isolate c pc = Except.error Failure.DCHECK) := by
  have hin : InstructionStream.contains cfg isolate c pc = true →
      InstructionStream.GetOffsetFromInstructionStart cfg isolate c pc =
        Except.ok ((pc : Int) - (InstructionStream.InstructionStart cfg isolate c pc : Int)) ∧
      (0 : Int) ≤ (pc : Int) - (InstructionStream.InstructionStart cfg isolate c pc : Int) ∧
      (pc : Int) - (InstructionStream.InstructionStart cfg isolate c pc : Int) <
        (InstructionStream.InstructionSize cfg isolate c pc : Int) := by
    intro h
    obtain ⟨h1, h2⟩ := (InstructionStream.contains_iff_bounds cfg isolate c pc).mp h
    have h3 := InstructionStream.InstructionEnd_le cfg isolate c pc
    refine ⟨by simp [InstructionStream.GetOffsetFromInstructionStart, DCHECK, h], ?_, ?_⟩ <;>
      omega
  have hout : InstructionStream.contains cfg isolate c pc = false →
      InstructionStream.GetOffsetFromInstructionStart cfg isolate c pc =
        Except.error Failure.DCHECK := by
    intro h
    simp [InstructionStream.GetOffsetFromInstructionStart, DCHECK, h]
  exact ⟨hin, hout, hin, hout⟩

/-- C16 on a normal code object with 64 bytes of instructions at 4160, and on an off-heap
trampoline with a `pc` in the de-embedded copy of its builtin. -/
theorem InstructionStream.GetOffsetFromInstructionStart_spec_witness :
    InstructionStream.GetOffsetFromInstructionStart BuildConfig.x64 Isolate.scenario
        InstalledCodeFields.normal 4170 =
      Except.ok ((4170 : Int) - (InstructionStream.InstructionStart BuildConfig.x64
        Isolate.scenario InstalledCodeFields.normal 4170 : Int)) ∧
    InstructionStream.GetOffsetFromInstructionStart BuildConfig.x64 Isolate.scenario
        InstalledCodeFields.trampoline 4170 = Except.error Failure.DCHECK ∧
    InstructionStream.InstructionStart BuildConfig.x64 Isolate.scenario
        InstalledCodeFields.trampoline 1048580 = 1048576 :=
  ⟨((InstructionStream.GetOffsetFromInstructionStart_spec BuildConfig.x64 Isolate.scenario
      InstalledCodeFields.normal 4170).1 (by decide)).1,
   (InstructionStream.GetOffsetFromInstructionStart_spec BuildConfig.x64 Isolate.scenario
      InstalledCodeFields.trampoline 4170).2.1 (by decide),
   by decide⟩

/-! ## `BytecodeArray::SizeFor` -/

theorem OBJECT_POINTER_ALIGN_eq (cfg : BuildConfig)
    (htag : cfg.kTaggedSize = 4 ∨ cfg.kTaggedSize = 8) (value : Int) (h0 : 0 ≤ value)
    (hmax : value ≤ kMaxInt - 8) :
    ∃ size, OBJECT_POINTER_ALIGN cfg value = some size ∧ value ≤ size ∧
      size < value + kObjectAlignment cfg ∧ kObjectAlignment cfg ∣ size ∧
      (value ≤ 536870912 → size ≤ 536870912) ∧ (536870912 < value → 536870912 < size) := by
  unfold kMaxInt at hmax
  have hA : kObjectAlignment cfg = 4 ∨ kObjectAlignment cfg = 8 := by
    unfold kObjectAlignment
    rcases htag with h | h <;> rw [h] <;> simp
  refine ⟨(value + kObjectAlignmentMask cfg) / kObjectAlignment cfg * kObjectAlignment cfg, ?_,
    ?_⟩
  · unfold OBJECT_POINTER_ALIGN checkedInt kObjectAlignmentMask kMinInt kMaxInt
    rcases hA with h | h <;> rw [h] <;> rw [if_pos (by omega)] <;> rfl
  · unfold kObjectAlignmentMask
    rcases hA with h | h <;> rw [h] <;> refine ⟨?_, ?_, ?_, ?_, ?_⟩ <;>
      first
        | exact Dvd.intro_left _ rfl
        | omega

/-- C17: for every length with `0 ≤ length ≤ kMaxLength` (`= kMaxSize - kHeaderSize`),
`SizeFor(length) = OBJECT_POINTER_ALIGN(kHeaderSize + length)` is defined, is a multiple of the
object alignment that is at least `kHeaderSize + length`, and does not exceed `kMaxSize`
(512 MB); for every longer length the size exceeds `kMaxSize`, so `kMaxLength` is the maximal
length whose object fits the maximal memory consumption. -/
theorem BytecodeArray.SizeFor_le_kMaxSize (cfg : BuildConfig) (kHeaderSize length : Int)
    (htag : cfg.kTaggedSize = 4 ∨ cfg.kTaggedSize = 8) (hheader : 0 ≤ kHeaderSize)
    (h0 : 0 ≤ length) (hmax : length ≤ BytecodeArray.kMaxLength kHeaderSize) :
    BytecodeArray.kMaxSize = 536870912 ∧
    (∃ size, BytecodeArray.SizeFor cfg kHeaderSize length = some size ∧
      kHeaderSize + length ≤ size ∧ kObjectAlignment cfg ∣ size ∧
      size ≤ BytecodeArray.kMaxSize) ∧
    (∀ longer size : Int, BytecodeArray.kMaxLength kHeaderSize < longer →
      BytecodeArray.SizeFor cfg kHeaderSize longer = some size →
      BytecodeArray.kMaxSize < size) := by
  have hk : BytecodeArray.kMaxSize = 536870912 := by decide
  unfold BytecodeArray.kMaxLength at hmax ⊢
  rw [hk] at hmax ⊢
  refine ⟨rfl, ?_, ?_⟩
  · obtain ⟨size, h1, h2, -, h4, h5, -⟩ := OBJECT_POINTER_ALIGN_eq cfg htag (kHeaderSize + length)
      (by omega) (by unfold kMaxInt; omega)
    refine ⟨size, ?_, h2, h4, h5 (by omega)⟩
    unfold BytecodeArray.SizeFor checkedInt kMinInt kMaxInt
    rw [if_pos (by omega)]
    exact h1
  · intro longer size hlong hsize
    unfold BytecodeArray.SizeFor at hsize
    cases hc : checkedInt (kHeaderSize + longer) with
    | none => rw [hc] at hsize; cases hsize
    | some sum =>
      rw [hc] at hsize
      have hsum : sum = kHeaderSize + longer ∧ kHeaderSize + longer ≤ kMaxInt := by
        unfold checkedInt at hc
        split_ifs at hc with hr
        cases hc
        exact ⟨rfl, hr.2⟩
      obtain ⟨hs1, hs2⟩ := hsum
      simp only [Option.some_bind] at hsize
      unfold OBJECT_POINTER_ALIGN at hsize
      cases hc2 : checkedInt (sum + kObjectAlignmentMask cfg) with
      | none => rw [hc2] at hsize; cases hsize
      | some sum2 =>
        have hsum2 : sum2 = sum + kObjectAlignmentMask cfg ∧
            sum + kObjectAlignmentMask cfg ≤ kMaxInt := by
          unfold checkedInt at hc2
          split_ifs at hc2 with hr
          cases hc2
          exact ⟨rfl, hr.2⟩
        rw [hc2] at hsize
        simp only [Option.map_some', Option.some.injEq] at hsize
        have hA : kObjectAlignment cfg = 4 ∨ kObjectAlignment cfg = 8 := by
          unfold kObjectAlignment
          rcases htag with h | h <;> rw [h] <;> simp
        unfold kObjectAlignmentMask kMaxInt at hsum2
        obtain ⟨hq1, hq2⟩ := hsum2
        subst hq1 hs1
        rcases hA with h | h <;> rw [h] at hsize hq2 <;> omega

/-- C17 on x64 with pointer compression, for a header of 40 bytes and the maximal length. -/
theorem BytecodeArray.SizeFor_le_kMaxSize_witness :
    BytecodeArray.SizeFor BuildConfig.x64 40 (BytecodeArray.kMaxLength 40) = some 536870912 ∧
    ∃ size, BytecodeArray.SizeFor BuildConfig.x64 40 (BytecodeArray.kMaxLength 40) = some size ∧
      40 + BytecodeArray.kMaxLength 40 ≤ size ∧ kObjectAlignment BuildConfig.x64 ∣ size ∧
      size ≤ BytecodeArray.kMaxSize :=
  ⟨by decide,
    (BytecodeArray.SizeFor_le_kMaxSize BuildConfig.x64 40 (BytecodeArray.kMaxLength 40)
      (Or.inl rfl) (by decide) (by decide) (by decide)).2.1⟩

/-! ## Flags of `InstructionStream` -/

theorem BitField.decode_eq (field : BitField) (word : Nat) :
    field.decode word = (word / 2 ^ field.kShift) % 2 ^ field.kSize := by
  unfold BitField.decode BitField.kMask
  rw [← Nat.shiftRight_eq_div_pow]
  apply Nat.eq_of_testBit_eq
  intro i
  simp only [Nat.testBit_shiftRight, Nat.testBit_and, Nat.testBit_shiftLeft,
    Nat.testBit_two_pow_sub_one, Nat.testBit_mod_two_pow]
  by_cases h : i < field.kSize <;> simp [h]

theorem Nat.or_shiftLeft_eq_add (a b n : Nat) (h : a < 2 ^ n) :
    a ||| (b <<< n) = a + b * 2 ^ n := by
  rw [Nat.shiftLeft_eq, Nat.or_comm, Nat.mul_comm, ← Nat.mul_add_lt_is_or h, Nat.add_comm]

theorem InstructionStream.initialize_flags_eq (k s : Nat) (t o : Bool) (hk : k < 16)
    (hs : s < 2 ^ 24) :
    InstructionStream.initialize_flags k t s o =
      k + 16 * t.toNat + 32 * s + 536870912 * o.toNat := by
  have ht : t.toNat < 2 := by cases t <;> simp
  have ho : o.toNat < 2 := by cases o <;> simp
  have e1 : (k <<< 0) % 2 ^ 32 = k := by rw [Nat.shiftLeft_eq]; omega
  have e2 : (t.toNat <<< 4) % 2 ^ 32 = t.toNat <<< 4 := by rw [Nat.shiftLeft_eq]; omega
  have e3 : (s <<< 5) % 2 ^ 32 = s <<< 5 := by rw [Nat.shiftLeft_eq]; omega
  have e4 : (o.toNat <<< 29) % 2 ^ 32 = o.toNat <<< 29 := by rw [Nat.shiftLeft_eq]; omega
  simp only [InstructionStream.initialize_flags, BitField.encode, InstructionStream.KindField,
    InstructionStream.IsTurbofannedField, InstructionStream.StackSlotsField,
    InstructionStream.IsOffHeapTrampoline, BitField.Next, Nat.zero_add, Nat.reduceAdd]
  rw [e1, e2, e3, e4, Nat.or_shiftLeft_eq_add _ _ 4 (by omega),
    Nat.or_shiftLeft_eq_add _ _ 5 (by omega), Nat.or_shiftLeft_eq_add _ _ 29 (by omega)]
  omega

/-- C19: the flags word of an `InstructionStream` round-trips: for every code kind `k` that fits
the 4 bits of the kind field, booleans `t` and `o`, and stack-slot count `s < 2 ^ 24`, the word
produced by `initialize_flags(k, t, s, o)` is a 32-bit word with `kind() = k`,
`is_turbofanned() = t`, `stack_slots() = s` and `is_off_heap_trampoline() = o`; the four bit
fields are pairwise disjoint and together occupy the 30 low bits. -/
theorem InstructionStream.initialize_flags_roundtrip (k s : Nat) (t o : Bool)
    (hk : k < InstructionStream.KindField.kNumValues) (hs : s < 2 ^ 24) :
    (InstructionStream.kind (InstructionStream.initialize_flags k t s o) = k ∧
      InstructionStream.is_turbofanned (InstructionStream.initialize_flags k t s o) = t ∧
      InstructionStream.stack_slots (InstructionStream.initialize_flags k t s o) = s ∧
      InstructionStream.is_off_heap_trampoline (InstructionStream.initialize_flags k t s o) = o ∧
      InstructionStream.initialize_flags k t s o < 2 ^ 32) ∧
    (InstructionStream.KindField.kMask &&& InstructionStream.IsTurbofannedField.kMask = 0 ∧
      InstructionStream.KindField.kMask &&& InstructionStream.StackSlotsField.kMask = 0 ∧
      InstructionStream.KindField.kMask &&& InstructionStream.IsOffHeapTrampoline.kMask = 0 ∧
      InstructionStream.IsTurbofannedField.kMask &&& InstructionStream.StackSlotsField.kMask = 0 ∧
      InstructionStream.IsTurbofannedField.kMask &&&
        InstructionStream.IsOffHeapTrampoline.kMask = 0 ∧
      InstructionStream.StackSlotsField.kMask &&&
        InstructionStream.IsOffHeapTrampoline.kMask = 0) ∧
    (InstructionStream.KindField.kMask ||| InstructionStream.IsTurbofannedField.kMask |||
        InstructionStream.StackSlotsField.kMask ||| InstructionStream.IsOffHeapTrampoline.kMask =
          2 ^ 30 - 1 ∧
      InstructionStream.CODE_FLAGS_BIT_FIELDS_Ranges.kBitsCount = 30) := by
  have hk16 : k < 16 := hk
  have ht : t.toNat < 2 := by cases t <;> simp
  have ho : o.toNat < 2 := by cases o <;> simp
  have hw := InstructionStream.initialize_flags_eq k s t o hk16 hs
  refine ⟨⟨?_, ?_, ?_, ?_, ?_⟩, by decide, by decide⟩
  · rw [InstructionStream.kind, BitField.decode_eq, hw]
    simp only [InstructionStream.KindField]
    omega
  · rw [InstructionStream.is_turbofanned, BitField.decode_eq, hw]
    simp only [InstructionStream.IsTurbofannedField, InstructionStream.KindField, BitField.Next]
    have : (k + 16 * t.toNat + 32 * s + 536870912 * o.toNat) / 2 ^ (0 + 4) % 2 ^ 1 = t.toNat := by
      omega
    rw [this]
    cases t <;> rfl
  · rw [InstructionStream.stack_slots, BitField.decode_eq, hw]
    simp only [InstructionStream.StackSlotsField, InstructionStream.IsTurbofannedField,
      InstructionStream.KindField, BitField.Next]
    omega
  · rw [InstructionStream.is_off_heap_trampoline, BitField.decode_eq, hw]
    simp only [InstructionStream.IsOffHeapTrampoline, InstructionStream.StackSlotsField,
      InstructionStream.IsTurbofannedField, InstructionStream.KindField, BitField.Next]
    have : (k + 16 * t.toNat + 32 * s + 536870912 * o.toNat) / 2 ^ (0 + 4 + 1 + 24) % 2 ^ 1 =
        o.toNat := by
      omega
    rw [this]
    cases o <;> rfl
  · rw [hw]
    omega

/-- C19 for code kind 11, turbofanned, 5 stack slots, no trampoline. -/
theorem InstructionStream.initialize_flags_roundtrip_witness :
    InstructionStream.kind (InstructionStream.initialize_flags 11 true 5 false) = 11 ∧
    InstructionStream.is_turbofanned (InstructionStream.initialize_flags 11 true 5 false) = true ∧
    InstructionStream.stack_slots (InstructionStream.initialize_flags 11 true 5 false) = 5 ∧
    InstructionStream.is_off_heap_trampoline
      (InstructionStream.initialize_flags 11 true 5 false) = false ∧
    InstructionStream.initialize_flags 11 true 5 false < 2 ^ 32 :=
  (InstructionStream.initialize_flags_roundtrip 11 5 true false (by decide) (by decide)).1

/-! ## The properties of `CodeReference` -/

theorem CodeReference.Property.mem_all (p : CodeReference.Property) :
    p ∈ CodeReference.Property.all := by
  cases p <;> decide

theorem CodeReference.Property.all_nodup : CodeReference.Property.all.Nodup := by decide

/-- C20 as stated fails: no list of 8 properties covers the methods that `CodeReference`
defines with `DISPATCH`; there are 9 of them. -/
theorem CodeReference.eight_properties_as_stated_fails :
    ¬ ∃ l : List CodeReference.Property, l.length = 8 ∧ ∀ p : CodeReference.Property, p ∈ l := by
  rintro ⟨l, hlen, hall⟩
  have hsub : CodeReference.Property.all ⊆ l := fun p _ => hall p
  have hle := (CodeReference.Property.all_nodup.subperm hsub).length_le
  have h9 : CodeReference.Property.all.length = 9 := rfl
  omega

/-- C20, amended: `CodeReference` exposes exactly 9 uniform read-only properties across its four
origins: constant pool address, instruction start, end and size, relocation start, end and size,
and code-comments address and size.  Each of them returns a value on a reference to any of the
four origins (with WebAssembly support compiled in) and fails its assertion on the null
reference. -/
theorem CodeReference.nine_properties (cfg : BuildConfig) (env : InstalledCode) :
    CodeReference.Property.all.length = 9 ∧
    CodeReference.Property.all.Nodup ∧
    (∀ p : CodeReference.Property, p ∈ CodeReference.Property.all) ∧
    CodeReference.Property.all =
      [.constant_pool, .instruction_start, .instruction_end, .instruction_size,
       .relocation_start, .relocation_end, .relocation_size, .code_comments,
       .code_comments_size] ∧
    (cfg.V8_ENABLE_WEBASSEMBLY = true → ∀ (p : CodeReference.Property) (r : CodeReference),
      r.is_null = false → ∃ v, CodeReference.Property.query cfg env p r = Except.ok v) ∧
    (∀ p : CodeReference.Property,
      CodeReference.Property.query cfg env p CodeReference.NONE =
        Except.error Failure.DCHECK) := by
  refine ⟨rfl, CodeReference.Property.all_nodup, CodeReference.Property.mem_all, rfl, ?_, ?_⟩
  · intro hwasm p r hr
    cases p <;> cases r <;>
      first
        | exact absurd hr (by decide)
        | simp [CodeReference.Property.query, CodeReference.constant_pool,
            CodeReference.instruction_start, CodeReference.instruction_end,
            CodeReference.instruction_size, CodeReference.relocation_start,
            CodeReference.relocation_end, CodeReference.relocation_size,
            CodeReference.code_comments, CodeReference.code_comments_size,
            CodeReference.DISPATCH, DCHECK, CodeReference.is_null, hwasm, Except.map]
  · intro p
    cases p <;> rfl

/-! ## Dispatch by kind -/

/-- C21: every query of a non-null `CodeReference` returns exactly the value computed by the
adapter of the active kind: an `INSTRUCTION_STREAM` reference returns what the accessors of the
InstructionStream return, a `CODE` reference what the accessors of the Code return, a `WASM_CODE`
reference (WebAssembly compiled in) what `WasmCodeOps` computes from the spans of the wasm code,
a `CODE_DESC` reference what `CodeDescOps` computes from the buffer and the offsets of the
descriptor; when WebAssembly is compiled out, every query of a `WASM_CODE` reference is
`UNREACHABLE()`. -/
theorem CodeReference.dispatch_by_kind (cfg : BuildConfig) (env : InstalledCode) :
    (∀ s : InstructionStream,
      CodeReference.constant_pool cfg env (.INSTRUCTION_STREAM s) =
          Except.ok (env.InstructionStreamOps.constant_pool s) ∧
        CodeReference.instruction_start cfg env (.INSTRUCTION_STREAM s) =
          Except.ok (env.InstructionStreamOps.InstructionStart s) ∧
        CodeReference.instruction_end cfg env (.INSTRUCTION_STREAM s) =
          Except.ok (env.InstructionStreamOps.InstructionEnd s) ∧
        CodeReference.instruction_size cfg env (.INSTRUCTION_STREAM s) =
          Except.ok (env.InstructionStreamOps.InstructionSize s) ∧
        CodeReference.relocation_start cfg env (.INSTRUCTION_STREAM s) =
          Except.ok (env.InstructionStreamOps.relocation_start s) ∧
        CodeReference.relocation_end cfg env (.INSTRUCTION_STREAM s) =
          Except.ok (env.InstructionStreamOps.relocation_end s) ∧
        CodeReference.relocation_size cfg env (.INSTRUCTION_STREAM s) =
          Except.ok (env.InstructionStreamOps.relocation_size s) ∧
        CodeReference.code_comments cfg env (.INSTRUCTION_STREAM s) =
          Except.ok (env.InstructionStreamOps.code_comments s) ∧
        CodeReference.code_comments_size cfg env (.INSTRUCTION_STREAM s) =
          Except.ok (env.InstructionStreamOps.code_comments_size s)) ∧
    (∀ c : Code,
      CodeReference.constant_pool cfg env (.CODE c) = Except.ok (env.CodeOps.constant_pool c) ∧
        CodeReference.instruction_start cfg env (.CODE c) =
          Except.ok (env.CodeOps.InstructionStart c) ∧
        CodeReference.instruction_end cfg env (.CODE c) =
          Except.ok (env.CodeOps.InstructionEnd c) ∧
        CodeReference.instruction_size cfg env (.CODE c) =
          Except.ok (env.CodeOps.InstructionSize c) ∧
        CodeReference.relocation_start cfg env (.CODE c) =
          Except.ok (env.CodeOps.relocation_start c) ∧
        CodeReference.relocation_end cfg env (.CODE c) =
          Except.ok (env.CodeOps.relocation_end c) ∧
        CodeReference.relocation_size cfg env (.CODE c) =
          Except.ok (env.CodeOps.relocation_size c) ∧
        CodeReference.code_comments cfg env (.CODE c) =
          Except.ok (env.CodeOps.code_comments c) ∧
        CodeReference.code_comments_size cfg env (.CODE c) =
          Except.ok (env.CodeOps.code_comments_size c)) ∧
    (∀ w : WasmCode, cfg.V8_ENABLE_WEBASSEMBLY = true →
      CodeReference.constant_pool cfg env (.WASM_CODE w) = Except.ok w.constant_pool ∧
        CodeReference.instruction_start cfg env (.WASM_CODE w) =
          Except.ok w.instructions.begin ∧
        CodeReference.instruction_end cfg env (.WASM_CODE w) =
          Except.ok (AddressAdd cfg w.instructions.begin w.instructions.size) ∧
        CodeReference.instruction_size cfg env (.WASM_CODE w) =
          Except.ok w.instructions.length ∧
        CodeReference.relocation_start cfg env (.WASM_CODE w) = Except.ok w.reloc_info.begin ∧
        CodeReference.relocation_end cfg env (.WASM_CODE w) =
          Except.ok (AddressAdd cfg w.reloc_info.begin w.reloc_info.length) ∧
        CodeReference.relocation_size cfg env (.WASM_CODE w) = Except.ok w.reloc_info.length ∧
        CodeReference.code_comments cfg env (.WASM_CODE w) = Except.ok w.code_comments ∧
        CodeReference.code_comments_size cfg env (.WASM_CODE w) =
          Except.ok w.code_comments_size) ∧
    (∀ d : CodeDesc,
      CodeReference.constant_pool cfg env (.CODE_DESC d) =
          Except.ok (AddressAdd cfg d.buffer d.constant_pool_offset) ∧
        CodeReference.instruction_start cfg env (.CODE_DESC d) = Except.ok d.buffer ∧
        CodeReference.instruction_end cfg env (.CODE_DESC d) =
          Except.ok (AddressAdd cfg d.buffer d.instr_size) ∧
        CodeReference.instruction_size cfg env (.CODE_DESC d) = Except.ok d.instr_size ∧
        CodeReference.relocation_start cfg env (.CODE_DESC d) =
          Except.ok (AddressAdd cfg d.buffer d.reloc_offset) ∧
        CodeReference.relocation_end cfg env (.CODE_DESC d) =
          Except.ok (AddressAdd cfg d.buffer d.buffer_size) ∧
        CodeReference.relocation_size cfg env (.CODE_DESC d) = Except.ok d.reloc_size ∧
        CodeReference.code_comments cfg env (.CODE_DESC d) =
          Except.ok (AddressAdd cfg d.buffer d.code_comments_offset) ∧
        CodeReference.code_comments_size cfg env (.CODE_DESC d) =
          Except.ok d.code_comments_size) ∧
    (∀ (w : WasmCode) (p : CodeReference.Property), cfg.V8_ENABLE_WEBASSEMBLY = false →
      p.query cfg env (.WASM_CODE w) = Except.error Failure.UNREACHABLE) := by
  refine ⟨fun s => ?_, fun c => ?_, fun w hw => ?_, fun d => ?_, fun w p hw => ?_⟩
  · refine ⟨rfl, rfl, rfl, rfl, rfl, rfl, rfl, rfl, rfl⟩
  · refine ⟨rfl, rfl, rfl, rfl, rfl, rfl, rfl, rfl, rfl⟩
  · simp [CodeReference.constant_pool, CodeReference.instruction_start,
      CodeReference.instruction_end, CodeReference.instruction_size,
      CodeReference.relocation_start, CodeReference.relocation_end,
      CodeReference.relocation_size, CodeReference.code_comments,
      CodeReference.code_comments_size, CodeReference.DISPATCH, DCHECK, CodeReference.is_null,
      hw, WasmCodeOps.constant_pool, WasmCodeOps.instruction_start, WasmCodeOps.instruction_end,
      WasmCodeOps.instruction_size, WasmCodeOps.relocation_start, WasmCodeOps.relocation_end,
      WasmCodeOps.relocation_size, WasmCodeOps.code_comments, WasmCodeOps.code_comments_size]
  · refine ⟨rfl, rfl, rfl, rfl, rfl, rfl, rfl, rfl, rfl⟩
  · cases p <;>
      simp [CodeReference.Property.query, CodeReference.constant_pool,
        CodeReference.instruction_start, CodeReference.instruction_end,
        CodeReference.instruction_size, CodeReference.relocation_start,
        CodeReference.relocation_end, CodeReference.relocation_size,
        CodeReference.code_comments, CodeReference.code_comments_size, CodeReference.DISPATCH,
        DCHECK, CodeReference.is_null, hw, Except.map]

/-! ## The entries of `DeoptimizationData` -/

/-- C23: the entries of a DeoptimizationData are fixed-stride and do not overlap.  The eleven
header slots are `0..10`, pairwise distinct and below `kFirstDeoptEntryIndex = 11`; the stride
`kDeoptEntrySize` is 3 in release and 4 in debug builds, and the offsets of the fields of an
entry (`0, 1, 2`, and `3` in debug builds) are pairwise distinct and below the stride.
`IndexForEntry(i)` is defined for every `i ≥ 0` for which `11 + i * kDeoptEntrySize` is an `int`;
wherever it is defined for `i ≥ 0` the entry starts at or above `kFirstDeoptEntryIndex`, after
every header slot; `IndexForEntry(i + 1) = IndexForEntry(i) + kDeoptEntrySize`; and for
`i ≠ j` no slot lies in both `[IndexForEntry(i), IndexForEntry(i) + kDeoptEntrySize)` and
`[IndexForEntry(j), IndexForEntry(j) + kDeoptEntrySize)`. -/
theorem DeoptimizationData.entries_fixed_stride (cfg : BuildConfig) :
    (DeoptimizationData.header_indices = [0, 1, 2, 3, 4, 5, 6, 7, 8, 9, 10] ∧
      DeoptimizationData.header_indices.Nodup ∧
      DeoptimizationData.kFirstDeoptEntryIndex = 11) ∧
    (DeoptimizationData.kDeoptEntrySize cfg = (if cfg.DEBUG then 4 else 3) ∧
      DeoptimizationData.entry_offsets cfg = (if cfg.DEBUG then [0, 1, 2, 3] else [0, 1, 2]) ∧
      (DeoptimizationData.entry_offsets cfg).Nodup ∧
      ∀ offset ∈ DeoptimizationData.entry_offsets cfg,
        0 ≤ offset ∧ offset < DeoptimizationData.kDeoptEntrySize cfg) ∧
    (∀ i : Int, 0 ≤ i →
      DeoptimizationData.kFirstDeoptEntryIndex + i * DeoptimizationData.kDeoptEntrySize cfg ≤
        kMaxInt →
      ∃ index, DeoptimizationData.IndexForEntry cfg i = some index) ∧
    (∀ i index : Int, 0 ≤ i → DeoptimizationData.IndexForEntry cfg i = some index →
      DeoptimizationData.kFirstDeoptEntryIndex ≤ index ∧
      ∀ header ∈ DeoptimizationData.header_indices, header < index) ∧
    (∀ i index next : Int, DeoptimizationData.IndexForEntry cfg i = some index →
      DeoptimizationData.IndexForEntry cfg (i + 1) = some next →
      next = index + DeoptimizationData.kDeoptEntrySize cfg) ∧
    (∀ i j a b : Int, 0 ≤ i → 0 ≤ j → i ≠ j →
      DeoptimizationData.IndexForEntry cfg i = some a →
      DeoptimizationData.IndexForEntry cfg j = some b →
      (a + DeoptimizationData.kDeoptEntrySize cfg ≤ b ∨
        b + DeoptimizationData.kDeoptEntrySize cfg ≤ a) ∧
      ∀ slot : Int, ¬ ((a ≤ slot ∧ slot < a + DeoptimizationData.kDeoptEntrySize cfg) ∧
        (b ≤ slot ∧ slot < b + DeoptimizationData.kDeoptEntrySize cfg))) := by
  have hfirst : DeoptimizationData.kFirstDeoptEntryIndex = 11 := rfl
  have hmin : kMinInt = -2147483648 := rfl
  have hmax : kMaxInt = 2147483647 := rfl
  refine ⟨⟨rfl, by decide, rfl⟩, ⟨rfl, ?_, ?_, ?_⟩, ?_, ?_, ?_, ?_⟩
  · unfold DeoptimizationData.entry_offsets
    cases cfg.DEBUG <;> rfl
  · unfold DeoptimizationData.entry_offsets
    cases cfg.DEBUG <;> decide
  · unfold DeoptimizationData.entry_offsets DeoptimizationData.kDeoptEntrySize
    cases cfg.DEBUG <;> decide
  · intro i hi hfit
    refine ⟨_, (DeoptimizationData.IndexForEntry_eq_some cfg i _).2 ⟨?_, ?_, rfl⟩⟩ <;>
      rcases DeoptimizationData.kDeoptEntrySize_cases cfg with hs | hs <;>
      rw [hs] at hfit ⊢ <;> omega
  · intro i index hi h
    rw [DeoptimizationData.IndexForEntry_eq_some] at h
    have hge : DeoptimizationData.kFirstDeoptEntryIndex ≤ index := by
      rcases DeoptimizationData.kDeoptEntrySize_cases cfg with hs | hs <;> rw [hs] at h <;> omega
    refine ⟨hge, fun header hmem => ?_⟩
    have hlt : header < 11 := by
      revert header
      decide
    omega
  · intro i index next h1 h2
    rw [DeoptimizationData.IndexForEntry_eq_some] at h1 h2
    rcases DeoptimizationData.kDeoptEntrySize_cases cfg with hs | hs <;> rw [hs] at h1 h2 ⊢ <;>
      omega
  · intro i j a b hi hj hne h1 h2
    rw [DeoptimizationData.IndexForEntry_eq_some] at h1 h2
    rcases DeoptimizationData.kDeoptEntrySize_cases cfg with hs | hs <;> rw [hs] at h1 h2 ⊢ <;>
      refine ⟨by omega, fun slot => by omega⟩

/-! ## The relocation range of a code descriptor -/

/-- C24: for every code descriptor the relocation range reported by the `CODE_DESC` adapter is
`buffer_size - reloc_offset` bytes long: `relocation_start + (buffer_size - reloc_offset)` is
`relocation_end` in address arithmetic, and when the range lies in the address space
(`0 ≤ reloc_offset ≤ buffer_size`, and the buffer ends below the top of the address space) the
difference `relocation_end - relocation_start` is exactly `buffer_size - reloc_offset`.  It is
`relocation_size` if and only if `reloc_offset + reloc_size = buffer_size`; for any other
descriptor it differs from `relocation_size`. -/
theorem CodeDescOps.relocation_range (cfg : BuildConfig) (d : CodeDesc) :
    AddressAdd cfg (CodeDescOps.relocation_start cfg d) (d.buffer_size - d.reloc_offset) =
      CodeDescOps.relocation_end cfg d ∧
    (0 ≤ d.reloc_offset → d.reloc_offset ≤ d.buffer_size →
      (d.buffer : Int) + d.buffer_size < cfg.kAddressModulus →
      ((CodeDescOps.relocation_end cfg d : Int) - CodeDescOps.relocation_start cfg d =
        d.buffer_size - d.reloc_offset) ∧
      ((CodeDescOps.relocation_end cfg d : Int) - CodeDescOps.relocation_start cfg d =
          CodeDescOps.relocation_size d ↔
        d.reloc_offset + d.reloc_size = d.buffer_size) ∧
      (d.reloc_offset + d.reloc_size ≠ d.buffer_size →
        (CodeDescOps.relocation_end cfg d : Int) - CodeDescOps.relocation_start cfg d ≠
          CodeDescOps.relocation_size d)) := by
  constructor
  · unfold CodeDescOps.relocation_start CodeDescOps.relocation_end
    rw [AddressAdd_AddressAdd]
    congr 1
    ring
  · intro h0 h1 h2
    have hend : (CodeDescOps.relocation_end cfg d : Int) = (d.buffer : Int) + d.buffer_size := by
      unfold CodeDescOps.relocation_end
      rw [AddressAdd_cast]
      exact Int.emod_eq_of_lt (by omega) h2
    have hstart : (CodeDescOps.relocation_start cfg d : Int) =
        (d.buffer : Int) + d.reloc_offset := by
      unfold CodeDescOps.relocation_start
      rw [AddressAdd_cast]
      exact Int.emod_eq_of_lt (by omega) (by omega)
    rw [hend, hstart]
    unfold CodeDescOps.relocation_size
    refine ⟨by omega, ⟨fun h => by omega, fun h => by omega⟩, fun h h' => h (by omega)⟩

/-- C24 for the descriptor of the concrete scenario at address 4096 (relocation info of 8 bytes at
offset 64 of a buffer of 80 bytes): the reported range is 16 bytes long, not 8. -/
theorem CodeDescOps.relocation_range_witness :
    ((CodeDescOps.relocation_end BuildConfig.x64 (CodeDesc.scenario 4096) : Int) -
        CodeDescOps.relocation_start BuildConfig.x64 (CodeDesc.scenario 4096) = 80 - 64) ∧
    ((CodeDescOps.relocation_end BuildConfig.x64 (CodeDesc.scenario 4096) : Int) -
        CodeDescOps.relocation_start BuildConfig.x64 (CodeDesc.scenario 4096) ≠ 8) :=
  have h := (CodeDescOps.relocation_range BuildConfig.x64 (CodeDesc.scenario 4096)).2
    (by decide) (by decide) (by decide)
  ⟨h.1, h.2.2 (by decide)⟩

/-! ## Instruction bounds of the adapters -/

/-- C26: `operator==` of `CodeLookupResult` compares both payloads: `a == b` holds if and only if
`a` and `b` hold the same InstructionStream payload and the same Code payload, that is if and
only if they are the same result; `==` is reflexive, symmetric and transitive; `a != b` is the
negation of `a == b`; and equal results agree on `IsFound()`, `IsInstructionStream()` and
`IsCode()`. -/
theorem CodeLookupResult.operator_eq_spec :
    (∀ a b : CodeLookupResult, a.operator_eq b = true ↔
      a.instruction_stream_ = b.instruction_stream_ ∧ a.code_ = b.code_) ∧
    (∀ a b : CodeLookupResult, a.operator_eq b = true ↔ a = b) ∧
    (∀ a : CodeLookupResult, a.operator_eq a = true) ∧
    (∀ a b : CodeLookupResult, a.operator_eq b = b.operator_eq a) ∧
    (∀ a b c : CodeLookupResult, a.operator_eq b = true → b.operator_eq c = true →
      a.operator_eq c = true) ∧
    (∀ a b : CodeLookupResult, a.operator_ne b = !a.operator_eq b) ∧
    (∀ a b : CodeLookupResult, a.operator_ne b = true ↔ a.operator_eq b = false) ∧
    (∀ a b : CodeLookupResult, a.operator_eq b = true →
      a.IsFound = b.IsFound ∧ a.IsInstructionStream = b.IsInstructionStream ∧
        a.IsCode = b.IsCode) := by
  have hiff : ∀ a b : CodeLookupResult, a.operator_eq b = true ↔
      a.instruction_stream_ = b.instruction_stream_ ∧ a.code_ = b.code_ := by
    intro a b
    simp [CodeLookupResult.operator_eq]
  have heq : ∀ a b : CodeLookupResult, a.operator_eq b = true ↔ a = b := by
    intro a b
    rw [hiff]
    cases a
    cases b
    simp
  refine ⟨hiff, heq, fun a => (heq a a).2 rfl, fun a b => ?_, fun a b c hab hbc => ?_,
    fun a b => rfl, fun a b => ?_, fun a b hab => ?_⟩
  · rw [Bool.eq_iff_iff, heq, heq]
    exact eq_comm
  · exact (heq a c).2 (((heq a b).1 hab).trans ((heq b c).1 hbc))
  · simp [CodeLookupResult.operator_ne]
  · rw [(heq a b).1 hab]
    exact ⟨rfl, rfl, rfl⟩

/-! ## Results built from a null payload -/

/-- C27: a `CodeLookupResult` constructed from a null InstructionStream or from a null Code is
indistinguishable from the default result `CodeLookupResult()`: `IsFound()`,
`IsInstructionStream()` and `IsCode()` are all false, it compares equal to the default result
with `operator==` (and not unequal with `operator!=`), and it is the default result. -/
theorem CodeLookupResult.null_payload_is_default :
    (∀ s : InstructionStream, s.is_null = true →
      (CodeLookupResult.ctor_InstructionStream s).IsFound = false ∧
      (CodeLookupResult.ctor_InstructionStream s).IsInstructionStream = false ∧
      (CodeLookupResult.ctor_InstructionStream s).IsCode = false ∧
      (CodeLookupResult.ctor_InstructionStream s).operator_eq CodeLookupResult.ctor = true ∧
      (CodeLookupResult.ctor_InstructionStream s).operator_ne CodeLookupResult.ctor = false ∧
      CodeLookupResult.ctor_InstructionStream s = CodeLookupResult.ctor) ∧
    (∀ c : Code, c.is_null = true →
      (CodeLookupResult.ctor_Code c).IsFound = false ∧
      (CodeLookupResult.ctor_Code c).IsInstructionStream = false ∧
      (CodeLookupResult.ctor_Code c).IsCode = false ∧
      (CodeLookupResult.ctor_Code c).operator_eq CodeLookupResult.ctor = true ∧
      (CodeLookupResult.ctor_Code c).operator_ne CodeLookupResult.ctor = false ∧
      CodeLookupResult.ctor_Code c = CodeLookupResult.ctor) ∧
    (CodeLookupResult.ctor.IsFound = false ∧ CodeLookupResult.ctor.IsInstructionStream = false ∧
      CodeLookupResult.ctor.IsCode = false) := by
  refine ⟨fun s hs => ?_, fun c hc => ?_, by decide⟩
  · have hs0 : s = ⟨kNullAddress⟩ := by
      cases s
      simpa [InstructionStream.is_null] using hs
    subst hs0
    decide
  · have hc0 : c = ⟨kNullAddress⟩ := by
      cases c
      simpa [Code.is_null] using hc
    subst hc0
    decide

/-- C27 for the results built from the default-constructed (null) InstructionStream and Code. -/
theorem CodeLookupResult.null_payload_is_default_witness :
    (CodeLookupResult.ctor_InstructionStream default).operator_eq CodeLookupResult.ctor = true ∧
    (CodeLookupResult.ctor_Code default).IsFound = false :=
  ⟨(CodeLookupResult.null_payload_is_default.1 default (by decide)).2.2.2.1,
    (CodeLookupResult.null_payload_is_default.2.1 default (by decide)).1⟩

/-! ## Bounds and monotonicity of `InstructionStream::SizeFor` -/

theorem InstructionStream.SizeFor_eq_some (cfg : BuildConfig) (n s : Int) :
    InstructionStream.SizeFor cfg n = some s ↔
      (kMinInt ≤ InstructionStream.kHeaderSize cfg + n ∧
        InstructionStream.kHeaderSize cfg + n ≤ kMaxInt) ∧
      (kMinInt ≤ (InstructionStream.kHeaderSize cfg + n + (kCodeAlignment cfg - 1)) /
          kCodeAlignment cfg * kCodeAlignment cfg ∧
        (InstructionStream.kHeaderSize cfg + n + (kCodeAlignment cfg - 1)) /
          kCodeAlignment cfg * kCodeAlignment cfg ≤ kMaxInt) ∧
      s = (InstructionStream.kHeaderSize cfg + n + (kCodeAlignment cfg - 1)) /
          kCodeAlignment cfg * kCodeAlignment cfg := by
  unfold InstructionStream.SizeFor RoundUp checkedInt
  by_cases h1 : kMinInt ≤ InstructionStream.kHeaderSize cfg + n ∧
      InstructionStream.kHeaderSize cfg + n ≤ kMaxInt
  · by_cases h2 : kMinInt ≤ (InstructionStream.kHeaderSize cfg + n + (kCodeAlignment cfg - 1)) /
          kCodeAlignment cfg * kCodeAlignment cfg ∧
        (InstructionStream.kHeaderSize cfg + n + (kCodeAlignment cfg - 1)) /
          kCodeAlignment cfg * kCodeAlignment cfg ≤ kMaxInt
    · simp [h1, h2, eq_comm]
    · simp [h1, h2]
  · simp [h1]

/-- C28: for every body size `n ≥ 0`, `SizeFor(n)` is defined whenever `kHeaderSize + n +
(kCodeAlignment - 1)` does not exceed `kMaxInt`, and whenever it is defined for a larger body
size; where it is defined it is a multiple of `kCodeAlignment` with
`kHeaderSize + n ≤ SizeFor(n) < kHeaderSize + n + kCodeAlignment`; and it is monotone: for
`n ≤ m`, `SizeFor(n) ≤ SizeFor(m)`. -/
theorem InstructionStream.SizeFor_bounds (cfg : BuildConfig) (n : Int) (hn : 0 ≤ n) :
    (InstructionStream.kHeaderSize cfg + n + (kCodeAlignment cfg - 1) ≤ kMaxInt →
      ∃ s, InstructionStream.SizeFor cfg n = some s) ∧
    (∀ m sm : Int, n ≤ m → InstructionStream.SizeFor cfg m = some sm →
      ∃ s, InstructionStream.SizeFor cfg n = some s) ∧
    (∀ s : Int, InstructionStream.SizeFor cfg n = some s →
      kCodeAlignment cfg ∣ s ∧ InstructionStream.kHeaderSize cfg + n ≤ s ∧
        s < InstructionStream.kHeaderSize cfg + n + kCodeAlignment cfg) ∧
    (∀ m sn sm : Int, n ≤ m → InstructionStream.SizeFor cfg n = some sn →
      InstructionStream.SizeFor cfg m = some sm → sn ≤ sm) := by
  have hA := kCodeAlignment_pos cfg
  have hH := InstructionStream.kHeaderSize_nonneg cfg
  have hmin : kMinInt = -2147483648 := rfl
  have hb := roundUp_bounds (kCodeAlignment cfg) (InstructionStream.kHeaderSize cfg + n) hA
  have hmono : ∀ m : Int, n ≤ m →
      (InstructionStream.kHeaderSize cfg + n + (kCodeAlignment cfg - 1)) /
          kCodeAlignment cfg * kCodeAlignment cfg ≤
        (InstructionStream.kHeaderSize cfg + m + (kCodeAlignment cfg - 1)) /
          kCodeAlignment cfg * kCodeAlignment cfg := by
    intro m hnm
    exact mul_le_mul_of_nonneg_right (Int.ediv_le_ediv hA (by omega)) hA.le
  refine ⟨fun hfit => ?_, fun m sm hnm hm => ?_, fun s hs => ?_, fun m sn sm hnm h1 h2 => ?_⟩
  · exact ⟨_, (InstructionStream.SizeFor_eq_some cfg n _).2
      ⟨⟨by omega, by omega⟩, ⟨by omega, by omega⟩, rfl⟩⟩
  · rw [InstructionStream.SizeFor_eq_some] at hm
    have h := hmono m hnm
    exact ⟨_, (InstructionStream.SizeFor_eq_some cfg n _).2
      ⟨⟨by omega, by omega⟩, ⟨by omega, by omega⟩, rfl⟩⟩
  · rw [InstructionStream.SizeFor_eq_some] at hs
    rw [hs.2.2]
    exact ⟨hb.2.2, hb.1, hb.2.1⟩
  · rw [InstructionStream.SizeFor_eq_some] at h1 h2
    rw [h1.2.2, h2.2.2]
    exact hmono m hnm

/-- C28 on x64 for the body sizes 100 and 200: `SizeFor(100) = 192`, a multiple of 64 between
`64 + 100` and `64 + 100 + 64`, and `SizeFor(100) ≤ SizeFor(200) = 320`. -/
theorem InstructionStream.SizeFor_bounds_witness :
    InstructionStream.SizeFor BuildConfig.x64 100 = some 192 ∧
    InstructionStream.SizeFor BuildConfig.x64 200 = some 320 ∧
    (kCodeAlignment BuildConfig.x64 ∣ 192 ∧
      InstructionStream.kHeaderSize BuildConfig.x64 + 100 ≤ 192 ∧
      192 < InstructionStream.kHeaderSize BuildConfig.x64 + 100 + kCodeAlignment BuildConfig.x64) ∧
    (192 : Int) ≤ 320 :=
  ⟨by decide, by decide,
    (InstructionStream.SizeFor_bounds BuildConfig.x64 100 (by decide)).2.2.1 192 (by decide),
    (InstructionStream.SizeFor_bounds BuildConfig.x64 100 (by decide)).2.2.2 200 192 320
      (by decide) (by decide) (by decide)⟩

/-! ## Updating a bit field -/

theorem BitField.testBit_update (field : BitField) (w v i : Nat)
    (hfit : field.kShift + field.kSize ≤ 32) (hv : v < 2 ^ field.kSize) :
    (field.update w v).testBit i =
      if field.kShift ≤ i ∧ i < field.kShift + field.kSize then v.testBit (i - field.kShift)
      else (decide (i < 32) && w.testBit i) := by
  unfold BitField.update BitField.encode BitField.kMask
  simp only [Nat.testBit_or, Nat.testBit_and, Nat.testBit_xor, Nat.testBit_shiftLeft,
    Nat.testBit_two_pow_sub_one, Nat.testBit_mod_two_pow]
  by_cases h1 : field.kShift ≤ i
  · by_cases h2 : i < field.kShift + field.kSize
    · have h3 : i - field.kShift < field.kSize := by omega
      have h4 : i < 32 := by omega
      simp [h1, h2, h3, h4]
    · have h3 : ¬ (i - field.kShift < field.kSize) := by omega
      have h5 : v.testBit (i - field.kShift) = false :=
        Nat.testBit_lt_two_pow (lt_of_lt_of_le hv (Nat.pow_le_pow_right (by decide) (by omega)))
      simp [h1, h2, h3, h5]
      by_cases h4 : i < 32 <;> simp [h4]
  · have h2 : ¬ (field.kShift ≤ i ∧ i < field.kShift + field.kSize) := fun h => h1 h.1
    simp [h1]
    by_cases h4 : i < 32 <;> simp [h4]

theorem BitField.testBit_decode (field : BitField) (w i : Nat) :
    (field.decode w).testBit i = (decide (i < field.kSize) && w.testBit (field.kShift + i)) := by
  unfold BitField.decode BitField.kMask
  simp only [Nat.testBit_shiftRight, Nat.testBit_and, Nat.testBit_shiftLeft,
    Nat.testBit_two_pow_sub_one]
  by_cases h : i < field.kSize <;> simp [h, Bool.and_comm]

theorem BitField.decode_update_self (field : BitField) (w v : Nat)
    (hfit : field.kShift + field.kSize ≤ 32) (hv : v < 2 ^ field.kSize) :
    field.decode (field.update w v) = v := by
  apply Nat.eq_of_testBit_eq
  intro i
  rw [BitField.testBit_decode, BitField.testBit_update field w v _ hfit hv]
  by_cases h : i < field.kSize
  · have : field.kShift ≤ field.kShift + i ∧ field.kShift + i < field.kShift + field.kSize := by
      omega
    simp [h, this]
  · have h5 : v.testBit i = false :=
      Nat.testBit_lt_two_pow (lt_of_lt_of_le hv (Nat.pow_le_pow_right (by decide) (by omega)))
    simp [h, h5]

theorem BitField.decode_update_other (field other : BitField) (w v : Nat)
    (hfit : field.kShift + field.kSize ≤ 32) (hv : v < 2 ^ field.kSize)
    (hother : other.kShift + other.kSize ≤ 32)
    (hdisj : other.kShift + other.kSize ≤ field.kShift ∨
      field.kShift + field.kSize ≤ other.kShift) :
    other.decode (field.update w v) = other.decode w := by
  apply Nat.eq_of_testBit_eq
  intro i
  rw [BitField.testBit_decode, BitField.testBit_decode,
    BitField.testBit_update field w v _ hfit hv]
  by_cases h : i < other.kSize
  · have h1 : ¬ (field.kShift ≤ other.kShift + i ∧
        other.kShift + i < field.kShift + field.kSize) := by omega
    have h2 : other.kShift + i < 32 := by omega
    simp [h, h1, h2]
  · simp [h]

theorem BitField.update_lt (field : BitField) (w v : Nat)
    (hfit : field.kShift + field.kSize ≤ 32) : field.update w v < 2 ^ 32 := by
  have hm : field.kMask < 2 ^ 32 := by
    unfold BitField.kMask
    rw [Nat.shiftLeft_eq]
    have h1 : 0 < 2 ^ field.kSize := by positivity
    calc (2 ^ field.kSize - 1) * 2 ^ field.kShift
        < 2 ^ field.kSize * 2 ^ field.kShift :=
          Nat.mul_lt_mul_of_pos_right (by omega) (by positivity)
      _ = 2 ^ (field.kSize + field.kShift) := (Nat.pow_add _ _ _).symm
      _ ≤ 2 ^ 32 := Nat.pow_le_pow_right (by decide) (by omega)
  unfold BitField.update BitField.encode
  apply Nat.or_lt_two_pow
  · exact lt_of_le_of_lt Nat.and_le_right (Nat.xor_lt_two_pow (by decide) hm)
  · exact Nat.mod_lt _ (by positivity)

theorem InstructionStream.mem_CODE_KIND_SPECIFIC_FLAGS_BIT_FIELDS (field : BitField)
    (h : field ∈ InstructionStream.CODE_KIND_SPECIFIC_FLAGS_BIT_FIELDS) :
    field.kSize = 1 ∧ field.kShift < 4 := by
  simp only [InstructionStream.CODE_KIND_SPECIFIC_FLAGS_BIT_FIELDS, List.mem_cons,
    List.mem_singleton, List.not_mem_nil, or_false] at h
  rcases h with h | h | h | h <;> subst h <;> decide

/-- C29: the four kind-specific flags are one-bit fields at the distinct bits 0, 1, 2 and 3 of
the `kind_specific_flags` word, `marked_for_deoptimization` at bit
`kMarkedForDeoptimizationBit = 0`.  Updating one of the four flags in any word reads back the
value written and leaves the other three flags unchanged; in fact every other bit of the 32-bit
word keeps its value, and the result is a 32-bit word. -/
theorem InstructionStream.kind_specific_flags_update :
    (InstructionStream.MarkedForDeoptimizationField = ⟨0, 1⟩ ∧
      InstructionStream.EmbeddedObjectsClearedField = ⟨1, 1⟩ ∧
      InstructionStream.CanHaveWeakObjectsField = ⟨2, 1⟩ ∧
      InstructionStream.IsPromiseRejectionField = ⟨3, 1⟩ ∧
      InstructionStream.kMarkedForDeoptimizationBit = 0 ∧
      InstructionStream.CODE_KIND_SPECIFIC_FLAGS_BIT_FIELDS_Ranges.kBitsCount = 4 ∧
      InstructionStream.CODE_KIND_SPECIFIC_FLAGS_BIT_FIELDS.Nodup) ∧
    (∀ field ∈ InstructionStream.CODE_KIND_SPECIFIC_FLAGS_BIT_FIELDS,
      ∀ (kind_specific_flags : Nat) (value : Bool),
        InstructionStream.kind_specific_flag field
            (InstructionStream.set_kind_specific_flag field kind_specific_flags value) = value ∧
        (∀ other ∈ InstructionStream.CODE_KIND_SPECIFIC_FLAGS_BIT_FIELDS, other ≠ field →
          InstructionStream.kind_specific_flag other
              (InstructionStream.set_kind_specific_flag field kind_specific_flags value) =
            InstructionStream.kind_specific_flag other kind_specific_flags) ∧
        (∀ i : Nat, i < 32 → i ≠ field.kShift →
          (InstructionStream.set_kind_specific_flag field kind_specific_flags value).testBit i =
            kind_specific_flags.testBit i) ∧
        InstructionStream.set_kind_specific_flag field kind_specific_flags value < 2 ^ 32) := by
  refine ⟨by decide, fun field hf w v => ?_⟩
  obtain ⟨hsize, hshift⟩ := InstructionStream.mem_CODE_KIND_SPECIFIC_FLAGS_BIT_FIELDS field hf
  have hfit : field.kShift + field.kSize ≤ 32 := by omega
  have hv : v.toNat < 2 ^ field.kSize := by rw [hsize]; cases v <;> decide
  refine ⟨?_, fun other ho hne => ?_, fun i hi hne => ?_, BitField.update_lt field w _ hfit⟩
  · unfold InstructionStream.kind_specific_flag InstructionStream.set_kind_specific_flag
    rw [BitField.decode_update_self field w _ hfit hv]
    cases v <;> rfl
  · obtain ⟨hosize, hoshift⟩ :=
      InstructionStream.mem_CODE_KIND_SPECIFIC_FLAGS_BIT_FIELDS other ho
    have hshifts : other.kShift ≠ field.kShift := by
      intro h
      apply hne
      cases other
      cases field
      simp_all
    unfold InstructionStream.kind_specific_flag InstructionStream.set_kind_specific_flag
    rw [BitField.decode_update_other field other w _ hfit hv (by omega) (by omega)]
  · unfold InstructionStream.set_kind_specific_flag
    rw [BitField.testBit_update field w _ i hfit hv]
    have h1 : ¬ (field.kShift ≤ i ∧ i < field.kShift + field.kSize) := by omega
    simp [h1, hi]

/-- C29 for the word `0b0101`: setting `embedded_objects_cleared` reads back as set and leaves
`marked_for_deoptimization` as it was. -/
theorem InstructionStream.kind_specific_flags_update_witness :
    InstructionStream.kind_specific_flag InstructionStream.EmbeddedObjectsClearedField
        (InstructionStream.set_kind_specific_flag InstructionStream.EmbeddedObjectsClearedField
          5 true) = true ∧
    InstructionStream.kind_specific_flag InstructionStream.MarkedForDeoptimizationField
        (InstructionStream.set_kind_specific_flag InstructionStream.EmbeddedObjectsClearedField
          5 true) =
      InstructionStream.kind_specific_flag InstructionStream.MarkedForDeoptimizationField 5 :=
  have h := InstructionStream.kind_specific_flags_update.2
    InstructionStream.EmbeddedObjectsClearedField (by decide) 5 true
  ⟨h.1, h.2.1 InstructionStream.MarkedForDeoptimizationField (by decide) (by decide)⟩

/-! ## The flags of `Code` and of its `InstructionStream` -/

theorem Code.flags_word_eq (k : Nat) (builtin_id : Int) (t o : Bool) (hk : k < 16) :
    Code.initialize_flags k builtin_id t o = k + 16 * t.toNat + 32 * o.toNat := by
  have ht : t.toNat < 2 := by cases t <;> simp
  have ho : o.toNat < 2 := by cases o <;> simp
  have e1 : (k <<< 0) % 2 ^ 32 = k := by rw [Nat.shiftLeft_eq]; omega
  have e2 : (t.toNat <<< 4) % 2 ^ 32 = t.toNat <<< 4 := by rw [Nat.shiftLeft_eq]; omega
  have e3 : (o.toNat <<< 5) % 2 ^ 32 = o.toNat <<< 5 := by rw [Nat.shiftLeft_eq]; omega
  simp only [Code.initialize_flags, BitField.encode, Code.KindField, Code.IsTurbofannedField,
    Code.IsOffHeapTrampoline, BitField.Next, Nat.zero_add, Nat.reduceAdd]
  rw [e1, e2, e3, Nat.or_shiftLeft_eq_add _ _ 4 (by omega),
    Nat.or_shiftLeft_eq_add _ _ 5 (by omega)]
  omega

theorem InstructionStream.decode_initialize_flags (k s : Nat) (t o : Bool) (hk : k < 16)
    (hs : s < 2 ^ 24) :
    InstructionStream.kind (InstructionStream.initialize_flags k t s o) = k ∧
    InstructionStream.is_turbofanned (InstructionStream.initialize_flags k t s o) = t ∧
    InstructionStream.is_off_heap_trampoline (InstructionStream.initialize_flags k t s o) = o := by
  have ht : t.toNat < 2 := by cases t <;> simp
  have ho : o.toNat < 2 := by cases o <;> simp
  have hw := InstructionStream.initialize_flags_eq k s t o hk hs
  refine ⟨?_, ?_, ?_⟩
  · rw [InstructionStream.kind, BitField.decode_eq, hw]
    simp only [InstructionStream.KindField]
    omega
  · rw [InstructionStream.is_turbofanned, BitField.decode_eq, hw]
    simp only [InstructionStream.IsTurbofannedField, InstructionStream.KindField, BitField.Next]
    have : (k + 16 * t.toNat + 32 * s + 536870912 * o.toNat) / 2 ^ (0 + 4) % 2 ^ 1 = t.toNat := by
      omega
    rw [this]
    cases t <;> rfl
  · rw [InstructionStream.is_off_heap_trampoline, BitField.decode_eq, hw]
    simp only [InstructionStream.IsOffHeapTrampoline, InstructionStream.StackSlotsField,
      InstructionStream.IsTurbofannedField, InstructionStream.KindField, BitField.Next]
    have : (k + 16 * t.toNat + 32 * s + 536870912 * o.toNat) / 2 ^ (0 + 4 + 1 + 24) % 2 ^ 1 =
        o.toNat := by
      omega
    rw [this]
    cases o <;> rfl

theorem Code.flags_word_decode (k : Nat) (builtin_id : Int) (t o : Bool) (hk : k < 16) :
    Code.kind (Code.initialize_flags k builtin_id t o) = k ∧
    Code.is_turbofanned (Code.initialize_flags k builtin_id t o) = t ∧
    Code.is_off_heap_trampoline (Code.initialize_flags k builtin_id t o) = o := by
  have ht : t.toNat < 2 := by cases t <;> simp
  have ho : o.toNat < 2 := by cases o <;> simp
  have hw := Code.flags_word_eq k builtin_id t o hk
  refine ⟨?_, ?_, ?_⟩
  · rw [Code.kind, BitField.decode_eq, hw]
    simp only [Code.KindField]
    omega
  · rw [Code.is_turbofanned, BitField.decode_eq, hw]
    simp only [Code.IsTurbofannedField, Code.KindField, BitField.Next]
    have : (k + 16 * t.toNat + 32 * o.toNat) / 2 ^ (0 + 4) % 2 ^ 1 = t.toNat := by omega
    rw [this]
    cases t <;> rfl
  · rw [Code.is_off_heap_trampoline, BitField.decode_eq, hw]
    simp only [Code.IsOffHeapTrampoline, Code.IsTurbofannedField, Code.KindField, BitField.Next]
    have : (k + 16 * t.toNat + 32 * o.toNat) / 2 ^ (0 + 4 + 1) % 2 ^ 1 = o.toNat := by omega
    rw [this]
    cases o <;> rfl

/-- C30: the flags cached in `Code` agree with those of its `InstructionStream`.  For every code
kind `k` that fits the 4 bits of the kind field, every builtin id, booleans `t` and `o` and
stack-slot count `s < 2 ^ 24`, the 16-bit word built by `Code::initialize_flags(k, builtin, t,
o)` and the 32-bit word built by `InstructionStream::initialize_flags(k, t, s, o)` decode to the
same kind `k`, the same `is_turbofanned` `t` and the same `is_off_heap_trampoline` `o`, although
the trampoline flag is bit 5 of the `Code` word and bit 29 of the `InstructionStream` word; the
`Code` word uses only its low 6 bits. -/
theorem Code.initialize_flags_agrees (k s : Nat) (builtin_id : Int) (t o : Bool)
    (hk : k < Code.KindField.kNumValues) (hs : s < 2 ^ 24) :
    (Code.kind (Code.initialize_flags k builtin_id t o) =
        InstructionStream.kind (InstructionStream.initialize_flags k t s o) ∧
      Code.is_turbofanned (Code.initialize_flags k builtin_id t o) =
        InstructionStream.is_turbofanned (InstructionStream.initialize_flags k t s o) ∧
      Code.is_off_heap_trampoline (Code.initialize_flags k builtin_id t o) =
        InstructionStream.is_off_heap_trampoline (InstructionStream.initialize_flags k t s o)) ∧
    (Code.kind (Code.initialize_flags k builtin_id t o) = k ∧
      Code.is_turbofanned (Code.initialize_flags k builtin_id t o) = t ∧
      Code.is_off_heap_trampoline (Code.initialize_flags k builtin_id t o) = o) ∧
    (Code.IsOffHeapTrampoline = ⟨5, 1⟩ ∧ InstructionStream.IsOffHeapTrampoline = ⟨29, 1⟩ ∧
      Code.KindField = InstructionStream.KindField ∧
      Code.IsTurbofannedField = InstructionStream.IsTurbofannedField) ∧
    (Code.initialize_flags k builtin_id t o < 2 ^ 6 ∧
      Code.FLAGS_BIT_FIELDS_Ranges.kBitsCount = 6 ∧
      Code.KindField.kMask ||| Code.IsTurbofannedField.kMask ||| Code.IsOffHeapTrampoline.kMask =
        2 ^ 6 - 1) := by
  have hk16 : k < 16 := hk
  have ht : t.toNat < 2 := by cases t <;> simp
  have ho : o.toNat < 2 := by cases o <;> simp
  obtain ⟨c1, c2, c3⟩ := Code.flags_word_decode k builtin_id t o hk16
  obtain ⟨i1, i2, i3⟩ := InstructionStream.decode_initialize_flags k s t o hk16 hs
  refine ⟨⟨by rw [c1, i1], by rw [c2, i2], by rw [c3, i3]⟩, ⟨c1, c2, c3⟩, by decide, ?_,
    by decide, by decide⟩
  rw [Code.flags_word_eq k builtin_id t o hk16]
  omega

/-- C30 for code kind 11, builtin id 7, turbofanned, 5 stack slots, an off-heap trampoline. -/
theorem Code.initialize_flags_agrees_witness :
    Code.kind (Code.initialize_flags 11 7 true true) =
        InstructionStream.kind (InstructionStream.initialize_flags 11 true 5 true) ∧
    Code.is_off_heap_trampoline (Code.initialize_flags 11 7 true true) =
        InstructionStream.is_off_heap_trampoline
          (InstructionStream.initialize_flags 11 true 5 true) ∧
    Code.initialize_flags 11 7 true true < 2 ^ 6 :=
  have h := Code.initialize_flags_agrees 11 5 7 true true (by decide) (by decide)
  ⟨h.1.1, h.1.2.2, h.2.2.2.1⟩

end v8
